import Mathlib

/-!
Verification development for the o1heap constant-time memory allocator
(src/o1heap/o1heap.c).

The model is a shallow embedding for a 64-bit platform:
  sizeof(void*) = 8, so O1HEAP_ALIGNMENT = 16, FRAGMENT_SIZE_MIN = 32,
  FRAGMENT_SIZE_MAX = 2^63, NUM_BINS_MAX = 64.

The arena is modelled as a list of fragments in address order.  The C code
keeps the fragments in a doubly-linked address-ordered list whose links are
`header.next` and `header.prev_used`; a well-formed such list is exactly a
list, and a fragment size (computed in C as `next - self`, or
`arena_end - self` for the last fragment) is the `size` field of the list
element, with fragment addresses being the prefix sums of the sizes
(address 0 is the start of the arena, right after the instance record).
Bins store fragment addresses (the C code stores pointers); `rebin` pushes
on the front of the bin list and `unbin` removes a specific address, which
is what the intrusive doubly-linked free list operations do.  All size_t
arithmetic is on Nat; the C guards proven in this file ensure the values
stay below 2^64 on the reached paths, and explicitly 64-bit operations
(the bitwise complement in the mask computations) are modelled with an
explicit 64-bit complement.  Payload bytes are not modelled; a returned
pointer is the payload address (fragment address + O1HEAP_ALIGNMENT).
C assertion failures (which are undefined behavior in release builds and
unreachable from well-formed states) are modelled as leaving the heap
unchanged.
-/

namespace O1heap

/-- O1HEAP_ALIGNMENT = sizeof(void*) * 2 on a 64-bit platform. -/
def O1HEAP_ALIGNMENT : Nat := 16

/-- FRAGMENT_SIZE_MIN = O1HEAP_ALIGNMENT * 2. -/
def FRAGMENT_SIZE_MIN : Nat := 2 * O1HEAP_ALIGNMENT

/-- FRAGMENT_SIZE_MAX = (SIZE_MAX >> 1) + 1 = 2^63. -/
def FRAGMENT_SIZE_MAX : Nat := 2 ^ 63

/-- NUM_BINS_MAX = sizeof(size_t) * CHAR_BIT = 64. -/
def NUM_BINS_MAX : Nat := 64

/-- INSTANCE_SIZE_PADDED: sizeof(O1HeapInstance) is
64 bins * 8 + mask 8 + arena_end 8 + diagnostics (4 * 8 + 8) = 568 bytes,
padded up to a multiple of O1HEAP_ALIGNMENT, giving 576. -/
def INSTANCE_SIZE_PADDED : Nat := 576

/-- o1heapMinArenaSize = INSTANCE_SIZE_PADDED + FRAGMENT_SIZE_MIN. -/
def o1heapMinArenaSize : Nat := INSTANCE_SIZE_PADDED + FRAGMENT_SIZE_MIN

/-- larger(a, b) from the C source: max of two sizes. -/
def larger (a b : Nat) : Nat := if a > b then a else b

/-- Fuel-driven binary logarithm, structurally recursive so that concrete
instances evaluate inside the kernel; equal to Nat.log2 whenever the fuel
is at least the argument (theorem log2Fuel_eq). -/
def log2Fuel : Nat → Nat → Nat
  | 0, _ => 0
  | fuel + 1, x => if 2 ≤ x then log2Fuel fuel (x / 2) + 1 else 0

/-- log2Floor from the C source, defined there via count-leading-zeros:
(W - 1) - clz x = floor(log2 x) for positive x.  Undefined for zero in C
(log2Floor 0 = 0 here); all uses are guarded by positivity. -/
def log2Floor (x : Nat) : Nat := log2Fuel x x

/-- pow2 from the C source: raise 2 to the given power. -/
def pow2 (power : Nat) : Nat := 2 ^ power

/-- The 64-bit bitwise complement `~y` of the C source, for y < 2^64.
`~y = SIZE_MAX - y = SIZE_MAX XOR y`; the XOR form is used because it has
the best bitwise lemmas. -/
def bitNot64 (y : Nat) : Nat := (2 ^ 64 - 1) ^^^ y

/-- roundUpToPowerOf2 from the C source:
`1 << ((W) - clz(x - 1))` = 2 ^ (floor(log2 (x - 1)) + 1) for x >= 2.
The C code asserts x >= 2; the shift does not overflow exactly when the
result is at most 2^63 = FRAGMENT_SIZE_MAX, which is proven for every
reached call site. -/
def roundUpToPowerOf2 (x : Nat) : Nat := 2 ^ (log2Floor (x - 1) + 1)

/-- A fragment of the arena: its size in bytes (a multiple of
FRAGMENT_SIZE_MIN) and its used flag (the low bit of `header.prev_used`
in the C source). -/
structure Frag where
  size : Nat
  used : Bool
deriving DecidableEq, Repr

/-- The O1HeapInstance state.  The C diagnostics sub-record is flattened
into the four size_t fields and the uint64 oom counter. -/
structure Heap where
  capacity : Nat
  /-- The fragments of the arena in address order (the address-ordered
  doubly-linked list of the C source).  The address of a fragment is the
  sum of the sizes of the fragments before it. -/
  frags : List Frag
  /-- bins[i] holds the addresses of the free fragments in bin i, most
  recently binned first (the head is what `handle->bins[i]` points at). -/
  bins : List (List Nat)
  nonempty_bin_mask : Nat
  allocated : Nat
  peak_allocated : Nat
  peak_request_size : Nat
  oom_count : Nat
deriving DecidableEq, Repr

instance : Inhabited Frag := ⟨⟨0, false⟩⟩

instance : Inhabited Heap := ⟨⟨0, [], [], 0, 0, 0, 0, 0⟩⟩

/-- Address of the fragment in position `i` given the fragments before it:
prefix sum of sizes. -/
def sumSizes (l : List Frag) : Nat := (l.map Frag.size).sum

/-- Sum of the sizes of the used fragments; the C code maintains
`diagnostics.allocated` equal to this quantity. -/
def usedSum (l : List Frag) : Nat := ((l.filter (fun f => f.used)).map Frag.size).sum

/-- Locate the fragment whose address is `a` in a fragment list whose
first fragment sits at address `base`.  Returns the fragments before it,
the fragment itself and the fragments after it.  This models following
the address-ordered linked list to a pointer handed to free or realloc. -/
def locate (base : Nat) : List Frag → Nat → Option (List Frag × Frag × List Frag)
  | [], _ => none
  | f :: fs, a =>
    if base = a then some ([], f, fs)
    else
      match locate (base + f.size) fs a with
      | some (pre, g, suf) => some (f :: pre, g, suf)
      | none => none

/-- The (address, size) pairs of the free fragments of a fragment list
whose first fragment sits at address `base`. -/
def freePairs (base : Nat) : List Frag → List (Nat × Nat)
  | [] => []
  | f :: fs =>
    if f.used then freePairs (base + f.size) fs
    else (base, f.size) :: freePairs (base + f.size) fs

/-- The addresses of the used fragments of a fragment list whose first
fragment sits at address `base`. -/
def usedAddrsFrom (base : Nat) : List Frag → List Nat
  | [] => []
  | f :: fs =>
    if f.used then base :: usedAddrsFrom (base + f.size) fs
    else usedAddrsFrom (base + f.size) fs

/-- The addresses of the used (live) fragments of a heap. -/
def Heap.usedAddrs (h : Heap) : List Nat := usedAddrsFrom 0 h.frags

/-- The bin list at index `i` (empty for an out-of-range index). -/
def Heap.bin (h : Heap) (i : Nat) : List Nat := h.bins.getD i []

/-- The bin index used by rebin and unbin:
log2Floor(fragment_size / FRAGMENT_SIZE_MIN). -/
def binIndexOf (fragment_size : Nat) : Nat := log2Floor (fragment_size / FRAGMENT_SIZE_MIN)

/-- rebin from the C source: push the fragment address on the front of the
bin list for its size class and set the corresponding mask bit. -/
def rebin (h : Heap) (fragment : Nat) (fragment_size : Nat) : Heap :=
  let idx := binIndexOf fragment_size
  { h with
    bins := h.bins.set idx (fragment :: h.bin idx)
    nonempty_bin_mask := h.nonempty_bin_mask ||| pow2 idx }

/-- unbin from the C source: remove the fragment address from its bin list;
when the fragment was the bin head and the list became empty, clear the
mask bit. -/
def unbin (h : Heap) (fragment : Nat) (fragment_size : Nat) : Heap :=
  let idx := binIndexOf fragment_size
  let l := h.bin idx
  let l2 := l.erase fragment
  if l.head? = some fragment then
    { h with
      bins := h.bins.set idx l2
      nonempty_bin_mask :=
        if l2 = [] then h.nonempty_bin_mask &&& bitNot64 (pow2 idx)
        else h.nonempty_bin_mask }
  else
    { h with bins := h.bins.set idx l2 }

/-- o1heapInit from the C source, for an aligned non-null base pointer
(base alignment is not part of the model, which has no absolute machine
addresses).  `size` is the arena size in bytes.  The C loop that
decrements capacity until it is a multiple of FRAGMENT_SIZE_MIN computes
rounding down to a multiple of FRAGMENT_SIZE_MIN. -/
def o1heapInit (size : Nat) : Option Heap :=
  if size ≥ o1heapMinArenaSize then
    let capacity0 := size - INSTANCE_SIZE_PADDED
    let capacity1 := if capacity0 > FRAGMENT_SIZE_MAX then FRAGMENT_SIZE_MAX else capacity0
    let capacity := capacity1 - capacity1 % FRAGMENT_SIZE_MIN
    let h : Heap :=
      { capacity := capacity
        frags := [⟨capacity, false⟩]
        bins := List.replicate NUM_BINS_MAX []
        nonempty_bin_mask := 0
        allocated := 0
        peak_allocated := 0
        peak_request_size := 0
        oom_count := 0 }
    some (rebin h 0 capacity)
  else none

/-- The body of o1heapAllocate up to (excluding) the final diagnostics
update: returns the updated heap and the payload pointer, or the heap
unchanged and none on failure.  The two `none` fallbacks correspond to C
assertion failures (empty bin for a set mask bit; a binned address that is
not a fragment address), both unreachable from well-formed states. -/
def allocateCore (h : Heap) (amount : Nat) : Heap × Option Nat :=
  if 0 < amount ∧ amount ≤ h.capacity - O1HEAP_ALIGNMENT then
    let alloc_size := roundUpToPowerOf2 (amount + O1HEAP_ALIGNMENT)
    let optimal_bin_index := log2Floor (alloc_size / FRAGMENT_SIZE_MIN)
    let candidate_bin_mask := bitNot64 (pow2 optimal_bin_index - 1)
    let suitable_bins := h.nonempty_bin_mask &&& candidate_bin_mask
    let smallest_bin_mask := suitable_bins &&& bitNot64 (suitable_bins - 1)
    if smallest_bin_mask ≠ 0 then
      let bin_index := log2Floor smallest_bin_mask
      match (h.bin bin_index).head? with
      | none => (h, none)
      | some addr =>
        match locate 0 h.frags addr with
        | none => (h, none)
        | some (pre, frag, suf) =>
          let frag_size := frag.size
          let h1 := unbin h addr frag_size
          let leftover := frag_size - alloc_size
          let h2 :=
            if FRAGMENT_SIZE_MIN ≤ leftover then
              rebin { h1 with frags := pre ++ ⟨alloc_size, true⟩ :: ⟨leftover, false⟩ :: suf }
                (addr + alloc_size) leftover
            else
              { h1 with frags := pre ++ ⟨frag_size, true⟩ :: suf }
          ({ h2 with
              allocated := h2.allocated + alloc_size
              peak_allocated := larger h2.peak_allocated (h2.allocated + alloc_size) },
            some (addr + O1HEAP_ALIGNMENT))
    else (h, none)
  else (h, none)

/-- o1heapAllocate from the C source.  The returned pointer is the payload
address.  The final block updates peak_request_size unconditionally and
increments oom_count when the allocation failed with a nonzero amount. -/
def o1heapAllocate (h : Heap) (amount : Nat) : Heap × Option Nat :=
  let r := allocateCore h amount
  let h2 := { r.1 with peak_request_size := larger r.1.peak_request_size amount }
  if r.2 = none ∧ 0 < amount then
    ({ h2 with oom_count := h2.oom_count + 1 }, r.2)
  else (h2, r.2)

/-- Whether an address-order neighbor (if it exists) is free; the arena
boundary counts as not free, as in the C code where a null prev or next
pointer prevents joining. -/
def neighborFree : Option Frag → Bool
  | some f => !f.used
  | none => false

/-- The size of an address-order neighbor, 0 when absent. -/
def neighborSize : Option Frag → Nat
  | some f => f.size
  | none => 0

/-- o1heapFree from the C source.  `none` is the NULL pointer (a no-op).
A pointer that does not address a used fragment is an assertion failure
in C (undefined behavior in release builds); modelled as a no-op. -/
def o1heapFree (h : Heap) (pointer : Option Nat) : Heap :=
  match pointer with
  | none => h
  | some p =>
    let addr := p - O1HEAP_ALIGNMENT
    match locate 0 h.frags addr with
    | none => h
    | some (pre, frag, suf) =>
      if frag.used = false then h
      else
        let frag_size := frag.size
        let h0 := { h with allocated := h.allocated - frag_size }
        let join_left := neighborFree pre.getLast?
        let join_right := neighborFree suf.head?
        let prev_size := neighborSize pre.getLast?
        let next_size := neighborSize suf.head?
        if join_left && join_right then
          let h1 := unbin h0 (addr - prev_size) prev_size
          let h2 := unbin h1 (addr + frag_size) next_size
          rebin
            { h2 with
              frags := pre.dropLast ++ ⟨prev_size + frag_size + next_size, false⟩ :: suf.tail }
            (addr - prev_size) (prev_size + frag_size + next_size)
        else if join_left then
          let h1 := unbin h0 (addr - prev_size) prev_size
          rebin { h1 with frags := pre.dropLast ++ ⟨prev_size + frag_size, false⟩ :: suf }
            (addr - prev_size) (prev_size + frag_size)
        else if join_right then
          let h1 := unbin h0 (addr + frag_size) next_size
          rebin { h1 with frags := pre ++ ⟨frag_size + next_size, false⟩ :: suf.tail }
            addr (frag_size + next_size)
        else
          rebin { h0 with frags := pre ++ ⟨frag_size, false⟩ :: suf } addr frag_size

/-- o1heapReallocate from the C source.  Case order as in the code:
null pointer delegates to allocate; zero amount delegates to free; an
amount above the per-call limit bumps peak_request_size and oom_count;
then shrink in place, expand forward, expand backward, and finally the
allocate-copy-free fallback.  Byte contents are not modelled (the memmove
and memcpy calls move payload bytes only and do not affect this state). -/
def o1heapReallocate (h : Heap) (pointer : Option Nat) (new_amount : Nat) : Heap × Option Nat :=
  match pointer with
  | none => o1heapAllocate h new_amount
  | some p =>
    if new_amount = 0 then (o1heapFree h (some p), none)
    else
      let h := { h with peak_request_size := larger h.peak_request_size new_amount }
      if new_amount > h.capacity - O1HEAP_ALIGNMENT then
        ({ h with oom_count := h.oom_count + 1 }, none)
      else
        let addr := p - O1HEAP_ALIGNMENT
        match locate 0 h.frags addr with
        | none => (h, none)
        | some (pre, frag, suf) =>
          if frag.used = false then (h, none)
          else
            let frag_size := frag.size
            let new_frag_size := roundUpToPowerOf2 (new_amount + O1HEAP_ALIGNMENT)
            let prev_free := neighborFree pre.getLast?
            let next_free := neighborFree suf.head?
            let prev_size := if prev_free then neighborSize pre.getLast? else 0
            let next_size := if next_free then neighborSize suf.head? else 0
            if new_frag_size ≤ frag_size then
              -- Shrink or same size; data stays in place.
              let leftover := frag_size - new_frag_size
              if FRAGMENT_SIZE_MIN ≤ leftover then
                let h1 := { h with allocated := h.allocated - leftover }
                if next_free then
                  let h2 := unbin h1 (addr + frag_size) next_size
                  (rebin
                    { h2 with
                      frags := pre ++ ⟨new_frag_size, true⟩ ::
                        ⟨leftover + next_size, false⟩ :: suf.tail }
                    (addr + new_frag_size) (leftover + next_size), some p)
                else
                  (rebin
                    { h1 with
                      frags := pre ++ ⟨new_frag_size, true⟩ :: ⟨leftover, false⟩ :: suf }
                    (addr + new_frag_size) leftover, some p)
              else (h, some p)
            else if next_free && decide (new_frag_size ≤ frag_size + next_size) then
              -- Expand forward; data stays in place.
              let h1 := unbin h (addr + frag_size) next_size
              let leftover := frag_size + next_size - new_frag_size
              if FRAGMENT_SIZE_MIN ≤ leftover then
                let h2 := rebin
                  { h1 with
                    frags := pre ++ ⟨new_frag_size, true⟩ :: ⟨leftover, false⟩ :: suf.tail }
                  (addr + new_frag_size) leftover
                let h3 := { h2 with allocated := h2.allocated + (new_frag_size - frag_size) }
                ({ h3 with peak_allocated := larger h3.peak_allocated h3.allocated }, some p)
              else
                let h2 := { h1 with frags := pre ++ (⟨frag_size + next_size, true⟩ : Frag) :: suf.tail }
                let h3 := { h2 with allocated := h2.allocated + next_size }
                ({ h3 with peak_allocated := larger h3.peak_allocated h3.allocated }, some p)
            else if prev_free && decide (new_frag_size ≤ prev_size + frag_size + next_size) then
              -- Expand backward (and forward); the payload moves to prev.
              let h1 := unbin h (addr - prev_size) prev_size
              let h2 := if next_free then unbin h1 (addr + frag_size) next_size else h1
              let out := (addr - prev_size) + O1HEAP_ALIGNMENT
              let total := prev_size + frag_size + next_size
              let leftover := total - new_frag_size
              let survivors := if next_free then suf.tail else suf
              if FRAGMENT_SIZE_MIN ≤ leftover then
                let h3 := rebin
                  { h2 with
                    frags := pre.dropLast ++ ⟨new_frag_size, true⟩ ::
                      ⟨leftover, false⟩ :: survivors }
                  ((addr - prev_size) + new_frag_size) leftover
                let h4 := { h3 with allocated := h3.allocated + (new_frag_size - frag_size) }
                ({ h4 with peak_allocated := larger h4.peak_allocated h4.allocated }, some out)
              else
                let h3 := { h2 with frags := pre.dropLast ++ (⟨total, true⟩ : Frag) :: survivors }
                let h4 := { h3 with allocated := h3.allocated + (prev_size + next_size) }
                ({ h4 with peak_allocated := larger h4.peak_allocated h4.allocated }, some out)
            else
              -- Allocate new block, copy data, free the old block.
              let r := o1heapAllocate h new_amount
              match r.2 with
              | none => (r.1, none)
              | some q => (o1heapFree r.1 (some p), some q)

/-- o1heapGetMaxAllocationSize from the C source. -/
def o1heapGetMaxAllocationSize (h : Heap) : Nat :=
  pow2 (log2Floor h.capacity) - O1HEAP_ALIGNMENT

/-- o1heapDoInvariantsHold from the C source.  The final inequality is
computed in C with wrap-around size_t addition, modelled by the explicit
mod 2^64. -/
def o1heapDoInvariantsHold (h : Heap) : Bool :=
  ((List.range NUM_BINS_MAX).all fun i =>
    (h.nonempty_bin_mask &&& pow2 i ≠ 0 : Bool) = !(h.bin i).isEmpty) &&
  (h.capacity ≤ FRAGMENT_SIZE_MAX : Bool) &&
  (FRAGMENT_SIZE_MIN ≤ h.capacity : Bool) &&
  (h.capacity % FRAGMENT_SIZE_MIN = 0 : Bool) &&
  (h.allocated ≤ h.capacity : Bool) &&
  (h.allocated % FRAGMENT_SIZE_MIN = 0 : Bool) &&
  (h.peak_allocated ≤ h.capacity : Bool) &&
  (h.allocated ≤ h.peak_allocated : Bool) &&
  (h.peak_allocated % FRAGMENT_SIZE_MIN = 0 : Bool) &&
  ((h.peak_request_size < h.capacity : Bool) || (0 < h.oom_count : Bool)) &&
  (if h.peak_request_size = 0 then
    (h.peak_allocated = 0 : Bool) && (h.allocated = 0 : Bool) && (h.oom_count = 0 : Bool)
  else
    ((h.peak_request_size + O1HEAP_ALIGNMENT) % 2 ^ 64 ≤ h.peak_allocated : Bool) ||
      (0 < h.oom_count : Bool))

/-- The diagnostics record returned by o1heapGetDiagnostics. -/
structure O1HeapDiagnostics where
  capacity : Nat
  allocated : Nat
  peak_allocated : Nat
  peak_request_size : Nat
  oom_count : Nat
deriving DecidableEq, Repr

/-- o1heapGetDiagnostics from the C source. -/
def o1heapGetDiagnostics (h : Heap) : O1HeapDiagnostics :=
  ⟨h.capacity, h.allocated, h.peak_allocated, h.peak_request_size, h.oom_count⟩

/-- A public call on the heap. -/
inductive Op where
  | alloc (amount : Nat)
  | free (pointer : Option Nat)
  | realloc (pointer : Option Nat) (new_amount : Nat)
deriving DecidableEq, Repr

/-- The heap after one public call (the returned pointer is discarded). -/
def applyOp (h : Heap) : Op → Heap
  | .alloc n => (o1heapAllocate h n).1
  | .free p => o1heapFree h p
  | .realloc p n => (o1heapReallocate h p n).1

/-- The heap after a sequence of public calls. -/
def runOps (h : Heap) : List Op → Heap
  | [] => h
  | op :: ops => runOps (applyOp h op) ops

/-- The documented preconditions of one public call: free and reallocate
receive either the null pointer or a pointer to a live allocation (the
payload address of a used fragment). -/
def validOp (h : Heap) : Op → Bool
  | .alloc _ => true
  | .free none => true
  | .free (some p) =>
    (O1HEAP_ALIGNMENT ≤ p : Bool) && ((p - O1HEAP_ALIGNMENT) ∈ h.usedAddrs : Bool)
  | .realloc none _ => true
  | .realloc (some p) _ =>
    (O1HEAP_ALIGNMENT ≤ p : Bool) && ((p - O1HEAP_ALIGNMENT) ∈ h.usedAddrs : Bool)

/-- A sequence of public calls each of which respects the documented
preconditions in the state where it runs. -/
def validTrace (h : Heap) : List Op → Bool
  | [] => true
  | op :: ops => validOp h op && validTrace (applyOp h op) ops

/-- A sequence of o1heapAllocate calls; returns the final heap and the
list of the successfully returned pointers. -/
def allocMany (h : Heap) : List Nat → Heap × List Nat
  | [] => (h, [])
  | n :: rest =>
    let r := o1heapAllocate h n
    let rr := allocMany r.1 rest
    match r.2 with
    | some p => (rr.1, p :: rr.2)
    | none => (rr.1, rr.2)

/-- o1heapFree applied to a list of pointers in order. -/
def freeAll (h : Heap) : List Nat → Heap
  | [] => h
  | q :: rest => freeAll (o1heapFree h (some q)) rest

/-- A concrete heap produced by o1heapInit on a 1600-byte arena
(capacity 1024), used by witnesses and counterexamples. -/
def exampleHeap : Heap := (o1heapInit 1600).getD default

/-- A concrete heap produced by o1heapInit on a 672-byte arena
(capacity 96, not a power of two), used by witnesses and
counterexamples. -/
def exampleHeap96 : Heap := (o1heapInit 672).getD default

/-- exampleHeap after one 16-byte allocation: a 32-byte used fragment at
address 0 (payload pointer 16) followed by a 992-byte free fragment. -/
def exampleHeapA : Heap := (o1heapAllocate exampleHeap 16).1

/-- The bins and mask represent exactly the free fragment list `fl`:
every binned address is a free fragment address in its size class bin,
every free fragment is binned in its size class, bin lists have no
duplicates, and the mask has exactly the bits of the non-empty bins. -/
structure BinsRep (bins : List (List Nat)) (mask : Nat) (fl : List (Nat × Nat)) : Prop where
  len : bins.length = NUM_BINS_MAX
  mem_bin : ∀ i, ∀ a ∈ bins.getD i [], ∃ s, (a, s) ∈ fl ∧ binIndexOf s = i
  bin_mem : ∀ a s, (a, s) ∈ fl → a ∈ bins.getD (binIndexOf s) []
  nodup : ∀ i, (bins.getD i []).Nodup
  maskBit : ∀ i, mask.testBit i = true ↔ bins.getD i [] ≠ []
  maskLt : mask < 2 ^ 64

/-- The structural part of well-formedness of a heap state: the fragment
list, the bins, and the capacity/allocated/peak accounting.  These hold
for every heap produced by o1heapInit and are preserved by every public
call; they even hold at the intermediate point inside o1heapReallocate
where peak_request_size has been raised but the heap not yet updated
(where the peak_request_size conditions of WF may be temporarily
violated). -/
structure WFbase (h : Heap) : Prop where
  cap_min : FRAGMENT_SIZE_MIN ≤ h.capacity
  cap_max : h.capacity ≤ FRAGMENT_SIZE_MAX
  cap_mod : h.capacity % FRAGMENT_SIZE_MIN = 0
  frags_ne : h.frags ≠ []
  total : sumSizes h.frags = h.capacity
  frag_min : ∀ f ∈ h.frags, FRAGMENT_SIZE_MIN ≤ f.size
  frag_mod : ∀ f ∈ h.frags, f.size % FRAGMENT_SIZE_MIN = 0
  no_adj : List.Chain' (fun f g => f.used = true ∨ g.used = true) h.frags
  bins : BinsRep h.bins h.nonempty_bin_mask (freePairs 0 h.frags)
  alloc_eq : h.allocated = usedSum h.frags
  peak_ge : h.allocated ≤ h.peak_allocated
  peak_cap : h.peak_allocated ≤ h.capacity
  peak_mod : h.peak_allocated % FRAGMENT_SIZE_MIN = 0

/-- Well-formedness of a heap state: the structural part plus the
peak_request_size accounting.  These are the properties maintained by the
C code (asserted throughout in debug builds) for every heap produced by
o1heapInit, after every public call. -/
structure WF (h : Heap) : Prop where
  base : WFbase h
  prs_cap : h.peak_request_size < h.capacity ∨ 0 < h.oom_count
  prs_zero : h.peak_request_size = 0 → h.peak_allocated = 0 ∧ h.oom_count = 0
  prs_pos : 0 < h.peak_request_size →
    h.peak_request_size + O1HEAP_ALIGNMENT ≤ h.peak_allocated ∨ 0 < h.oom_count

/-! ## Arithmetic helpers -/

theorem log2Fuel_eq {fuel x : Nat} (h : x ≤ fuel) : log2Fuel fuel x = Nat.log2 x := by
  induction fuel generalizing x with
  | zero =>
    have hx : x = 0 := by omega
    subst hx
    rw [Nat.log2]
    rfl
  | succ fuel ih =>
    rw [Nat.log2, log2Fuel]
    by_cases h2 : 2 ≤ x
    · rw [if_pos h2, if_pos h2, ih (by omega)]
    · rw [if_neg h2, if_neg h2]

theorem log2Floor_eq (x : Nat) : log2Floor x = Nat.log2 x := log2Fuel_eq (Nat.le_refl x)


theorem larger_eq_max (a b : Nat) : larger a b = max a b := by
  unfold larger; split <;> omega

@[simp] theorem larger_zero_right (a : Nat) : larger a 0 = a := by
  rw [larger_eq_max]; omega

theorem larger_idem (a b : Nat) : larger (larger a b) b = larger a b := by
  rw [larger_eq_max, larger_eq_max]; omega

theorem le_larger_left (a b : Nat) : a ≤ larger a b := by rw [larger_eq_max]; omega

theorem le_larger_right (a b : Nat) : b ≤ larger a b := by rw [larger_eq_max]; omega

theorem larger_le (a b c : Nat) (h1 : a ≤ c) (h2 : b ≤ c) : larger a b ≤ c := by
  rw [larger_eq_max]; omega

theorem larger_mod (a b m : Nat) (h1 : a % m = 0) (h2 : b % m = 0) : larger a b % m = 0 := by
  rw [larger_eq_max]; rcases Nat.le_total a b with h | h
  · rwa [Nat.max_eq_right h]
  · rwa [Nat.max_eq_left h]

theorem roundUpToPowerOf2_ge (x : Nat) : x ≤ roundUpToPowerOf2 x := by
  unfold roundUpToPowerOf2
  rw [log2Floor_eq]
  have := @Nat.lt_log2_self (x - 1)
  omega

theorem roundUpToPowerOf2_le_pow {x k : Nat} (hk : 1 ≤ k) (h : x ≤ 2 ^ k) :
    roundUpToPowerOf2 x ≤ 2 ^ k := by
  unfold roundUpToPowerOf2
  rw [log2Floor_eq]
  rcases Nat.eq_zero_or_pos (x - 1) with h0 | h0
  · rw [h0]; simpa [Nat.log2] using Nat.pow_le_pow_right (by norm_num) hk
  · have hlt : (x - 1).log2 < k := by
      rw [Nat.log2_lt (Nat.pos_iff_ne_zero.mp h0)]
      have : 0 < 2 ^ k := Nat.pos_pow_of_pos k (by norm_num)
      omega
    exact Nat.pow_le_pow_right (by norm_num) hlt

theorem roundUpToPowerOf2_pow_le {x m : Nat} (h : 2 ^ m < x) :
    2 ^ (m + 1) ≤ roundUpToPowerOf2 x := by
  unfold roundUpToPowerOf2
  rw [log2Floor_eq]
  have hne : x - 1 ≠ 0 := by have := Nat.pos_pow_of_pos m (show 0 < 2 by norm_num); omega
  have : m ≤ (x - 1).log2 := (Nat.le_log2 hne).mpr (by omega)
  exact Nat.pow_le_pow_right (by norm_num) (by omega)

theorem roundUpToPowerOf2_min (x : Nat) (hx : FRAGMENT_SIZE_MIN / 2 < x) :
    FRAGMENT_SIZE_MIN ≤ roundUpToPowerOf2 x := by
  have h16 : (2 : Nat) ^ 4 < x := by
    have : FRAGMENT_SIZE_MIN / 2 = 16 := by norm_num [FRAGMENT_SIZE_MIN, O1HEAP_ALIGNMENT]
    omega
  have := roundUpToPowerOf2_pow_le h16
  have h32 : FRAGMENT_SIZE_MIN = 2 ^ (4 + 1) := by norm_num [FRAGMENT_SIZE_MIN, O1HEAP_ALIGNMENT]
  omega

theorem roundUpToPowerOf2_max {x : Nat} (h2 : x ≤ FRAGMENT_SIZE_MAX) :
    roundUpToPowerOf2 x ≤ FRAGMENT_SIZE_MAX :=
  roundUpToPowerOf2_le_pow (by norm_num) h2

/-- The result of roundUpToPowerOf2 is 2 to an explicit power. -/
theorem roundUpToPowerOf2_eq_pow (x : Nat) :
    roundUpToPowerOf2 x = 2 ^ (Nat.log2 (x - 1) + 1) := by
  unfold roundUpToPowerOf2
  rw [log2Floor_eq]

theorem pow_mod_pow_eq_zero {a b : Nat} (h : a ≤ b) : 2 ^ b % 2 ^ a = 0 :=
  Nat.mod_eq_zero_of_dvd (pow_dvd_pow 2 h)

theorem roundUpToPowerOf2_mod (x : Nat) (hx : FRAGMENT_SIZE_MIN / 2 < x) :
    roundUpToPowerOf2 x % FRAGMENT_SIZE_MIN = 0 := by
  have h := roundUpToPowerOf2_min x hx
  rw [roundUpToPowerOf2_eq_pow] at h ⊢
  have h32 : FRAGMENT_SIZE_MIN = 2 ^ 5 := by norm_num [FRAGMENT_SIZE_MIN, O1HEAP_ALIGNMENT]
  rw [h32] at h ⊢
  apply pow_mod_pow_eq_zero
  by_contra hc
  push_neg at hc
  exact absurd (Nat.pow_le_pow_right (by norm_num) (by omega) : 2 ^ (Nat.log2 (x - 1) + 1) ≤ 2 ^ 4)
    (by have := h; omega)

/-- For a positive number, the bit at position log2 is set. -/
theorem testBit_log2 {n : Nat} (hn : n ≠ 0) : n.testBit n.log2 = true := by
  rw [Nat.testBit_to_div_mod]
  have h1 : 2 ^ n.log2 ≤ n := Nat.log2_self_le hn
  have h2 : n < 2 ^ (n.log2 + 1) := Nat.lt_log2_self
  have : n / 2 ^ n.log2 = 1 := by
    apply Nat.div_eq_of_lt_le <;> simp [Nat.pow_succ] at * <;> omega
  simp [this]

theorem testBit_false_of_ge {n i : Nat} (h : n < 2 ^ i) : n.testBit i = false :=
  Nat.testBit_eq_false_of_lt h

theorem lt_two_pow_of_testBit_false {n k : Nat} (h : ∀ i, k ≤ i → n.testBit i = false) :
    n < 2 ^ k := by
  by_contra hc
  push_neg at hc
  have hne : n ≠ 0 := by have := Nat.pos_pow_of_pos k (show 0 < 2 by norm_num); omega
  have hk : k ≤ n.log2 := (Nat.le_log2 hne).mpr hc
  have := testBit_log2 hne
  rw [h n.log2 hk] at this
  exact absurd this (by simp)

theorem lor_lt_two_pow {a b n : Nat} (ha : a < 2 ^ n) (hb : b < 2 ^ n) : a ||| b < 2 ^ n :=
  Nat.bitwise_lt ha hb

theorem land_le_left (a b : Nat) : a &&& b ≤ a := Nat.and_le_left

/-- testBit characterization of bitNot64 for arguments below 2^64. -/
theorem testBit_bitNot64 {y : Nat} (i : Nat) :
    (bitNot64 y).testBit i = ((decide (i < 64)).xor (y.testBit i)) := by
  unfold bitNot64
  rw [Nat.testBit_xor, Nat.testBit_two_pow_sub_one]

/-- Every positive number has a lowest set bit: the bit is set in n and
clear in n - 1. -/
theorem exists_trailing_bit {n : Nat} (hn : n ≠ 0) :
    ∃ t, n.testBit t = true ∧ (n - 1).testBit t = false := by
  induction n using Nat.strong_induction_on with
  | _ n ih =>
    rcases Nat.even_or_odd n with he | ho
    · obtain ⟨m, hm⟩ := he
      have hm2 : n = 2 * m := by omega
      have hmne : m ≠ 0 := by omega
      obtain ⟨t, ht1, ht2⟩ := ih m (by omega) hmne
      refine ⟨t + 1, ?_, ?_⟩
      · rw [Nat.testBit_succ]
        have : n / 2 = m := by omega
        rwa [this]
      · rw [Nat.testBit_succ]
        have : (n - 1) / 2 = m - 1 := by omega
        rwa [this]
    · refine ⟨0, ?_, ?_⟩
      · rw [Nat.testBit_zero]
        rcases ho with ⟨m, hm⟩
        simp [hm, Nat.add_mod]
      · rw [Nat.testBit_zero]
        rcases ho with ⟨m, hm⟩
        have : (n - 1) % 2 = 0 := by omega
        simp [this]

/-- The smallest_bin_mask computation yields a nonzero value on nonzero
input below 2^64. -/
theorem smallest_bin_mask_ne_zero {suitable : Nat} (hs : suitable ≠ 0)
    (hlt : suitable < 2 ^ 64) : suitable &&& bitNot64 (suitable - 1) ≠ 0 := by
  obtain ⟨t, ht1, ht2⟩ := exists_trailing_bit hs
  have htlt : t < 64 := by
    by_contra hc
    push_neg at hc
    have : suitable.testBit t = false :=
      testBit_false_of_ge (lt_of_lt_of_le hlt (Nat.pow_le_pow_right (by norm_num) hc))
    rw [this] at ht1; exact absurd ht1 (by simp)
  intro hzero
  have : (suitable &&& bitNot64 (suitable - 1)).testBit t = false := by rw [hzero]; simp
  rw [Nat.testBit_land, testBit_bitNot64, ht1, ht2] at this
  simp [htlt] at this

/-- A set bit in smallest_bin_mask is a set bit of suitable. -/
theorem testBit_of_smallest {suitable i : Nat}
    (h : (suitable &&& bitNot64 (suitable - 1)).testBit i = true) :
    suitable.testBit i = true := by
  rw [Nat.testBit_land] at h
  exact (Bool.and_eq_true_iff.mp h).1

/-! ## List sum helpers -/

@[simp] theorem sumSizes_nil : sumSizes [] = 0 := rfl

@[simp] theorem sumSizes_cons (f : Frag) (l : List Frag) :
    sumSizes (f :: l) = f.size + sumSizes l := by
  simp [sumSizes]

@[simp] theorem sumSizes_append (l1 l2 : List Frag) :
    sumSizes (l1 ++ l2) = sumSizes l1 + sumSizes l2 := by
  simp [sumSizes]

@[simp] theorem usedSum_nil : usedSum [] = 0 := rfl

@[simp] theorem usedSum_cons (f : Frag) (l : List Frag) :
    usedSum (f :: l) = (if f.used then f.size else 0) + usedSum l := by
  simp only [usedSum, List.filter_cons]
  split <;> simp_all

@[simp] theorem usedSum_append (l1 l2 : List Frag) :
    usedSum (l1 ++ l2) = usedSum l1 + usedSum l2 := by
  simp [usedSum, List.filter_append]

theorem usedSum_le_sumSizes (l : List Frag) : usedSum l ≤ sumSizes l := by
  induction l with
  | nil => simp
  | cons f l ih => simp only [usedSum_cons, sumSizes_cons]; split <;> omega

theorem usedSum_mod (l : List Frag) (hm : ∀ f ∈ l, f.size % FRAGMENT_SIZE_MIN = 0) :
    usedSum l % FRAGMENT_SIZE_MIN = 0 := by
  induction l with
  | nil => simp
  | cons f l ih =>
    have hf := hm f (by simp)
    have ih2 := ih fun g hg => hm g (by simp [hg])
    rw [usedSum_cons]
    split
    · simp [Nat.add_mod, hf, ih2]
    · simpa using ih2

theorem sumSizes_mod (l : List Frag) (hm : ∀ f ∈ l, f.size % FRAGMENT_SIZE_MIN = 0) :
    sumSizes l % FRAGMENT_SIZE_MIN = 0 := by
  induction l with
  | nil => simp
  | cons f l ih =>
    have hf := hm f (by simp)
    have ih2 := ih fun g hg => hm g (by simp [hg])
    rw [sumSizes_cons]
    simp [Nat.add_mod, hf, ih2]

/-! ## freePairs, usedAddrsFrom and locate -/

@[simp] theorem freePairs_nil (base : Nat) : freePairs base [] = [] := rfl

theorem freePairs_cons (base : Nat) (f : Frag) (l : List Frag) :
    freePairs base (f :: l) =
      if f.used then freePairs (base + f.size) l
      else (base, f.size) :: freePairs (base + f.size) l := rfl

theorem freePairs_append (base : Nat) (l1 l2 : List Frag) :
    freePairs base (l1 ++ l2) =
      freePairs base l1 ++ freePairs (base + sumSizes l1) l2 := by
  induction l1 generalizing base with
  | nil => simp
  | cons f l ih =>
    simp only [List.cons_append, freePairs_cons, sumSizes_cons, ih (base + f.size)]
    split <;> simp [Nat.add_assoc]

@[simp] theorem usedAddrsFrom_nil (base : Nat) : usedAddrsFrom base [] = [] := rfl

theorem usedAddrsFrom_cons (base : Nat) (f : Frag) (l : List Frag) :
    usedAddrsFrom base (f :: l) =
      if f.used then base :: usedAddrsFrom (base + f.size) l
      else usedAddrsFrom (base + f.size) l := rfl

theorem usedAddrsFrom_append (base : Nat) (l1 l2 : List Frag) :
    usedAddrsFrom base (l1 ++ l2) =
      usedAddrsFrom base l1 ++ usedAddrsFrom (base + sumSizes l1) l2 := by
  induction l1 generalizing base with
  | nil => simp
  | cons f l ih =>
    simp only [List.cons_append, usedAddrsFrom_cons, sumSizes_cons, ih (base + f.size)]
    split <;> simp [Nat.add_assoc]

theorem mem_freePairs {base : Nat} {l : List Frag} {a s : Nat} :
    (a, s) ∈ freePairs base l ↔
      ∃ pre suf, l = pre ++ (⟨s, false⟩ : Frag) :: suf ∧ a = base + sumSizes pre := by
  constructor
  · intro hmem
    induction l generalizing base with
    | nil => simp at hmem
    | cons f l ih =>
      rw [freePairs_cons] at hmem
      by_cases hu : f.used
      · rw [if_pos hu] at hmem
        obtain ⟨pre, suf, hsplit, ha⟩ := ih hmem
        exact ⟨f :: pre, suf, by simp [hsplit], by simp [ha]; omega⟩
      · rw [if_neg hu] at hmem
        rcases List.mem_cons.mp hmem with heq | hmem2
        · have ha : a = base := congrArg Prod.fst heq
          have hs : s = f.size := congrArg Prod.snd heq
          refine ⟨[], l, ?_, by simp [ha]⟩
          have hf : f = ⟨s, false⟩ := by
            cases f
            simp only [Bool.not_eq_true] at hu
            simp_all
          rw [hf]
          simp
        · obtain ⟨pre, suf, hsplit, ha⟩ := ih hmem2
          exact ⟨f :: pre, suf, by simp [hsplit], by simp [ha]; omega⟩
  · rintro ⟨pre, suf, rfl, rfl⟩
    rw [freePairs_append]
    apply List.mem_append_right
    rw [freePairs_cons]
    simp

theorem mem_usedAddrsFrom {base : Nat} {l : List Frag} {a : Nat} :
    a ∈ usedAddrsFrom base l ↔
      ∃ pre f suf, l = pre ++ f :: suf ∧ f.used = true ∧ a = base + sumSizes pre := by
  constructor
  · intro hmem
    induction l generalizing base with
    | nil => simp at hmem
    | cons f l ih =>
      rw [usedAddrsFrom_cons] at hmem
      by_cases hu : f.used
      · rw [if_pos hu] at hmem
        rcases List.mem_cons.mp hmem with heq | hmem2
        · exact ⟨[], f, l, by simp, hu, by simp [heq]⟩
        · obtain ⟨pre, g, suf, hsplit, hg, ha⟩ := ih hmem2
          exact ⟨f :: pre, g, suf, by simp [hsplit], hg, by simp [ha]; omega⟩
      · rw [if_neg hu] at hmem
        obtain ⟨pre, g, suf, hsplit, hg, ha⟩ := ih hmem
        exact ⟨f :: pre, g, suf, by simp [hsplit], hg, by simp [ha]; omega⟩
  · rintro ⟨pre, f, suf, rfl, hf, rfl⟩
    rw [usedAddrsFrom_append]
    apply List.mem_append_right
    rw [usedAddrsFrom_cons, if_pos hf]
    simp

theorem freePairs_bounds {base : Nat} {l : List Frag} {a s : Nat}
    (h : (a, s) ∈ freePairs base l) : base ≤ a ∧ a + s ≤ base + sumSizes l := by
  obtain ⟨pre, suf, rfl, rfl⟩ := mem_freePairs.mp h
  simp only [sumSizes_append, sumSizes_cons]
  omega

theorem usedAddrsFrom_bounds {base : Nat} {l : List Frag} {a : Nat}
    (hpos : ∀ f ∈ l, 0 < f.size) (h : a ∈ usedAddrsFrom base l) :
    base ≤ a ∧ a < base + sumSizes l := by
  obtain ⟨pre, f, suf, rfl, hf, rfl⟩ := mem_usedAddrsFrom.mp h
  have h0 : 0 < f.size := hpos f (by simp)
  simp only [sumSizes_append, sumSizes_cons]
  omega

theorem locate_eq_some {base : Nat} {l : List Frag} {a : Nat}
    {pre : List Frag} {f : Frag} {suf : List Frag}
    (h : locate base l a = some (pre, f, suf)) :
    l = pre ++ f :: suf ∧ a = base + sumSizes pre := by
  induction l generalizing base pre with
  | nil => simp [locate] at h
  | cons g l ih =>
    rw [locate] at h
    split at h
    · rename_i hbase
      have h2 := Option.some.inj h
      have hpre : pre = [] := (congrArg (fun x => x.1) h2).symm
      have hf : f = g := (congrArg (fun x => x.2.1) h2).symm
      have hsuf : suf = l := (congrArg (fun x => x.2.2) h2).symm
      subst hpre hf hsuf
      simp [hbase.symm]
    · revert h
      match hrec : locate (base + g.size) l a with
      | some (pre2, f2, suf2) =>
        intro h
        have h2 := Option.some.inj h
        have hpre : pre = g :: pre2 := (congrArg (fun x => x.1) h2).symm
        have hf : f = f2 := (congrArg (fun x => x.2.1) h2).symm
        have hsuf : suf = suf2 := (congrArg (fun x => x.2.2) h2).symm
        subst hpre hf hsuf
        obtain ⟨hsplit, ha⟩ := ih hrec
        constructor
        · simp [hsplit]
        · simp [ha]; omega
      | none => intro h; simp at h

theorem locate_of_split {base : Nat} {pre : List Frag} {f : Frag} {suf : List Frag}
    (hpos : ∀ g ∈ pre, 0 < g.size) :
    locate base (pre ++ f :: suf) (base + sumSizes pre) = some (pre, f, suf) := by
  induction pre generalizing base with
  | nil => simp [locate]
  | cons g pre ih =>
    have hg : 0 < g.size := hpos g (by simp)
    rw [List.cons_append, locate]
    rw [if_neg (by simp; omega)]
    have := @ih (base + g.size) (fun x hx => hpos x (by simp [hx]))
    rw [show base + g.size + sumSizes pre = base + sumSizes (g :: pre) by simp; omega] at this
    rw [this]

/-! ## Bin list helpers -/

theorem getD_set_self {l : List (List Nat)} {i : Nat} {x : List Nat}
    (h : i < l.length) : (l.set i x).getD i [] = x := by
  simp [List.getD, List.getElem?_set, h]

theorem getD_set_ne {l : List (List Nat)} {i j : Nat} {x : List Nat}
    (h : i ≠ j) : (l.set i x).getD j [] = l.getD j [] := by
  simp [List.getD, List.getElem?_set, h]

theorem getD_ge_length {l : List (List Nat)} {i : Nat} (h : l.length ≤ i) :
    l.getD i [] = [] := by
  simp [List.getD, List.getElem?_eq_none h]

/-- BinsRep only depends on the membership of the free list. -/
theorem BinsRep.congr {bins : List (List Nat)} {mask : Nat} {fl fl2 : List (Nat × Nat)}
    (br : BinsRep bins mask fl) (hiff : ∀ p, p ∈ fl ↔ p ∈ fl2) :
    BinsRep bins mask fl2 where
  len := br.len
  mem_bin := fun i a ha =>
    let ⟨s, hs, hidx⟩ := br.mem_bin i a ha
    ⟨s, (hiff (a, s)).mp hs, hidx⟩
  bin_mem := fun a s hs => br.bin_mem a s ((hiff (a, s)).mpr hs)
  nodup := br.nodup
  maskBit := br.maskBit
  maskLt := br.maskLt

theorem FRAGMENT_SIZE_MIN_eq : FRAGMENT_SIZE_MIN = 32 := by
  norm_num [FRAGMENT_SIZE_MIN, O1HEAP_ALIGNMENT]

theorem binIndexOf_lt {s : Nat} (h : s ≤ FRAGMENT_SIZE_MAX) :
    binIndexOf s < NUM_BINS_MAX := by
  unfold binIndexOf NUM_BINS_MAX
  rw [log2Floor_eq]
  rw [FRAGMENT_SIZE_MIN_eq]
  have hmax : FRAGMENT_SIZE_MAX = 2 ^ 63 := rfl
  rw [hmax] at h
  rcases Nat.eq_zero_or_pos (s / 32) with h0 | h0
  · rw [h0]; simp [Nat.log2]
  · have hdiv : s / 32 < 2 ^ 59 := by omega
    have := (Nat.log2_lt (by omega)).mpr hdiv
    omega

/-- The bin index recovers a size lower bound:
a fragment in bin i has size at least FRAGMENT_SIZE_MIN * 2 ^ i. -/
theorem size_ge_of_binIndexOf {s i : Nat} (hmod : s % FRAGMENT_SIZE_MIN = 0)
    (hmin : FRAGMENT_SIZE_MIN ≤ s) (hidx : binIndexOf s = i) :
    FRAGMENT_SIZE_MIN * 2 ^ i ≤ s := by
  unfold binIndexOf at hidx
  rw [log2Floor_eq] at hidx
  rw [FRAGMENT_SIZE_MIN_eq] at hmod hmin hidx ⊢
  have hq : s / 32 ≠ 0 := by omega
  have h2 : 2 ^ i ≤ s / 32 := by
    rw [← hidx]
    exact Nat.log2_self_le hq
  omega

/-- The bin index of a power of two at least FRAGMENT_SIZE_MIN:
binIndexOf (2 ^ k) = k - 5 and FRAGMENT_SIZE_MIN * 2 ^ (k - 5) = 2 ^ k. -/
theorem binIndexOf_pow {k : Nat} (hk : 5 ≤ k) :
    binIndexOf (2 ^ k) = k - 5 ∧ FRAGMENT_SIZE_MIN * 2 ^ (k - 5) = 2 ^ k := by
  have h32 : FRAGMENT_SIZE_MIN = 2 ^ 5 := by norm_num [FRAGMENT_SIZE_MIN, O1HEAP_ALIGNMENT]
  constructor
  · unfold binIndexOf
    rw [log2Floor_eq, h32, Nat.pow_div hk (by norm_num)]
    rw [Nat.log2_eq_log_two, Nat.log_pow (by norm_num)]
  · rw [h32, ← Nat.pow_add]
    congr 1
    omega

theorem rebin_bins (h : Heap) (a s : Nat) :
    (rebin h a s).bins = h.bins.set (binIndexOf s) (a :: h.bin (binIndexOf s)) := rfl

theorem rebin_mask (h : Heap) (a s : Nat) :
    (rebin h a s).nonempty_bin_mask = h.nonempty_bin_mask ||| pow2 (binIndexOf s) := rfl

theorem BinsRep.rebin {h : Heap} {fl : List (Nat × Nat)}
    (br : BinsRep h.bins h.nonempty_bin_mask fl) {a s : Nat}
    (hidx : binIndexOf s < NUM_BINS_MAX)
    (hfresh : ∀ i, a ∉ h.bins.getD i []) :
    BinsRep (O1heap.rebin h a s).bins (O1heap.rebin h a s).nonempty_bin_mask
      ((a, s) :: fl) := by
  set idx := binIndexOf s with hidxdef
  have hlen : h.bins.length = NUM_BINS_MAX := br.len
  have hset_self : (O1heap.rebin h a s).bins.getD idx [] = a :: h.bins.getD idx [] := by
    rw [rebin_bins]
    exact getD_set_self (by omega)
  have hset_ne : ∀ j, j ≠ idx → (O1heap.rebin h a s).bins.getD j [] = h.bins.getD j [] := by
    intro j hj
    rw [rebin_bins]
    exact getD_set_ne (Ne.symm hj)
  refine ⟨?_, ?_, ?_, ?_, ?_, ?_⟩
  · rw [rebin_bins]; simpa using hlen
  · intro i b hb
    by_cases hi : i = idx
    · subst hi
      rw [hset_self] at hb
      rcases List.mem_cons.mp hb with rfl | hb2
      · exact ⟨s, by simp, hidxdef.symm⟩
      · obtain ⟨s2, hs2, hidx2⟩ := br.mem_bin idx b hb2
        exact ⟨s2, by simp [hs2], hidx2⟩
    · rw [hset_ne i hi] at hb
      obtain ⟨s2, hs2, hidx2⟩ := br.mem_bin i b hb
      exact ⟨s2, by simp [hs2], hidx2⟩
  · intro b s2 hmem
    rcases List.mem_cons.mp hmem with heq | hmem2
    · have hb : b = a := congrArg Prod.fst heq
      have hs2 : s2 = s := congrArg Prod.snd heq
      subst hb hs2
      rw [← hidxdef, hset_self]
      simp
    · have := br.bin_mem b s2 hmem2
      by_cases hi : binIndexOf s2 = idx
      · rw [hi, hset_self]
        rw [hi] at this
        exact List.mem_cons_of_mem a this
      · rw [hset_ne _ hi]
        exact this
  · intro i
    by_cases hi : i = idx
    · subst hi
      rw [hset_self]
      exact (br.nodup idx).cons (fun hmem => hfresh idx hmem)
    · rw [hset_ne i hi]
      exact br.nodup i
  · intro i
    rw [rebin_mask, Nat.testBit_lor]
    unfold pow2
    rw [Nat.testBit_two_pow]
    by_cases hi : i = idx
    · subst hi
      rw [hset_self]
      simp
    · rw [hset_ne i hi]
      have := br.maskBit i
      constructor
      · intro hor
        rcases Bool.or_eq_true_iff.mp hor with hbit | hdec
        · exact this.mp hbit
        · exact absurd (of_decide_eq_true hdec) (fun he => hi he.symm)
      · intro hne
        rw [this.mpr hne]
        simp
  · rw [rebin_mask]
    have h2 : pow2 idx < 2 ^ 64 := by
      unfold pow2
      exact Nat.pow_lt_pow_right (by norm_num) (by unfold NUM_BINS_MAX at hidx; omega)
    exact lor_lt_two_pow br.maskLt h2

theorem BinsRep.unbin {h : Heap} {fl : List (Nat × Nat)}
    (br : BinsRep h.bins h.nonempty_bin_mask fl) {a s : Nat}
    (hmem : (a, s) ∈ fl)
    (hkey : ∀ s2, (a, s2) ∈ fl → s2 = s) :
    BinsRep (O1heap.unbin h a s).bins (O1heap.unbin h a s).nonempty_bin_mask
      (fl.filter (fun p => p.1 ≠ a)) := by
  set idx := binIndexOf s with hidxdef
  have hlen : h.bins.length = NUM_BINS_MAX := br.len
  have hidxlt : idx < NUM_BINS_MAX := by
    by_contra hc
    push_neg at hc
    have := br.bin_mem a s hmem
    rw [getD_ge_length (by omega)] at this
    simp at this
  have hina : a ∈ h.bins.getD idx [] := br.bin_mem a s hmem
  have hbins_eq : (O1heap.unbin h a s).bins =
      h.bins.set idx ((h.bins.getD idx []).erase a) := by
    unfold O1heap.unbin
    simp only [← hidxdef, Heap.bin]
    split <;> rfl
  have hset_self : (O1heap.unbin h a s).bins.getD idx [] = (h.bins.getD idx []).erase a := by
    rw [hbins_eq]
    exact getD_set_self (by omega)
  have hset_ne : ∀ j, j ≠ idx → (O1heap.unbin h a s).bins.getD j [] = h.bins.getD j [] := by
    intro j hj
    rw [hbins_eq]
    exact getD_set_ne (Ne.symm hj)
  have herase_mem : ∀ b, b ∈ (h.bins.getD idx []).erase a ↔ b ≠ a ∧ b ∈ h.bins.getD idx [] :=
    fun b => (br.nodup idx).mem_erase_iff
  refine ⟨?_, ?_, ?_, ?_, ?_, ?_⟩
  · rw [hbins_eq]; simpa using hlen
  · intro i b hb
    by_cases hi : i = idx
    · subst hi
      rw [hset_self] at hb
      obtain ⟨hbne, hb2⟩ := (herase_mem b).mp hb
      obtain ⟨s2, hs2, hidx2⟩ := br.mem_bin idx b hb2
      exact ⟨s2, List.mem_filter.mpr ⟨hs2, by simpa using hbne⟩, hidx2⟩
    · rw [hset_ne i hi] at hb
      obtain ⟨s2, hs2, hidx2⟩ := br.mem_bin i b hb
      have hbne : b ≠ a := by
        intro hba
        subst hba
        have := hkey s2 hs2
        subst this
        exact hi hidx2.symm
      exact ⟨s2, List.mem_filter.mpr ⟨hs2, by simpa using hbne⟩, hidx2⟩
  · intro b s2 hmem2
    obtain ⟨hin, hbne⟩ := List.mem_filter.mp hmem2
    have hbnea : b ≠ a := by simpa using hbne
    have := br.bin_mem b s2 hin
    by_cases hi : binIndexOf s2 = idx
    · rw [hi] at this
      rw [hi, hset_self, herase_mem]
      exact ⟨hbnea, this⟩
    · rw [hset_ne _ hi]
      exact this
  · intro i
    by_cases hi : i = idx
    · subst hi
      rw [hset_self]
      exact (br.nodup idx).erase a
    · rw [hset_ne i hi]
      exact br.nodup i
  · intro i
    -- mask analysis: the erase result is nonempty unless the bin was [a].
    have hmaskother : ∀ j, j ≠ idx →
        (O1heap.unbin h a s).nonempty_bin_mask.testBit j = h.nonempty_bin_mask.testBit j := by
      intro j hj
      unfold O1heap.unbin
      simp only [← hidxdef, Heap.bin]
      split
      · split
        · rename_i hempty
          simp only
          rw [Nat.testBit_land, testBit_bitNot64]
          unfold pow2
          rw [Nat.testBit_two_pow]
          have hjne : ¬(idx = j) := fun he => hj he.symm
          by_cases hj64 : j < 64
          · simp [hjne, hj64]
          · have : h.nonempty_bin_mask.testBit j = false := by
              apply testBit_false_of_ge
              exact lt_of_lt_of_le br.maskLt
                (Nat.pow_le_pow_right (by norm_num) (by omega))
            simp [this, hjne, hj64]
        · rfl
      · rfl
    have hbitset : h.nonempty_bin_mask.testBit idx = true := by
      rw [br.maskBit idx]
      intro hnil
      rw [hnil] at hina
      simp at hina
    by_cases hi : i = idx
    · subst hi
      rw [hset_self]
      -- the bit at idx after unbin
      unfold O1heap.unbin
      simp only [← hidxdef, Heap.bin]
      split
      · rename_i hhead
        split
        · rename_i hempty
          simp only
          constructor
          · intro hbit
            rw [Nat.testBit_land, testBit_bitNot64] at hbit
            unfold pow2 at hbit
            rw [Nat.testBit_two_pow] at hbit
            unfold NUM_BINS_MAX at hidxlt
            simp [hidxlt] at hbit
          · intro hne
            exact absurd hempty hne
        · rename_i hnonempty
          simp only
          rw [hbitset]
          exact iff_of_true rfl hnonempty
      · rename_i hheadne
        simp only
        have hne2 : (h.bins.getD idx []).erase a ≠ [] := by
          match hl : h.bins.getD idx [] with
          | [] => rw [hl] at hina; simp at hina
          | b :: t =>
            have hba : b ≠ a := by
              intro he
              subst he
              rw [hl] at hheadne
              exact hheadne (by simp [Heap.bin, hl])
            rw [List.erase_cons_tail (by simpa using hba)]
            simp
        rw [hbitset]
        exact iff_of_true rfl hne2
    · rw [hmaskother i hi, hset_ne i hi]
      exact br.maskBit i
  · have : (O1heap.unbin h a s).nonempty_bin_mask ≤ h.nonempty_bin_mask := by
      unfold O1heap.unbin
      simp only [← hidxdef, Heap.bin]
      split
      · split
        · exact land_le_left _ _
        · exact Nat.le_refl _
      · exact Nat.le_refl _
    exact lt_of_le_of_lt this br.maskLt

/-! ## Frame lemmas: rebin and unbin only touch bins and the mask -/

@[simp] theorem rebin_capacity (h : Heap) (a s : Nat) : (rebin h a s).capacity = h.capacity := rfl
@[simp] theorem rebin_frags (h : Heap) (a s : Nat) : (rebin h a s).frags = h.frags := rfl
@[simp] theorem rebin_allocated (h : Heap) (a s : Nat) :
    (rebin h a s).allocated = h.allocated := rfl
@[simp] theorem rebin_peak (h : Heap) (a s : Nat) :
    (rebin h a s).peak_allocated = h.peak_allocated := rfl
@[simp] theorem rebin_prs (h : Heap) (a s : Nat) :
    (rebin h a s).peak_request_size = h.peak_request_size := rfl
@[simp] theorem rebin_oom (h : Heap) (a s : Nat) : (rebin h a s).oom_count = h.oom_count := rfl

@[simp] theorem unbin_capacity (h : Heap) (a s : Nat) : (unbin h a s).capacity = h.capacity := by
  unfold unbin; simp only [Heap.bin]; split <;> rfl
@[simp] theorem unbin_frags (h : Heap) (a s : Nat) : (unbin h a s).frags = h.frags := by
  unfold unbin; simp only [Heap.bin]; split <;> rfl
@[simp] theorem unbin_allocated (h : Heap) (a s : Nat) :
    (unbin h a s).allocated = h.allocated := by
  unfold unbin; simp only [Heap.bin]; split <;> rfl
@[simp] theorem unbin_peak (h : Heap) (a s : Nat) :
    (unbin h a s).peak_allocated = h.peak_allocated := by
  unfold unbin; simp only [Heap.bin]; split <;> rfl
@[simp] theorem unbin_prs (h : Heap) (a s : Nat) :
    (unbin h a s).peak_request_size = h.peak_request_size := by
  unfold unbin; simp only [Heap.bin]; split <;> rfl
@[simp] theorem unbin_oom (h : Heap) (a s : Nat) : (unbin h a s).oom_count = h.oom_count := by
  unfold unbin; simp only [Heap.bin]; split <;> rfl

/-! ## The well-formedness invariant of a heap state -/

theorem WFbase.frag_pos {h : Heap} (wf : WFbase h) : ∀ f ∈ h.frags, 0 < f.size := by
  intro f hf
  have := wf.frag_min f hf
  have := FRAGMENT_SIZE_MIN_eq
  omega

theorem WFbase.allocated_le {h : Heap} (wf : WFbase h) : h.allocated ≤ h.capacity := by
  rw [wf.alloc_eq, ← wf.total]
  exact usedSum_le_sumSizes _

theorem WFbase.allocated_mod {h : Heap} (wf : WFbase h) : h.allocated % FRAGMENT_SIZE_MIN = 0 := by
  rw [wf.alloc_eq]
  exact usedSum_mod _ wf.frag_mod

/-- Free fragment pair sizes are bounded by the capacity. -/
theorem WFbase.freePair_le {h : Heap} (wf : WFbase h) {a s : Nat}
    (hmem : (a, s) ∈ freePairs 0 h.frags) : a + s ≤ h.capacity := by
  have := freePairs_bounds hmem
  rw [wf.total] at this
  omega

theorem WFbase.freePair_min {h : Heap} (wf : WFbase h) {a s : Nat}
    (hmem : (a, s) ∈ freePairs 0 h.frags) :
    FRAGMENT_SIZE_MIN ≤ s ∧ s % FRAGMENT_SIZE_MIN = 0 := by
  obtain ⟨pre, suf, hsplit, _⟩ := mem_freePairs.mp hmem
  have hm : (⟨s, false⟩ : Frag) ∈ h.frags := by rw [hsplit]; simp
  exact ⟨wf.frag_min _ hm, wf.frag_mod _ hm⟩

/-- Key uniqueness of the free pair list of a well-formed fragment list:
two pairs with the same address have the same size. -/
theorem freePairs_key_unique {l : List Frag} (hpos : ∀ f ∈ l, 0 < f.size)
    {base a s s2 : Nat} (h1 : (a, s) ∈ freePairs base l) (h2 : (a, s2) ∈ freePairs base l) :
    s2 = s := by
  induction l generalizing base with
  | nil => simp at h1
  | cons f fs ih =>
    have hfpos : 0 < f.size := hpos f (by simp)
    have hrest : ∀ g ∈ fs, 0 < g.size := fun g hg => hpos g (by simp [hg])
    rw [freePairs_cons] at h1 h2
    by_cases hu : f.used
    · rw [if_pos hu] at h1 h2
      exact ih hrest h1 h2
    · rw [if_neg hu] at h1 h2
      rcases List.mem_cons.mp h1 with he1 | hm1 <;> rcases List.mem_cons.mp h2 with he2 | hm2
      · have : s = f.size := congrArg Prod.snd he1
        have h4 : s2 = f.size := congrArg Prod.snd he2
        omega
      · have ha : a = base := congrArg Prod.fst he1
        subst ha
        have := freePairs_bounds hm2
        omega
      · have ha : a = base := congrArg Prod.fst he2
        subst ha
        have := freePairs_bounds hm1
        omega
      · exact ih hrest hm1 hm2

theorem WFbase.mask_lt {h : Heap} (wf : WFbase h) : h.nonempty_bin_mask < 2 ^ 64 := wf.bins.maskLt

theorem land_pow2_ne_zero_iff {m i : Nat} : (m &&& 2 ^ i ≠ 0) ↔ m.testBit i = true := by
  constructor
  · intro hne
    obtain ⟨t, ht, _⟩ := exists_trailing_bit hne
    rw [Nat.testBit_land, Nat.testBit_two_pow] at ht
    obtain ⟨hb1, hb2⟩ := Bool.and_eq_true_iff.mp ht
    have : i = t := of_decide_eq_true hb2
    subst this
    exact hb1
  · intro hb hzero
    have : (m &&& 2 ^ i).testBit i = false := by rw [hzero]; simp
    rw [Nat.testBit_land, Nat.testBit_two_pow, hb] at this
    simp at this

/-- o1heapDoInvariantsHold returns true on every well-formed heap. -/
theorem invariantsHold_of_WF {h : Heap} (wf : WF h) : o1heapDoInvariantsHold h = true := by
  unfold o1heapDoInvariantsHold
  have hmask : ((List.range NUM_BINS_MAX).all fun i =>
      (h.nonempty_bin_mask &&& pow2 i ≠ 0 : Bool) = !(h.bin i).isEmpty) = true := by
    rw [List.all_eq_true]
    intro i hi
    have hbit := wf.base.bins.maskBit i
    unfold pow2
    by_cases hb : h.bin i = []
    · have : h.nonempty_bin_mask.testBit i = false := by
        rcases Bool.eq_false_or_eq_true (h.nonempty_bin_mask.testBit i) with he | he
        · exact absurd (hbit.mp he) (by simpa [Heap.bin] using hb)
        · exact he
      have hz : ¬(h.nonempty_bin_mask &&& 2 ^ i ≠ 0) := by
        intro hne
        rw [land_pow2_ne_zero_iff.mp hne] at this
        simp at this
      simp [hb, hz]
    · have hb2 : h.nonempty_bin_mask.testBit i = true := hbit.mpr (by simpa [Heap.bin] using hb)
      have hnz : h.nonempty_bin_mask &&& 2 ^ i ≠ 0 := land_pow2_ne_zero_iff.mpr hb2
      simp [hnz, hb]
  rw [hmask]
  have h1 := wf.base.cap_min
  have h2 := wf.base.cap_max
  have h3 := wf.base.cap_mod
  have h4 := wf.base.allocated_le
  have h5 := wf.base.allocated_mod
  have h6 := wf.base.peak_cap
  have h7 := wf.base.peak_ge
  have h8 := wf.base.peak_mod
  have h9 := wf.prs_cap
  simp only [Bool.true_and, Bool.and_eq_true, decide_eq_true_eq, Bool.or_eq_true]
  refine ⟨⟨⟨⟨⟨⟨⟨⟨⟨h2, h1⟩, h3⟩, h4⟩, h5⟩, h6⟩, h7⟩, h8⟩, by omega⟩, ?_⟩
  split
  · rename_i hz
    obtain ⟨hp, ho⟩ := wf.prs_zero hz
    simp [hp, ho, Nat.le_antisymm (by omega : h.allocated ≤ 0) (Nat.zero_le _)]
  · rename_i hnz
    rcases wf.prs_pos (by omega) with hle | ho
    · simp only [Bool.or_eq_true, decide_eq_true_eq]
      left
      calc (h.peak_request_size + O1HEAP_ALIGNMENT) % 2 ^ 64
          ≤ h.peak_request_size + O1HEAP_ALIGNMENT := Nat.mod_le _ _
        _ ≤ h.peak_allocated := hle
    · simp [ho]

/-! ## Behavior of the operations on their failure and delegation paths -/

/-- When the allocation core fails it leaves the heap untouched. -/
theorem allocateCore_none (h : Heap) (n : Nat) :
    (allocateCore h n).2 = none → allocateCore h n = (h, none) := by
  simp only [allocateCore]
  split
  · split
    · split
      · intro _; rfl
      · split
        · intro _; rfl
        · intro hc; simp at hc
    · intro _; rfl
  · intro _; rfl

theorem o1heapAllocate_snd (h : Heap) (n : Nat) :
    (o1heapAllocate h n).2 = (allocateCore h n).2 := by
  simp only [o1heapAllocate]
  split <;> rfl

/-- A zero-amount allocation is a complete no-op that returns null. -/
theorem allocate_zero (h : Heap) : o1heapAllocate h 0 = (h, none) := by
  have hcore : allocateCore h 0 = (h, none) := by
    simp only [allocateCore]
    rw [if_neg (by omega)]
  simp only [o1heapAllocate, hcore]
  rw [if_neg (by simp)]
  simp

/-- o1heapFree never touches the out-of-memory counter. -/
theorem free_oom_count (h : Heap) (p : Option Nat) :
    (o1heapFree h p).oom_count = h.oom_count := by
  simp only [o1heapFree]
  split
  · rfl
  · split
    · rfl
    · split
      · rfl
      · split
        · simp
        · split
          · simp
          · split
            · simp
            · simp

/-- o1heapFree never touches capacity, the peak counters or the request
size counter. -/
theorem free_frame (h : Heap) (p : Option Nat) :
    (o1heapFree h p).capacity = h.capacity ∧
    (o1heapFree h p).peak_allocated = h.peak_allocated ∧
    (o1heapFree h p).peak_request_size = h.peak_request_size := by
  simp only [o1heapFree]
  split
  · exact ⟨rfl, rfl, rfl⟩
  · split
    · exact ⟨rfl, rfl, rfl⟩
    · split
      · exact ⟨rfl, rfl, rfl⟩
      · split
        · simp
        · split
          · simp
          · split
            · simp
            · simp

/-- o1heapFree never increases the allocated counter. -/
theorem free_allocated_le (h : Heap) (p : Option Nat) :
    (o1heapFree h p).allocated ≤ h.allocated := by
  simp only [o1heapFree]
  split
  · exact Nat.le_refl _
  · split
    · exact Nat.le_refl _
    · split
      · exact Nat.le_refl _
      · split
        · simp
        · split
          · simp
          · split
            · simp
            · simp

/-! ## C8: zero-size requests are not out-of-memory -/

/-- C8: a zero-size request is never counted as out-of-memory:
`o1heapAllocate(handle, 0)` returns null and leaves the heap (including
oom_count) completely unchanged, and `o1heapReallocate(handle, p, 0)`
delegates to `o1heapFree(handle, p)` and returns null, and o1heapFree
never changes oom_count. -/
theorem c8_zero_request_not_oom (h : Heap) (p : Nat) :
    o1heapAllocate h 0 = (h, none) ∧
    o1heapReallocate h (some p) 0 = (o1heapFree h (some p), none) ∧
    (o1heapFree h (some p)).oom_count = h.oom_count :=
  ⟨allocate_zero h, rfl, free_oom_count h (some p)⟩

/-! ## C10: oversized reallocation only bumps oom_count and peak_request_size -/

/-- C10: when o1heapReallocate is called with a non-null pointer and a
nonzero new_amount exceeding capacity - O1HEAP_ALIGNMENT, the only state
changes are oom_count incremented by one and peak_request_size raised to
max(peak_request_size, new_amount); fragments, bins, the mask and the
other diagnostics are untouched and null is returned. -/
theorem c10_realloc_oversize_frame (h : Heap) (p n : Nat) (hn : 0 < n)
    (hbig : h.capacity - O1HEAP_ALIGNMENT < n) :
    o1heapReallocate h (some p) n =
      ({ h with peak_request_size := larger h.peak_request_size n,
                oom_count := h.oom_count + 1 }, none) := by
  simp only [o1heapReallocate]
  rw [if_neg (by omega)]
  rw [if_pos (by simpa using hbig)]

/-- C10 witness at a concrete reachable heap. -/
theorem c10_realloc_oversize_frame_witness :
    o1heapReallocate exampleHeap (some 16) 2000 =
      ({ exampleHeap with
          peak_request_size := larger exampleHeap.peak_request_size 2000,
          oom_count := exampleHeap.oom_count + 1 }, none) :=
  c10_realloc_oversize_frame exampleHeap 16 2000 (by decide) (by decide)

/-! ## C9: the roundUpToPowerOf2 call sites satisfy its precondition -/

/-- C9: whenever roundUpToPowerOf2 is reached from o1heapAllocate or
o1heapReallocate, the guards already established 0 < amount and
amount <= capacity - O1HEAP_ALIGNMENT with capacity <= FRAGMENT_SIZE_MAX,
hence its argument is at least 2, the result lies in
[FRAGMENT_SIZE_MIN, FRAGMENT_SIZE_MAX], and the shift amount
(the bit width minus the count of leading zeros of argument - 1, which
equals log2(argument - 1) + 1) stays below the 64-bit word width, so the
shift cannot overflow. -/
theorem c9_round_up_pow2_guarded (amount capacity : Nat) (h1 : 0 < amount)
    (h2 : amount ≤ capacity - O1HEAP_ALIGNMENT) (h3 : O1HEAP_ALIGNMENT ≤ capacity)
    (h4 : capacity ≤ FRAGMENT_SIZE_MAX) :
    2 ≤ amount + O1HEAP_ALIGNMENT ∧
    FRAGMENT_SIZE_MIN ≤ roundUpToPowerOf2 (amount + O1HEAP_ALIGNMENT) ∧
    roundUpToPowerOf2 (amount + O1HEAP_ALIGNMENT) ≤ FRAGMENT_SIZE_MAX ∧
    log2Floor (amount + O1HEAP_ALIGNMENT - 1) + 1 ≤ 63 := by
  have hA : O1HEAP_ALIGNMENT = 16 := rfl
  have hM : FRAGMENT_SIZE_MAX = 2 ^ 63 := rfl
  have hle : amount + O1HEAP_ALIGNMENT ≤ capacity := by omega
  refine ⟨by omega, ?_, ?_, ?_⟩
  · apply roundUpToPowerOf2_min
    rw [FRAGMENT_SIZE_MIN_eq]
    omega
  · exact roundUpToPowerOf2_max (by omega)
  · have hne : amount + O1HEAP_ALIGNMENT - 1 ≠ 0 := by omega
    rw [log2Floor_eq]
    have : Nat.log2 (amount + O1HEAP_ALIGNMENT - 1) < 63 := by
      rw [Nat.log2_lt hne]
      have : (2 : Nat) ^ 63 = FRAGMENT_SIZE_MAX := rfl
      omega
    omega

/-! ## C7: failed calls and the heap state -/

/-- A failed allocation with positive amount changes exactly
peak_request_size and oom_count. -/
theorem o1heapAllocate_failure_pos (h : Heap) (n : Nat) (hn : 0 < n)
    (hfail : (o1heapAllocate h n).2 = none) :
    (o1heapAllocate h n).1 =
      { h with peak_request_size := larger h.peak_request_size n,
               oom_count := h.oom_count + 1 } := by
  have hcore := allocateCore_none h n (by rw [← o1heapAllocate_snd]; exact hfail)
  simp only [o1heapAllocate, hcore]
  rw [if_pos ⟨trivial, hn⟩]

/-- C7 counterexample: an allocation that returns null does not leave the
heap exactly as before; on the freshly initialized 1024-byte-capacity heap
an oversized request returns null but increments oom_count and raises
peak_request_size. -/
theorem c7_counterexample :
    ((o1heapAllocate exampleHeap 2000).2 = none) ∧
    (o1heapAllocate exampleHeap 2000).1 ≠ exampleHeap := by
  decide

/-- C7 amended: a failed o1heapAllocate changes nothing except the two
monotone diagnostic counters (peak_request_size raised to the requested
amount, oom_count incremented when the amount is nonzero, and nothing at
all when the amount is zero); an o1heapReallocate of a live pointer with
nonzero new_amount that returns null likewise changes only those two
counters, so all fragments (in particular the original block, still live
at the same address with the same size) are untouched. -/
theorem c7_failure_frame (h : Heap) (p n : Nat) (hn : 0 < n)
    (pre : List Frag) (frag : Frag) (suf : List Frag)
    (hloc : locate 0 h.frags (p - O1HEAP_ALIGNMENT) = some (pre, frag, suf))
    (hused : frag.used = true) :
    ((o1heapAllocate h n).2 = none →
      (o1heapAllocate h n).1 =
        { h with peak_request_size := larger h.peak_request_size n,
                 oom_count := h.oom_count + 1 }) ∧
    (o1heapAllocate h 0 = (h, none)) ∧
    ((o1heapReallocate h (some p) n).2 = none →
      (o1heapReallocate h (some p) n).1 =
        { h with peak_request_size := larger h.peak_request_size n,
                 oom_count := h.oom_count + 1 }) := by
  refine ⟨o1heapAllocate_failure_pos h n hn, allocate_zero h, ?_⟩
  simp only [o1heapReallocate]
  rw [if_neg (by omega)]
  have hloc2 : locate 0
      ({ h with peak_request_size := larger h.peak_request_size n } : Heap).frags
      (p - O1HEAP_ALIGNMENT) = some (pre, frag, suf) := hloc
  split
  · intro _; rfl
  · simp only [hloc2]
    rw [hused]
    rw [if_neg (by simp)]
    -- R4, R5 and R6 always return a pointer, so only the capacity guard
    -- and the R7 fallback with a failing inner allocation can return null.
    repeat' split
    all_goals intro hx
    all_goals try (simp at hx)
    all_goals
      rename_i heq
    all_goals
      have hres := o1heapAllocate_failure_pos
        ({ h with peak_request_size := larger h.peak_request_size n }) n hn heq
    all_goals simp [hres, larger_idem]

/-- C7 witness: the amended failure frame at a concrete heap with a live
allocation (payload pointer 16 of a 32-byte fragment at address 0). -/
theorem c7_failure_frame_witness :
    ((o1heapAllocate exampleHeapA 17).2 = none →
      (o1heapAllocate exampleHeapA 17).1 =
        { exampleHeapA with
            peak_request_size := larger exampleHeapA.peak_request_size 17,
            oom_count := exampleHeapA.oom_count + 1 }) ∧
    (o1heapAllocate exampleHeapA 0 = (exampleHeapA, none)) ∧
    ((o1heapReallocate exampleHeapA (some 16) 17).2 = none →
      (o1heapReallocate exampleHeapA (some 16) 17).1 =
        { exampleHeapA with
            peak_request_size := larger exampleHeapA.peak_request_size 17,
            oom_count := exampleHeapA.oom_count + 1 }) :=
  c7_failure_frame exampleHeapA 16 17 (by decide) [] ⟨32, true⟩ [⟨992, false⟩]
    (by decide) (by decide)

/-! ## C5: the allocated update in the backward-expansion case R6 -/

/-- C5 counterexample: in the absorb (no-split) sub-case of backward
expansion, allocated does not increase by size(next).  In the concrete
trace below the heap reaches [free 32][used 32][used 32][free 928] with
allocated = 64; reallocating the middle block (payload 48) to 48 bytes
takes the backward-expansion absorb path with a used next fragment
(size(next_if_free) = 0), and allocated becomes 96 = 64 + size(prev),
not 64 + 0. -/
theorem c5_counterexample :
    (runOps exampleHeap
      [.alloc 16, .alloc 16, .alloc 16, .free (some 16)]).frags =
        [⟨32, false⟩, ⟨32, true⟩, ⟨32, true⟩, ⟨928, false⟩] ∧
    (runOps exampleHeap
      [.alloc 16, .alloc 16, .alloc 16, .free (some 16)]).allocated = 64 ∧
    (o1heapReallocate
      (runOps exampleHeap [.alloc 16, .alloc 16, .alloc 16, .free (some 16)])
      (some 48) 48).2 = some 16 ∧
    (o1heapReallocate
      (runOps exampleHeap [.alloc 16, .alloc 16, .alloc 16, .free (some 16)])
      (some 48) 48).1.allocated = 96 := by
  decide

/-- C5 amended: in the backward-expansion case R6, allocated increases by
need' - size(F) when a leftover tail of at least FRAGMENT_SIZE_MIN is
split off (as the claim states), but by size(prev) + size(next_if_free),
not size(next), when the combined block is absorbed entirely;
peak_allocated is then raised to max(peak_allocated, allocated) as in R5,
and the returned payload pointer is prev + O1HEAP_ALIGNMENT. -/
theorem c5_backward_expand_allocated (h : Heap) (p n : Nat) (hn : 0 < n)
    (hcap : ¬ n > h.capacity - O1HEAP_ALIGNMENT)
    (pre : List Frag) (frag : Frag) (suf : List Frag)
    (hloc : locate 0 h.frags (p - O1HEAP_ALIGNMENT) = some (pre, frag, suf))
    (hused : frag.used = true)
    (hprev : neighborFree pre.getLast? = true)
    (hR4 : ¬ roundUpToPowerOf2 (n + O1HEAP_ALIGNMENT) ≤ frag.size)
    (hR5 : ¬ (neighborFree suf.head? = true ∧
        roundUpToPowerOf2 (n + O1HEAP_ALIGNMENT) ≤ frag.size + neighborSize suf.head?))
    (hR6 : roundUpToPowerOf2 (n + O1HEAP_ALIGNMENT) ≤
        neighborSize pre.getLast? + frag.size +
        (if neighborFree suf.head? = true then neighborSize suf.head? else 0)) :
    (o1heapReallocate h (some p) n).1.allocated =
      (if FRAGMENT_SIZE_MIN ≤ neighborSize pre.getLast? + frag.size +
            (if neighborFree suf.head? = true then neighborSize suf.head? else 0) -
            roundUpToPowerOf2 (n + O1HEAP_ALIGNMENT)
       then h.allocated + (roundUpToPowerOf2 (n + O1HEAP_ALIGNMENT) - frag.size)
       else h.allocated + (neighborSize pre.getLast? +
            (if neighborFree suf.head? = true then neighborSize suf.head? else 0))) ∧
    (o1heapReallocate h (some p) n).1.peak_allocated =
      larger h.peak_allocated ((o1heapReallocate h (some p) n).1.allocated) ∧
    (o1heapReallocate h (some p) n).2 =
      some ((p - O1HEAP_ALIGNMENT - neighborSize pre.getLast?) + O1HEAP_ALIGNMENT) := by
  simp only [o1heapReallocate]
  rw [if_neg (by omega)]
  have hloc2 : locate 0
      ({ h with peak_request_size := larger h.peak_request_size n } : Heap).frags
      (p - O1HEAP_ALIGNMENT) = some (pre, frag, suf) := hloc
  rw [if_neg hcap]
  simp only [hloc2]
  rw [hused]
  rw [if_neg (by simp)]
  rw [if_neg hR4]
  repeat' split
  all_goals
    first
      | (simp_all [larger_eq_max]; omega)
      | simp_all [larger_eq_max]

/-- C5 witness: the amended update formula at the concrete counterexample
heap (absorb sub-case with a used next neighbor). -/
theorem c5_backward_expand_allocated_witness :
    (o1heapReallocate
      (runOps exampleHeap [.alloc 16, .alloc 16, .alloc 16, .free (some 16)])
      (some 48) 48).1.allocated =
      (if FRAGMENT_SIZE_MIN ≤ neighborSize (some (⟨32, false⟩ : Frag)) + (⟨32, true⟩ : Frag).size +
            (if neighborFree (some (⟨32, true⟩ : Frag)) = true
             then neighborSize (some (⟨32, true⟩ : Frag)) else 0) -
            roundUpToPowerOf2 (48 + O1HEAP_ALIGNMENT)
       then (runOps exampleHeap
              [.alloc 16, .alloc 16, .alloc 16, .free (some 16)]).allocated +
            (roundUpToPowerOf2 (48 + O1HEAP_ALIGNMENT) - (⟨32, true⟩ : Frag).size)
       else (runOps exampleHeap
              [.alloc 16, .alloc 16, .alloc 16, .free (some 16)]).allocated +
            (neighborSize (some (⟨32, false⟩ : Frag)) +
            (if neighborFree (some (⟨32, true⟩ : Frag)) = true
             then neighborSize (some (⟨32, true⟩ : Frag)) else 0))) ∧
    (o1heapReallocate
      (runOps exampleHeap [.alloc 16, .alloc 16, .alloc 16, .free (some 16)])
      (some 48) 48).1.peak_allocated =
      larger (runOps exampleHeap
          [.alloc 16, .alloc 16, .alloc 16, .free (some 16)]).peak_allocated
        ((o1heapReallocate
          (runOps exampleHeap [.alloc 16, .alloc 16, .alloc 16, .free (some 16)])
          (some 48) 48).1.allocated) ∧
    (o1heapReallocate
      (runOps exampleHeap [.alloc 16, .alloc 16, .alloc 16, .free (some 16)])
      (some 48) 48).2 =
      some ((48 - O1HEAP_ALIGNMENT - neighborSize (some (⟨32, false⟩ : Frag))) +
        O1HEAP_ALIGNMENT) := by
  have := c5_backward_expand_allocated
    (runOps exampleHeap [.alloc 16, .alloc 16, .alloc 16, .free (some 16)])
    48 48 (by decide) (by decide)
    [⟨32, false⟩] ⟨32, true⟩ [⟨32, true⟩, ⟨928, false⟩]
    (by decide) (by decide) (by decide) (by decide) (by decide) (by decide)
  simpa using this

/-! ## Helper lemmas for the operation preservation proofs -/

theorem BinsRep.fresh {bins : List (List Nat)} {mask : Nat} {fl : List (Nat × Nat)}
    (br : BinsRep bins mask fl) {a : Nat} (hnot : ∀ s, (a, s) ∉ fl) :
    ∀ i, a ∉ bins.getD i [] := by
  intro i hmem
  obtain ⟨s, hs, _⟩ := br.mem_bin i a hmem
  exact hnot s hs

theorem mem_filter_ne {fl : List (Nat × Nat)} {a : Nat} {q : Nat × Nat} :
    q ∈ fl.filter (fun p => p.1 ≠ a) ↔ q ∈ fl ∧ q.1 ≠ a := by
  rw [List.mem_filter]
  simp

/-- The address-order neighbors of a free fragment are used, and the
chain invariant restricts to both sides. -/
theorem free_borders {pre suf : List Frag} {s : Nat}
    (hch : List.Chain' (fun f g => f.used = true ∨ g.used = true)
      (pre ++ (⟨s, false⟩ : Frag) :: suf)) :
    (∀ g ∈ pre.getLast?, g.used = true) ∧ (∀ g ∈ suf.head?, g.used = true) ∧
    List.Chain' (fun f g => f.used = true ∨ g.used = true) pre ∧
    List.Chain' (fun f g => f.used = true ∨ g.used = true) suf := by
  rw [List.chain'_append] at hch
  obtain ⟨hpre, hmid, hlink⟩ := hch
  rw [List.chain'_cons'] at hmid
  obtain ⟨hhead, hsuf⟩ := hmid
  refine ⟨?_, ?_, hpre, hsuf⟩
  · intro g hg
    rcases hlink g hg ⟨s, false⟩ (by simp) with h1 | h1
    · exact h1
    · simp at h1
  · intro g hg
    rcases hhead g hg with h1 | h1
    · simp at h1
    · exact h1

/-- The chain invariant restricted to both sides of a used fragment. -/
theorem used_borders {pre suf : List Frag} {f : Frag}
    (hch : List.Chain' (fun f g => f.used = true ∨ g.used = true) (pre ++ f :: suf)) :
    List.Chain' (fun f g => f.used = true ∨ g.used = true) pre ∧
    List.Chain' (fun f g => f.used = true ∨ g.used = true) suf := by
  rw [List.chain'_append] at hch
  obtain ⟨hpre, hmid, _⟩ := hch
  rw [List.chain'_cons'] at hmid
  exact ⟨hpre, hmid.2⟩

/-! ## The allocation path preserves the invariant -/

/-- Full specification of a successful allocateCore run from a
structurally well-formed heap: the output is structurally well-formed,
the guard held, the diagnostics moved exactly as the C code writes them,
and the used-address multiset gained exactly the returned fragment. -/
theorem allocateCore_success {h : Heap} (wf : WFbase h) {n : Nat} {h2 : Heap} {p : Nat}
    (hrun : allocateCore h n = (h2, some p)) :
    WFbase h2 ∧
    h2.capacity = h.capacity ∧
    h2.peak_request_size = h.peak_request_size ∧
    h2.oom_count = h.oom_count ∧
    h2.allocated = h.allocated + roundUpToPowerOf2 (n + O1HEAP_ALIGNMENT) ∧
    h2.peak_allocated = larger h.peak_allocated h2.allocated ∧
    n + O1HEAP_ALIGNMENT ≤ roundUpToPowerOf2 (n + O1HEAP_ALIGNMENT) ∧
    0 < n ∧ n ≤ h.capacity - O1HEAP_ALIGNMENT ∧
    O1HEAP_ALIGNMENT ≤ p ∧
    (usedAddrsFrom 0 h2.frags).Perm ((p - O1HEAP_ALIGNMENT) :: h.usedAddrs) := by
  have h32 := FRAGMENT_SIZE_MIN_eq
  have hA : O1HEAP_ALIGNMENT = 16 := rfl
  simp only [allocateCore] at hrun
  by_cases hguard : 0 < n ∧ n ≤ h.capacity - O1HEAP_ALIGNMENT
  case neg =>
    rw [if_neg hguard] at hrun
    exact absurd (congrArg Prod.snd hrun) (by simp)
  rw [if_pos hguard] at hrun
  set asize := roundUpToPowerOf2 (n + O1HEAP_ALIGNMENT) with hasize
  -- basic facts about the allocation size
  have hasize_min : FRAGMENT_SIZE_MIN ≤ asize := by
    apply roundUpToPowerOf2_min
    omega
  have hasize_ge : n + O1HEAP_ALIGNMENT ≤ asize := roundUpToPowerOf2_ge _
  have hasize_max : asize ≤ FRAGMENT_SIZE_MAX := by
    apply roundUpToPowerOf2_max
    have := wf.cap_max
    omega
  set m := log2Floor (n + O1HEAP_ALIGNMENT - 1) + 1 with hm
  have hasize_pow : asize = 2 ^ m := rfl
  have hm5 : 5 ≤ m := by
    by_contra hc
    push_neg at hc
    have : (2:Nat) ^ m ≤ 2 ^ 4 := Nat.pow_le_pow_right (by norm_num) (by omega)
    rw [← hasize_pow] at this
    omega
  have hasize_mod : asize % FRAGMENT_SIZE_MIN = 0 := by
    apply roundUpToPowerOf2_mod
    omega
  have hoptimal : binIndexOf asize = m - 5 := by
    rw [hasize_pow]
    exact (binIndexOf_pow hm5).1
  have hoptimal_val : FRAGMENT_SIZE_MIN * 2 ^ (m - 5) = asize := by
    rw [hasize_pow]
    exact (binIndexOf_pow hm5).2
  have hm63 : m ≤ 63 := by
    by_contra hc
    push_neg at hc
    have h1 : (2:Nat) ^ 64 ≤ 2 ^ m := Nat.pow_le_pow_right (by norm_num) (by omega)
    rw [← hasize_pow] at h1
    have h2 : FRAGMENT_SIZE_MAX = 2 ^ 63 := rfl
    have h3 : (2:Nat) ^ 63 < 2 ^ 64 := by norm_num
    omega
  split at hrun
  on_goal 2 => exact absurd (congrArg Prod.snd hrun) (by simp)
  rename_i hsm
  split at hrun
  on_goal 1 => exact absurd (congrArg Prod.snd hrun) (by simp)
  rename_i addr heq1
  split at hrun
  on_goal 1 => exact absurd (congrArg Prod.snd hrun) (by simp)
  rename_i pre frag suf heq2
  -- identify the chosen bin and fragment
  set suitable := h.nonempty_bin_mask &&&
    bitNot64 (pow2 (log2Floor (asize / FRAGMENT_SIZE_MIN)) - 1) with hsuit
  set bidx := log2Floor (suitable &&& bitNot64 (suitable - 1)) with hbidx
  have hsmbit : (suitable &&& bitNot64 (suitable - 1)).testBit bidx = true := by
    rw [hbidx, log2Floor_eq]
    exact testBit_log2 hsm
  have hsuitbit : suitable.testBit bidx = true := testBit_of_smallest hsmbit
  have hmaskbit : h.nonempty_bin_mask.testBit bidx = true := by
    rw [hsuit, Nat.testBit_land] at hsuitbit
    exact (Bool.and_eq_true_iff.mp hsuitbit).1
  have hcandbit : (bitNot64 (pow2 (log2Floor (asize / FRAGMENT_SIZE_MIN)) - 1)).testBit bidx
      = true := by
    rw [hsuit, Nat.testBit_land] at hsuitbit
    exact (Bool.and_eq_true_iff.mp hsuitbit).2
  have hbge : m - 5 ≤ bidx := by
    rw [testBit_bitNot64] at hcandbit
    unfold pow2 at hcandbit
    rw [Nat.testBit_two_pow_sub_one] at hcandbit
    by_contra hc
    push_neg at hc
    have hb64 : bidx < 64 := by
      calc bidx < m - 5 := hc
        _ ≤ 64 := by omega
    rw [show binIndexOf asize = log2Floor (asize / FRAGMENT_SIZE_MIN) from rfl] at hoptimal
    rw [hoptimal] at hcandbit
    simp [hb64, hc] at hcandbit
  -- the head of the chosen bin is a free fragment of sufficient size
  have haddr_bin : addr ∈ h.bins.getD bidx [] := by
    have h1 : (h.bins.getD bidx []).head? = some addr := heq1
    exact List.mem_of_mem_head? (by rw [h1]; rfl)
  obtain ⟨s, hsfl, hsidx⟩ := wf.bins.mem_bin bidx addr haddr_bin
  obtain ⟨hsmin, hsmod⟩ := wf.freePair_min hsfl
  have hsge : asize ≤ s := by
    have h1 : FRAGMENT_SIZE_MIN * 2 ^ bidx ≤ s := size_ge_of_binIndexOf hsmod hsmin hsidx
    have h2 : FRAGMENT_SIZE_MIN * 2 ^ (m - 5) ≤ FRAGMENT_SIZE_MIN * 2 ^ bidx :=
      Nat.mul_le_mul_left _ (Nat.pow_le_pow_right (by norm_num) hbge)
    omega
  obtain ⟨pre2, suf2, hsplit, haddr⟩ := mem_freePairs.mp hsfl
  have hpos : ∀ g ∈ h.frags, 0 < g.size := wf.frag_pos
  have hloc : locate 0 h.frags addr = some (pre2, ⟨s, false⟩, suf2) := by
    rw [hsplit, haddr]
    exact locate_of_split (fun g hg => hpos g (by rw [hsplit]; simp [hg]))
  rw [hloc] at heq2
  have hpre : pre = pre2 := (congrArg (fun x => x.1) (Option.some.inj heq2)).symm
  have hfrag : frag = (⟨s, false⟩ : Frag) := (congrArg (fun x => x.2.1) (Option.some.inj heq2)).symm
  have hsuf : suf = suf2 := (congrArg (fun x => x.2.2) (Option.some.inj heq2)).symm
  subst hpre hfrag hsuf
  -- decompose the free list
  have hfl : freePairs 0 h.frags =
      freePairs 0 pre ++ (addr, s) :: freePairs (addr + s) suf := by
    rw [hsplit, freePairs_append, ← haddr]
    congr 1
  have hleft_lt : ∀ q ∈ freePairs 0 pre, q.1 + q.2 ≤ addr := by
    intro q hq
    have h9 : (q.1, q.2) ∈ freePairs 0 pre := by simpa using hq
    have := freePairs_bounds h9
    omega
  have hleft_pos : ∀ q ∈ freePairs 0 pre, 0 < q.2 := by
    intro q hq
    have hqfl : (q.1, q.2) ∈ freePairs 0 h.frags := by
      rw [hfl]
      exact List.mem_append_left _ (by simpa using hq)
    have := wf.freePair_min hqfl
    omega
  have hright_ge : ∀ q ∈ freePairs (addr + s) suf, addr + s ≤ q.1 := by
    intro q hq
    have h9 : (q.1, q.2) ∈ freePairs (addr + s) suf := by simpa using hq
    have := freePairs_bounds h9
    omega
  -- first structural surgery step: unbin the chosen fragment
  have hkey : ∀ s2, (addr, s2) ∈ freePairs 0 h.frags → s2 = s :=
    fun s2 hs2 => freePairs_key_unique hpos hsfl hs2
  have hiff1 : ∀ q, q ∈ ((freePairs 0 h.frags).filter fun x => x.1 ≠ addr) ↔
      q ∈ (freePairs 0 pre ++ freePairs (addr + s) suf) := by
    intro q
    rw [mem_filter_ne, hfl]
    constructor
    · rintro ⟨hq, hqa⟩
      rcases List.mem_append.mp hq with hq1 | hq1
      · exact List.mem_append_left _ hq1
      · rcases List.mem_cons.mp hq1 with hq2 | hq2
        · exact absurd (congrArg Prod.fst hq2) hqa
        · exact List.mem_append_right _ hq2
    · intro hq
      rcases List.mem_append.mp hq with hq1 | hq1
      · refine ⟨List.mem_append_left _ hq1, ?_⟩
        have := hleft_lt q hq1
        have := hleft_pos q hq1
        omega
      · refine ⟨List.mem_append_right _ (List.mem_cons_of_mem _ hq1), ?_⟩
        have := hright_ge q hq1
        have hq2 : (q.1, q.2) ∈ freePairs 0 h.frags := by
          rw [hfl]
          exact List.mem_append_right _ (List.mem_cons_of_mem _ (by simpa using hq1))
        have := wf.freePair_min hq2
        omega
  have hbr1 := (wf.bins.unbin hsfl hkey).congr hiff1
  -- extract the border facts of the chain invariant
  have hch := wf.no_adj
  rw [hsplit] at hch
  obtain ⟨hpreLast, hsufHead, hchPre, hchSuf⟩ := free_borders hch
  have hs_le_cap : addr + s ≤ h.capacity := wf.freePair_le hsfl
  have htot : sumSizes pre + (s + sumSizes suf) = h.capacity := by
    have := wf.total
    rw [hsplit] at this
    simpa using this
  have husum : h.allocated = usedSum pre + usedSum suf := by
    have := wf.alloc_eq
    rw [hsplit] at this
    simpa using this
  -- finally split on whether the fragment is split
  split at hrun
  · -- split case: a leftover tail is carved off and rebinned
    rename_i hlft
    have hp : p = addr + O1HEAP_ALIGNMENT :=
      (Option.some.inj (congrArg Prod.snd hrun)).symm
    have hh2 : h2 = rebin
        { unbin h addr s with
          frags := pre ++ (⟨asize, true⟩ : Frag) :: (⟨s - asize, false⟩ : Frag) :: suf,
          allocated := (unbin h addr s).allocated + asize,
          peak_allocated := larger (unbin h addr s).peak_allocated
            ((unbin h addr s).allocated + asize) } (addr + asize) (s - asize) := by
      have h1 := congrArg Prod.fst hrun
      simp only at h1
      rw [← h1]
      rfl
    have hlft2 : FRAGMENT_SIZE_MIN ≤ s - asize := by simpa using hlft
    subst hh2 hp
    set hmid : Heap :=
      { unbin h addr s with
        frags := pre ++ (⟨asize, true⟩ : Frag) :: (⟨s - asize, false⟩ : Frag) :: suf,
        allocated := (unbin h addr s).allocated + asize,
        peak_allocated := larger (unbin h addr s).peak_allocated
          ((unbin h addr s).allocated + asize) } with hmiddef
    have harith : addr + asize + (s - asize) = addr + s := by omega
    have hfp2 : freePairs 0 hmid.frags
        = freePairs 0 pre ++ (addr + asize, s - asize) :: freePairs (addr + s) suf := by
      show freePairs 0 (pre ++ (⟨asize, true⟩ : Frag) :: (⟨s - asize, false⟩ : Frag) :: suf) = _
      rw [freePairs_append, ← haddr]
      show freePairs 0 pre ++
        ((addr + asize, s - asize) :: freePairs (addr + asize + (s - asize)) suf) = _
      rw [harith]
    have hfresh : ∀ s2, (addr + asize, s2) ∉
        (freePairs 0 pre ++ freePairs (addr + s) suf) := by
      intro s2 hmem
      rcases List.mem_append.mp hmem with hq | hq
      · have h1 := hleft_lt _ hq
        have h2 := hleft_pos _ hq
        simp only at h1 h2
        omega
      · have h1 := hright_ge _ hq
        simp only at h1
        omega
    have hbrmid : BinsRep hmid.bins hmid.nonempty_bin_mask
        (freePairs 0 pre ++ freePairs (addr + s) suf) := hbr1
    have hszcap : s - asize ≤ FRAGMENT_SIZE_MAX := by
      have h1 := wf.cap_max
      omega
    have hbr2 := BinsRep.rebin hbrmid (binIndexOf_lt hszcap) (BinsRep.fresh hbrmid hfresh)
    have husum2 : usedSum hmid.frags = h.allocated + asize := by
      show usedSum (pre ++ (⟨asize, true⟩ : Frag) :: (⟨s - asize, false⟩ : Frag) :: suf) = _
      simp only [usedSum_append, usedSum_cons]
      simp [husum]
      omega
    have htot2 : sumSizes hmid.frags = h.capacity := by
      show sumSizes (pre ++ (⟨asize, true⟩ : Frag) :: (⟨s - asize, false⟩ : Frag) :: suf) = _
      simp only [sumSizes_append, sumSizes_cons]
      simp only at htot
      omega
    have hch2 : List.Chain' (fun f g => f.used = true ∨ g.used = true) hmid.frags := by
      show List.Chain'
        (fun f g => f.used = true ∨ g.used = true)
        (pre ++ (⟨asize, true⟩ : Frag) :: (⟨s - asize, false⟩ : Frag) :: suf)
      rw [List.chain'_append]
      refine ⟨hchPre, ?_, ?_⟩
      · rw [List.chain'_cons]
        refine ⟨Or.inl rfl, ?_⟩
        rw [List.chain'_cons']
        exact ⟨fun y hy => Or.inr (hsufHead y hy), hchSuf⟩
      · intro x _ y hy
        simp only [List.head?_cons, Option.mem_def, Option.some.injEq] at hy
        right
        rw [← hy]
    have hallocmod : (h.allocated + asize) % FRAGMENT_SIZE_MIN = 0 := by
      have h1 := wf.allocated_mod
      rw [h32] at h1 hasize_mod ⊢
      omega
    have hallocap : h.allocated + asize ≤ h.capacity := by
      rw [← husum2, ← htot2]
      exact usedSum_le_sumSizes _
    refine ⟨⟨?_, ?_, ?_, ?_, ?_, ?_, ?_, ?_, ?_, ?_, ?_, ?_, ?_⟩,
      by simp [hmiddef], by simp [hmiddef], by simp [hmiddef], by simp [hmiddef],
      by simp [hmiddef], hasize_ge, hguard.1, hguard.2, Nat.le_add_left _ _, ?_⟩
    · simpa [hmiddef] using wf.cap_min
    · simpa [hmiddef] using wf.cap_max
    · simpa [hmiddef] using wf.cap_mod
    · show hmid.frags ≠ []
      simp [hmiddef]
    · show sumSizes hmid.frags = (rebin hmid (addr + asize) (s - asize)).capacity
      rw [htot2]
      simp [hmiddef]
    · show ∀ f ∈ hmid.frags, FRAGMENT_SIZE_MIN ≤ f.size
      intro f hf
      have hf2 : f ∈ pre ++ (⟨asize, true⟩ : Frag) :: (⟨s - asize, false⟩ : Frag) :: suf := hf
      simp only [List.mem_append, List.mem_cons] at hf2
      rcases hf2 with hf2 | hf2 | hf2 | hf2
      · exact wf.frag_min f (by rw [hsplit]; simp [hf2])
      · rw [hf2]; exact hasize_min
      · rw [hf2]; exact hlft2
      · exact wf.frag_min f (by rw [hsplit]; simp [hf2])
    · show ∀ f ∈ hmid.frags, f.size % FRAGMENT_SIZE_MIN = 0
      intro f hf
      have hf2 : f ∈ pre ++ (⟨asize, true⟩ : Frag) :: (⟨s - asize, false⟩ : Frag) :: suf := hf
      simp only [List.mem_append, List.mem_cons] at hf2
      rcases hf2 with hf2 | hf2 | hf2 | hf2
      · exact wf.frag_mod f (by rw [hsplit]; simp [hf2])
      · rw [hf2]; exact hasize_mod
      · rw [hf2]
        show (s - asize) % FRAGMENT_SIZE_MIN = 0
        rw [h32] at hsmod hasize_mod ⊢
        omega
      · exact wf.frag_mod f (by rw [hsplit]; simp [hf2])
    · show List.Chain' _ hmid.frags
      exact hch2
    · show BinsRep _ _ (freePairs 0 hmid.frags)
      rw [hfp2]
      exact hbr2.congr (by
        intro q
        constructor
        · intro hq
          rcases List.mem_cons.mp hq with hq | hq
          · rw [hq]
            exact List.mem_append_right _ (List.mem_cons_self _ _)
          · rcases List.mem_append.mp hq with hq | hq
            · exact List.mem_append_left _ hq
            · exact List.mem_append_right _ (List.mem_cons_of_mem _ hq)
        · intro hq
          rcases List.mem_append.mp hq with hq | hq
          · exact List.mem_cons_of_mem _ (List.mem_append_left _ hq)
          · rcases List.mem_cons.mp hq with hq | hq
            · rw [hq]; exact List.mem_cons_self _ _
            · exact List.mem_cons_of_mem _ (List.mem_append_right _ hq))
    · show (unbin h addr s).allocated + asize = usedSum hmid.frags
      rw [husum2]
      simp
    · show (unbin h addr s).allocated + asize ≤
        larger (unbin h addr s).peak_allocated ((unbin h addr s).allocated + asize)
      exact le_larger_right _ _
    · show larger (unbin h addr s).peak_allocated ((unbin h addr s).allocated + asize) ≤
        (rebin hmid (addr + asize) (s - asize)).capacity
      have hc : (rebin hmid (addr + asize) (s - asize)).capacity = h.capacity := by
        simp [hmiddef]
      rw [hc]
      apply larger_le
      · simpa using wf.peak_cap
      · simpa using hallocap
    · show larger (unbin h addr s).peak_allocated ((unbin h addr s).allocated + asize) %
        FRAGMENT_SIZE_MIN = 0
      apply larger_mod
      · simpa using wf.peak_mod
      · simpa using hallocmod
    · show (usedAddrsFrom 0 hmid.frags).Perm _
      have hu2 : usedAddrsFrom 0 hmid.frags =
          usedAddrsFrom 0 pre ++ addr :: usedAddrsFrom (addr + s) suf := by
        show usedAddrsFrom 0
          (pre ++ (⟨asize, true⟩ : Frag) :: (⟨s - asize, false⟩ : Frag) :: suf) = _
        rw [usedAddrsFrom_append, ← haddr]
        show usedAddrsFrom 0 pre ++
          (addr :: usedAddrsFrom (addr + asize + (s - asize)) suf) = _
        rw [harith]
      have hu1 : h.usedAddrs = usedAddrsFrom 0 pre ++ usedAddrsFrom (addr + s) suf := by
        show usedAddrsFrom 0 h.frags = _
        rw [hsplit, usedAddrsFrom_append, ← haddr]
        rfl
      rw [hu2, hu1]
      have : addr + O1HEAP_ALIGNMENT - O1HEAP_ALIGNMENT = addr := by omega
      rw [this]
      exact List.perm_middle
  · -- no-split case: the leftover is zero and the whole fragment is used
    rename_i hlft
    have hp : p = addr + O1HEAP_ALIGNMENT :=
      (Option.some.inj (congrArg Prod.snd hrun)).symm
    have hh2 : h2 =
        { unbin h addr s with
          frags := pre ++ (⟨s, true⟩ : Frag) :: suf,
          allocated := (unbin h addr s).allocated + asize,
          peak_allocated := larger (unbin h addr s).peak_allocated
            ((unbin h addr s).allocated + asize) } := by
      have h1 := congrArg Prod.fst hrun
      simp only at h1
      rw [← h1]
    have hlft2 : s - asize < FRAGMENT_SIZE_MIN := by
      have h1 : ¬ FRAGMENT_SIZE_MIN ≤ s - asize := by simpa using hlft
      omega
    have hseq : s = asize := by
      have h1 := hsmod
      have h2 := hasize_mod
      rw [h32] at h1 h2 hlft2
      omega
    subst hh2 hp
    set hmid : Heap :=
      { unbin h addr s with
        frags := pre ++ (⟨s, true⟩ : Frag) :: suf,
        allocated := (unbin h addr s).allocated + asize,
        peak_allocated := larger (unbin h addr s).peak_allocated
          ((unbin h addr s).allocated + asize) } with hmiddef
    have hfp2 : freePairs 0 hmid.frags = freePairs 0 pre ++ freePairs (addr + s) suf := by
      show freePairs 0 (pre ++ (⟨s, true⟩ : Frag) :: suf) = _
      rw [freePairs_append, ← haddr]
      rfl
    have husum2 : usedSum hmid.frags = h.allocated + asize := by
      show usedSum (pre ++ (⟨s, true⟩ : Frag) :: suf) = _
      simp only [usedSum_append, usedSum_cons]
      simp [husum]
      omega
    have htot2 : sumSizes hmid.frags = h.capacity := by
      show sumSizes (pre ++ (⟨s, true⟩ : Frag) :: suf) = _
      simp only [sumSizes_append, sumSizes_cons]
      simp only at htot
      omega
    have hallocmod : (h.allocated + asize) % FRAGMENT_SIZE_MIN = 0 := by
      have h1 := wf.allocated_mod
      have h2 := hasize_mod
      rw [h32] at h1 h2 ⊢
      omega
    have hallocap : h.allocated + asize ≤ h.capacity := by
      rw [← husum2, ← htot2]
      exact usedSum_le_sumSizes _
    refine ⟨⟨?_, ?_, ?_, ?_, ?_, ?_, ?_, ?_, ?_, ?_, ?_, ?_, ?_⟩,
      by simp [hmiddef], by simp [hmiddef], by simp [hmiddef], by simp [hmiddef],
      by simp [hmiddef], hasize_ge, hguard.1, hguard.2, Nat.le_add_left _ _, ?_⟩
    · simpa [hmiddef] using wf.cap_min
    · simpa [hmiddef] using wf.cap_max
    · simpa [hmiddef] using wf.cap_mod
    · show hmid.frags ≠ []
      simp [hmiddef]
    · show sumSizes hmid.frags = hmid.capacity
      rw [htot2]
      simp [hmiddef]
    · show ∀ f ∈ hmid.frags, FRAGMENT_SIZE_MIN ≤ f.size
      intro f hf
      have hf2 : f ∈ pre ++ (⟨s, true⟩ : Frag) :: suf := hf
      simp only [List.mem_append, List.mem_cons] at hf2
      rcases hf2 with hf2 | hf2 | hf2
      · exact wf.frag_min f (by rw [hsplit]; simp [hf2])
      · rw [hf2]; exact hsmin
      · exact wf.frag_min f (by rw [hsplit]; simp [hf2])
    · show ∀ f ∈ hmid.frags, f.size % FRAGMENT_SIZE_MIN = 0
      intro f hf
      have hf2 : f ∈ pre ++ (⟨s, true⟩ : Frag) :: suf := hf
      simp only [List.mem_append, List.mem_cons] at hf2
      rcases hf2 with hf2 | hf2 | hf2
      · exact wf.frag_mod f (by rw [hsplit]; simp [hf2])
      · rw [hf2]; exact hsmod
      · exact wf.frag_mod f (by rw [hsplit]; simp [hf2])
    · show List.Chain' (fun f g => f.used = true ∨ g.used = true)
        (pre ++ (⟨s, true⟩ : Frag) :: suf)
      rw [List.chain'_append]
      refine ⟨hchPre, ?_, ?_⟩
      · rw [List.chain'_cons']
        exact ⟨fun y _ => Or.inl rfl, hchSuf⟩
      · intro x _ y hy
        simp only [List.head?_cons, Option.mem_def, Option.some.injEq] at hy
        right
        rw [← hy]
    · show BinsRep hmid.bins hmid.nonempty_bin_mask (freePairs 0 hmid.frags)
      rw [hfp2]
      exact hbr1
    · show (unbin h addr s).allocated + asize = usedSum hmid.frags
      rw [husum2]
      simp
    · show (unbin h addr s).allocated + asize ≤
        larger (unbin h addr s).peak_allocated ((unbin h addr s).allocated + asize)
      exact le_larger_right _ _
    · show larger (unbin h addr s).peak_allocated ((unbin h addr s).allocated + asize) ≤
        hmid.capacity
      have hc : hmid.capacity = h.capacity := by simp [hmiddef]
      rw [hc]
      apply larger_le
      · simpa using wf.peak_cap
      · simpa using hallocap
    · show larger (unbin h addr s).peak_allocated ((unbin h addr s).allocated + asize) %
        FRAGMENT_SIZE_MIN = 0
      apply larger_mod
      · simpa using wf.peak_mod
      · simpa using hallocmod
    · show (usedAddrsFrom 0 hmid.frags).Perm _
      have hu2 : usedAddrsFrom 0 hmid.frags =
          usedAddrsFrom 0 pre ++ addr :: usedAddrsFrom (addr + s) suf := by
        show usedAddrsFrom 0 (pre ++ (⟨s, true⟩ : Frag) :: suf) = _
        rw [usedAddrsFrom_append, ← haddr]
        rfl
      have hu1 : h.usedAddrs = usedAddrsFrom 0 pre ++ usedAddrsFrom (addr + s) suf := by
        show usedAddrsFrom 0 h.frags = _
        rw [hsplit, usedAddrsFrom_append, ← haddr]
        rfl
      rw [hu2, hu1]
      have h1 : addr + O1HEAP_ALIGNMENT - O1HEAP_ALIGNMENT = addr := by omega
      rw [h1]
      exact List.perm_middle

/-! ## o1heapInit establishes the invariant -/

theorem getD_replicate {n i : Nat} : (List.replicate n ([] : List Nat)).getD i [] = [] := by
  rcases Nat.lt_or_ge i n with hi | hi
  · simp [List.getD, List.getElem?_replicate, hi]
  · rw [getD_ge_length]
    simpa using hi

/-- The heap built by o1heapInit from a sufficient arena is well-formed. -/
theorem o1heapInit_WF {size : Nat} {h : Heap} (hinit : o1heapInit size = some h) : WF h := by
  simp only [o1heapInit] at hinit
  split at hinit
  case isFalse => exact absurd hinit (by simp)
  case isTrue hsize =>
    set capacity1 := if size - INSTANCE_SIZE_PADDED > FRAGMENT_SIZE_MAX then FRAGMENT_SIZE_MAX
      else size - INSTANCE_SIZE_PADDED with hc1
    set cap := capacity1 - capacity1 % FRAGMENT_SIZE_MIN with hcap
    have h32 := FRAGMENT_SIZE_MIN_eq
    have hMAX : FRAGMENT_SIZE_MAX = 2 ^ 63 := rfl
    have hmin : o1heapMinArenaSize = 608 := by
      norm_num [o1heapMinArenaSize, INSTANCE_SIZE_PADDED, FRAGMENT_SIZE_MIN, O1HEAP_ALIGNMENT]
    have hIP : INSTANCE_SIZE_PADDED = 576 := rfl
    have hc1ge : 32 ≤ capacity1 := by
      rw [hc1]
      split
      · rw [hMAX]; norm_num
      · rw [hmin] at hsize; omega
    have hc1le : capacity1 ≤ FRAGMENT_SIZE_MAX := by
      rw [hc1]
      split
      · exact Nat.le_refl _
      · omega
    have hcap_min : FRAGMENT_SIZE_MIN ≤ cap := by
      rw [hcap, h32]
      omega
    have hcap_max : cap ≤ FRAGMENT_SIZE_MAX := by
      rw [hcap]
      have : capacity1 - capacity1 % FRAGMENT_SIZE_MIN ≤ capacity1 := Nat.sub_le _ _
      omega
    have hcap_mod : cap % FRAGMENT_SIZE_MIN = 0 := by
      rw [hcap, h32]
      omega
    set base : Heap :=
      { capacity := cap
        frags := [⟨cap, false⟩]
        bins := List.replicate NUM_BINS_MAX []
        nonempty_bin_mask := 0
        allocated := 0
        peak_allocated := 0
        peak_request_size := 0
        oom_count := 0 } with hbase
    have hh : h = rebin base 0 cap := by
      have := Option.some.inj hinit
      exact this.symm
    have hbr0 : BinsRep base.bins base.nonempty_bin_mask [] := by
      refine ⟨by simp [hbase, NUM_BINS_MAX], ?_, ?_, ?_, ?_, ?_⟩
      · intro i a ha
        rw [hbase] at ha
        simp only at ha
        rw [getD_replicate] at ha
        simp at ha
      · intro a s hs
        simp at hs
      · intro i
        rw [hbase]
        simp only
        rw [getD_replicate]
        exact List.nodup_nil
      · intro i
        rw [hbase]
        simp only
        rw [getD_replicate]
        simp [Nat.zero_testBit]
      · rw [hbase]
        simp only
        exact Nat.pos_pow_of_pos 64 (by norm_num)
    have hbr : BinsRep (rebin base 0 cap).bins (rebin base 0 cap).nonempty_bin_mask
        ((0, cap) :: []) :=
      BinsRep.rebin hbr0 (binIndexOf_lt hcap_max)
        (fun i => by
          rw [hbase]
          simp only
          rw [getD_replicate]
          simp)
    rw [hh]
    refine ⟨⟨hcap_min, hcap_max, hcap_mod, by simp [hbase], by simp [hbase], ?_, ?_, ?_, ?_,
      by simp [hbase], by simp [hbase], by simp [hbase], by simp [hbase]⟩, ?_, ?_, ?_⟩
    · intro f hf
      rw [rebin_frags, hbase] at hf
      simp at hf
      rw [hf]
      exact hcap_min
    · intro f hf
      rw [rebin_frags, hbase] at hf
      simp at hf
      rw [hf]
      exact hcap_mod
    · rw [rebin_frags, hbase]
      simp
    · have hfp : freePairs 0 (rebin base 0 cap).frags = [(0, cap)] := by
        rw [rebin_frags, hbase]
        simp [freePairs]
      rw [hfp]
      exact hbr
    · rw [rebin_prs]
      simp [hbase]
      omega
    · intro hz
      simp [hbase]
    · intro hpos
      rw [rebin_prs] at hpos
      simp [hbase] at hpos

/-- The concrete capacity-96 heap is well-formed. -/
theorem exampleHeap96_wf : WF exampleHeap96 :=
  o1heapInit_WF (show o1heapInit 672 = some exampleHeap96 from by
    rw [exampleHeap96]
    decide)

/-! ## C4: the maximum allocation size -/

/-- Every bit set in the mask of a well-formed heap testifies a free
fragment of bounded size in that size class. -/
theorem WFbase.mask_bit_size {h : Heap} (wf : WFbase h) {i : Nat}
    (hbit : h.nonempty_bin_mask.testBit i = true) :
    ∃ s, FRAGMENT_SIZE_MIN * 2 ^ i ≤ s ∧ s ≤ h.capacity := by
  have hne := (wf.bins.maskBit i).mp hbit
  match hl : h.bins.getD i [] with
  | [] => exact absurd hl hne
  | a :: t =>
    have hmem : a ∈ h.bins.getD i [] := by rw [hl]; simp
    obtain ⟨s, hs, hidx⟩ := wf.bins.mem_bin i a hmem
    obtain ⟨hmin, hmod⟩ := wf.freePair_min hs
    refine ⟨s, size_ge_of_binIndexOf hmod hmin hidx, ?_⟩
    have := wf.freePair_le hs
    omega

/-- C4 counterexample: on a well-formed heap whose capacity (96) is not a
power of two, the amount 49 exceeds o1heapGetMaxAllocationSize = 48 yet
does not satisfy the step-3 guard (49 <= capacity - A = 80), so the
failure happens at the bin-mask check, not fast via step 3. -/
theorem c4_counterexample :
    o1heapGetMaxAllocationSize exampleHeap96 = 48 ∧
    o1heapGetMaxAllocationSize exampleHeap96 < 49 ∧
    ¬ (exampleHeap96.capacity - O1HEAP_ALIGNMENT < 49) ∧
    (o1heapAllocate exampleHeap96 49).2 = none ∧
    (o1heapAllocate exampleHeap96 49).1.oom_count = exampleHeap96.oom_count + 1 := by
  decide

/-- C4 amended: o1heapGetMaxAllocationSize returns
2^floor(log2(capacity)) - A, and every allocation whose amount exceeds it
returns null and increments oom_count; the failure is detected by step 3
(the guard amount > capacity - A) only when the amount also exceeds
capacity - A — which captures all amounts above the maximum exactly when
the capacity is a power of two — and otherwise by the empty
candidate-bin-mask check of step 6. -/
theorem c4_above_max_allocation_fails (h : Heap) (wf : WF h) (amount : Nat)
    (hbig : o1heapGetMaxAllocationSize h < amount) :
    o1heapGetMaxAllocationSize h = pow2 (log2Floor h.capacity) - O1HEAP_ALIGNMENT ∧
    (o1heapAllocate h amount).2 = none ∧
    (o1heapAllocate h amount).1.oom_count = h.oom_count + 1 := by
  have hA : O1HEAP_ALIGNMENT = 16 := rfl
  have hcap32 : FRAGMENT_SIZE_MIN ≤ h.capacity := wf.base.cap_min
  have h32 := FRAGMENT_SIZE_MIN_eq
  set k := Nat.log2 h.capacity with hk
  have hkmax : o1heapGetMaxAllocationSize h = 2 ^ k - O1HEAP_ALIGNMENT := by
    unfold o1heapGetMaxAllocationSize pow2
    rw [log2Floor_eq]
  have hk5 : 5 ≤ k := by
    rw [hk]
    have : (2 : Nat) ^ 5 ≤ h.capacity := by omega
    exact (Nat.le_log2 (by omega)).mpr this
  have hklow : 2 ^ k ≤ h.capacity := Nat.log2_self_le (by omega)
  have hkhigh : h.capacity < 2 ^ (k + 1) := Nat.lt_log2_self
  have hamount : 2 ^ k < amount + O1HEAP_ALIGNMENT := by
    rw [hkmax] at hbig
    have : (0:Nat) < 2 ^ k := Nat.pos_pow_of_pos k (by norm_num)
    omega
  have hamount_pos : 0 < amount := by
    have : (32:Nat) ≤ 2 ^ k := by
      calc (32:Nat) = 2 ^ 5 := by norm_num
      _ ≤ 2 ^ k := Nat.pow_le_pow_right (by norm_num) hk5
    omega
  have hfail : (allocateCore h amount).2 = none := by
    by_cases hguard : 0 < amount ∧ amount ≤ h.capacity - O1HEAP_ALIGNMENT
    · -- the guard passes; the candidate mask check fails
      have halloc_big : 2 ^ (k + 1) ≤ roundUpToPowerOf2 (amount + O1HEAP_ALIGNMENT) :=
        roundUpToPowerOf2_pow_le hamount
      set m := log2Floor (amount + O1HEAP_ALIGNMENT - 1) + 1 with hm
      have halloc_eq : roundUpToPowerOf2 (amount + O1HEAP_ALIGNMENT) = 2 ^ m := rfl
      have hm6 : k + 1 ≤ m := by
        by_contra hc
        push_neg at hc
        have := Nat.pow_le_pow_right (show 1 ≤ 2 by norm_num) (show m ≤ k from by omega)
        rw [← halloc_eq] at this
        omega
      have hmopt : binIndexOf (2 ^ m) = m - 5 ∧ FRAGMENT_SIZE_MIN * 2 ^ (m - 5) = 2 ^ m :=
        binIndexOf_pow (by omega)
      have hzero : h.nonempty_bin_mask &&&
          bitNot64 (pow2 (log2Floor (roundUpToPowerOf2 (amount + O1HEAP_ALIGNMENT) /
            FRAGMENT_SIZE_MIN)) - 1) = 0 := by
        have hopt : log2Floor (roundUpToPowerOf2 (amount + O1HEAP_ALIGNMENT) /
            FRAGMENT_SIZE_MIN) = m - 5 := by
          rw [halloc_eq]
          exact hmopt.1
        rw [hopt]
        apply Nat.eq_of_testBit_eq
        intro i
        rw [Nat.zero_testBit, Nat.testBit_land]
        rcases Bool.eq_false_or_eq_true (h.nonempty_bin_mask.testBit i) with hmb | hmb
        · obtain ⟨s, hsge, hsle⟩ := wf.base.mask_bit_size hmb
          have hi : i < m - 5 := by
            by_contra hc
            push_neg at hc
            have h1 : FRAGMENT_SIZE_MIN * 2 ^ (m - 5) ≤ FRAGMENT_SIZE_MIN * 2 ^ i :=
              Nat.mul_le_mul_left _ (Nat.pow_le_pow_right (by norm_num) hc)
            have h2 : (2:Nat) ^ m ≤ s := by
              rw [← hmopt.2]
              omega
            have h3 : (2:Nat) ^ (k+1) ≤ 2 ^ m := Nat.pow_le_pow_right (by norm_num) hm6
            omega
          have hcand : (bitNot64 (pow2 (m - 5) - 1)).testBit i = false := by
            rw [testBit_bitNot64]
            unfold pow2
            rw [Nat.testBit_two_pow_sub_one]
            have hi64 : i < 64 := by
              have : m - 5 ≤ 58 := by
                have : 2 ^ m ≤ 2 ^ 63 := by
                  rw [← halloc_eq]
                  exact roundUpToPowerOf2_max (show amount + O1HEAP_ALIGNMENT ≤ FRAGMENT_SIZE_MAX by
                    have := wf.base.cap_max
                    unfold FRAGMENT_SIZE_MAX at this ⊢
                    omega)
                by_contra hc2
                push_neg at hc2
                have := Nat.pow_le_pow_right (show 1 ≤ 2 by norm_num) (show 64 ≤ m by omega)
                have h264 : (2:Nat) ^ 63 < 2 ^ 64 := by norm_num
                omega
              omega
            simp [hi64, hi]
          rw [hcand]
          simp
        · rw [hmb]; rfl
      simp only [allocateCore]
      rw [if_pos hguard, hzero]
      simp
    · simp only [allocateCore]
      rw [if_neg hguard]
  refine ⟨by unfold o1heapGetMaxAllocationSize; rfl, ?_, ?_⟩
  · rw [o1heapAllocate_snd]
    exact hfail
  · have := o1heapAllocate_failure_pos h amount hamount_pos (by rw [o1heapAllocate_snd]; exact hfail)
    rw [this]

/-- C4 witness: the amended statement at the concrete capacity-96 heap. -/
theorem c4_above_max_allocation_fails_witness :
    o1heapGetMaxAllocationSize exampleHeap96 =
      pow2 (log2Floor exampleHeap96.capacity) - O1HEAP_ALIGNMENT ∧
    (o1heapAllocate exampleHeap96 49).2 = none ∧
    (o1heapAllocate exampleHeap96 49).1.oom_count = exampleHeap96.oom_count + 1 :=
  c4_above_max_allocation_fails exampleHeap96 exampleHeap96_wf 49 (by decide)

/-- C9 witness. -/
theorem c9_round_up_pow2_guarded_witness :
    2 ≤ 100 + O1HEAP_ALIGNMENT ∧
    FRAGMENT_SIZE_MIN ≤ roundUpToPowerOf2 (100 + O1HEAP_ALIGNMENT) ∧
    roundUpToPowerOf2 (100 + O1HEAP_ALIGNMENT) ≤ FRAGMENT_SIZE_MAX ∧
    log2Floor (100 + O1HEAP_ALIGNMENT - 1) + 1 ≤ 63 :=
  c9_round_up_pow2_guarded 100 1024 (by decide) (by decide) (by decide) (by decide)

/-! ## The free path preserves the invariant -/

/-- A free fragment is its own eta expansion with used := false. -/
theorem Frag.eta_free {f : Frag} (h : f.used = false) : f = (⟨f.size, false⟩ : Frag) := by
  cases f
  simp_all

/-- A used fragment is its own eta expansion with used := true. -/
theorem Frag.eta_used {f : Frag} (h : f.used = true) : f = (⟨f.size, true⟩ : Frag) := by
  cases f
  simp_all

/-- A neighbor reported free is a present free fragment. -/
theorem neighborFree_some {o : Option Frag} (h : neighborFree o = true) :
    ∃ g, o = some g ∧ g.used = false := by
  cases o with
  | none => simp [neighborFree] at h
  | some g => exact ⟨g, rfl, by simpa [neighborFree] using h⟩

/-- A neighbor not reported free is used whenever it is present. -/
theorem neighborFree_false_used {o : Option Frag} (h : neighborFree o = false) :
    ∀ g ∈ o, g.used = true := by
  intro g hg
  cases o with
  | none => simp at hg
  | some g2 =>
    simp only [Option.mem_def, Option.some.injEq] at hg
    rw [← hg]
    simpa [neighborFree] using h

/-- Structural well-formedness transports along field equalities. -/
theorem WFbase.transport {h h2 : Heap} (wf : WFbase h)
    (hcap : h2.capacity = h.capacity) (hfr : h2.frags = h.frags)
    (hbins : h2.bins = h.bins) (hmask : h2.nonempty_bin_mask = h.nonempty_bin_mask)
    (halloc : h2.allocated = h.allocated) (hpeak : h2.peak_allocated = h.peak_allocated) :
    WFbase h2 := by
  refine ⟨?_, ?_, ?_, ?_, ?_, ?_, ?_, ?_, ?_, ?_, ?_, ?_, ?_⟩ <;>
    simp only [hcap, hfr, hbins, hmask, halloc, hpeak]
  · exact wf.cap_min
  · exact wf.cap_max
  · exact wf.cap_mod
  · exact wf.frags_ne
  · exact wf.total
  · exact wf.frag_min
  · exact wf.frag_mod
  · exact wf.no_adj
  · exact wf.bins
  · exact wf.alloc_eq
  · exact wf.peak_ge
  · exact wf.peak_cap
  · exact wf.peak_mod

/-- Common reassembly step of the four o1heapFree branches: replacing the
coalescing group by a single free fragment of the summed size, with the
bins already holding exactly the surviving free fragments, yields a
structurally well-formed heap. -/
theorem WFbase_free_result {h h3 : Heap} (wf : WFbase h) {L R : List Frag} {S : Nat}
    (F : Nat)
    (hfr3 : h3.frags = L ++ (⟨S, false⟩ : Frag) :: R)
    (hcap3 : h3.capacity = h.capacity)
    (halloc3 : h3.allocated + F = h.allocated)
    (hpeak3 : h3.peak_allocated = h.peak_allocated)
    (hsub : ∀ g, g ∈ L ∨ g ∈ R → g ∈ h.frags)
    (htot : sumSizes L + (S + sumSizes R) = h.capacity)
    (hS_min : FRAGMENT_SIZE_MIN ≤ S)
    (hS_mod : S % FRAGMENT_SIZE_MIN = 0)
    (hLlast : ∀ g ∈ L.getLast?, g.used = true)
    (hRhead : ∀ g ∈ R.head?, g.used = true)
    (hchL : List.Chain' (fun f g => f.used = true ∨ g.used = true) L)
    (hchR : List.Chain' (fun f g => f.used = true ∨ g.used = true) R)
    (husum : usedSum L + (F + usedSum R) = h.allocated)
    (hbr : BinsRep h3.bins h3.nonempty_bin_mask
      (freePairs 0 L ++ freePairs (sumSizes L + S) R)) :
    WFbase (rebin h3 (sumSizes L) S) := by
  have hScap : S ≤ h.capacity := by omega
  have hidx : binIndexOf S < NUM_BINS_MAX := binIndexOf_lt (by
    have := wf.cap_max
    omega)
  have hfresh : ∀ s2, (sumSizes L, s2) ∉
      (freePairs 0 L ++ freePairs (sumSizes L + S) R) := by
    intro s2 hq
    rcases List.mem_append.mp hq with hq | hq
    · have hb := freePairs_bounds hq
      have hmm := mem_freePairs.mp hq
      obtain ⟨pre1, suf1, hs1, ha1⟩ := hmm
      have hposf : (0 : Nat) < s2 := by
        have : (⟨s2, false⟩ : Frag) ∈ L := by rw [hs1]; simp
        have := wf.frag_min _ (hsub _ (Or.inl this))
        have h32 := FRAGMENT_SIZE_MIN_eq
        simp at this
        omega
      simp only at hb
      omega
    · have hb := freePairs_bounds hq
      have hS0 : 0 < S := by
        have := FRAGMENT_SIZE_MIN_eq
        omega
      simp only at hb
      omega
  have hbr2 := BinsRep.rebin hbr hidx (BinsRep.fresh hbr hfresh)
  have hfp : freePairs 0 (L ++ (⟨S, false⟩ : Frag) :: R)
      = freePairs 0 L ++ (sumSizes L, S) :: freePairs (sumSizes L + S) R := by
    rw [freePairs_append]
    simp only [Nat.zero_add]
    rfl
  have husedS : usedSum (L ++ (⟨S, false⟩ : Frag) :: R) = usedSum L + usedSum R := by
    simp
  refine ⟨?_, ?_, ?_, ?_, ?_, ?_, ?_, ?_, ?_, ?_, ?_, ?_, ?_⟩
  · show FRAGMENT_SIZE_MIN ≤ h3.capacity
    rw [hcap3]
    exact wf.cap_min
  · show h3.capacity ≤ FRAGMENT_SIZE_MAX
    rw [hcap3]
    exact wf.cap_max
  · show h3.capacity % FRAGMENT_SIZE_MIN = 0
    rw [hcap3]
    exact wf.cap_mod
  · show h3.frags ≠ []
    rw [hfr3]
    simp
  · show sumSizes h3.frags = h3.capacity
    rw [hfr3, hcap3]
    simp only [sumSizes_append, sumSizes_cons]
    omega
  · show ∀ f ∈ h3.frags, FRAGMENT_SIZE_MIN ≤ f.size
    rw [hfr3]
    intro g hg
    simp only [List.mem_append, List.mem_cons] at hg
    rcases hg with hg | hg | hg
    · exact wf.frag_min g (hsub g (Or.inl hg))
    · rw [hg]
      exact hS_min
    · exact wf.frag_min g (hsub g (Or.inr hg))
  · show ∀ f ∈ h3.frags, f.size % FRAGMENT_SIZE_MIN = 0
    rw [hfr3]
    intro g hg
    simp only [List.mem_append, List.mem_cons] at hg
    rcases hg with hg | hg | hg
    · exact wf.frag_mod g (hsub g (Or.inl hg))
    · rw [hg]
      exact hS_mod
    · exact wf.frag_mod g (hsub g (Or.inr hg))
  · show List.Chain' (fun f g => f.used = true ∨ g.used = true) h3.frags
    rw [hfr3, List.chain'_append]
    refine ⟨hchL, ?_, ?_⟩
    · rw [List.chain'_cons']
      exact ⟨fun y hy => Or.inr (hRhead y hy), hchR⟩
    · intro x hx y hy
      simp only [List.head?_cons, Option.mem_def, Option.some.injEq] at hy
      left
      exact hLlast x hx
  · show BinsRep (rebin h3 (sumSizes L) S).bins (rebin h3 (sumSizes L) S).nonempty_bin_mask
      (freePairs 0 (rebin h3 (sumSizes L) S).frags)
    rw [rebin_frags, hfr3, hfp]
    exact hbr2.congr (by
      intro q
      constructor
      · intro hq
        rcases List.mem_cons.mp hq with hq | hq
        · rw [hq]
          exact List.mem_append_right _ (List.mem_cons_self _ _)
        · rcases List.mem_append.mp hq with hq | hq
          · exact List.mem_append_left _ hq
          · exact List.mem_append_right _ (List.mem_cons_of_mem _ hq)
      · intro hq
        rcases List.mem_append.mp hq with hq | hq
        · exact List.mem_cons_of_mem _ (List.mem_append_left _ hq)
        · rcases List.mem_cons.mp hq with hq | hq
          · rw [hq]
            exact List.mem_cons_self _ _
          · exact List.mem_cons_of_mem _ (List.mem_append_right _ hq))
  · show (rebin h3 (sumSizes L) S).allocated = usedSum (rebin h3 (sumSizes L) S).frags
    rw [rebin_allocated, rebin_frags, hfr3, husedS]
    omega
  · show (rebin h3 (sumSizes L) S).allocated ≤ (rebin h3 (sumSizes L) S).peak_allocated
    rw [rebin_allocated, rebin_peak, hpeak3]
    have h1 := wf.peak_ge
    omega
  · show (rebin h3 (sumSizes L) S).peak_allocated ≤ (rebin h3 (sumSizes L) S).capacity
    rw [rebin_peak, rebin_capacity, hpeak3, hcap3]
    exact wf.peak_cap
  · show (rebin h3 (sumSizes L) S).peak_allocated % FRAGMENT_SIZE_MIN = 0
    rw [rebin_peak, hpeak3]
    exact wf.peak_mod

/-- Full specification of o1heapFree on a live pointer from a structurally
well-formed heap: the result is structurally well-formed and the
used-address multiset loses exactly the freed address. -/
theorem o1heapFree_success {h : Heap} (wf : WFbase h) {p : Nat}
    (hmem : (p - O1HEAP_ALIGNMENT) ∈ h.usedAddrs) :
    WFbase (o1heapFree h (some p)) ∧
    h.usedAddrs.Perm ((p - O1HEAP_ALIGNMENT) :: (o1heapFree h (some p)).usedAddrs) := by
  have h32 := FRAGMENT_SIZE_MIN_eq
  obtain ⟨pre, f, suf, hsplit, hused, haddr⟩ := mem_usedAddrsFrom.mp hmem
  simp only [Nat.zero_add] at haddr
  have hpos : ∀ g ∈ h.frags, 0 < g.size := wf.frag_pos
  have hloc : locate 0 h.frags (p - O1HEAP_ALIGNMENT) = some (pre, f, suf) := by
    rw [hsplit, haddr]
    have h9 : locate 0 (pre ++ f :: suf) (0 + sumSizes pre) = some (pre, f, suf) :=
      locate_of_split (fun g hg => hpos g (by rw [hsplit]; simp [hg]))
    simpa using h9
  have hfmin : FRAGMENT_SIZE_MIN ≤ f.size := wf.frag_min f (by rw [hsplit]; simp)
  have hfmod : f.size % FRAGMENT_SIZE_MIN = 0 := wf.frag_mod f (by rw [hsplit]; simp)
  have husum0 : usedSum pre + (f.size + usedSum suf) = h.allocated := by
    have h1 := wf.alloc_eq
    rw [hsplit] at h1
    simp [hused] at h1
    omega
  have htot0 : sumSizes pre + (f.size + sumSizes suf) = h.capacity := by
    have h1 := wf.total
    rw [hsplit] at h1
    simp at h1
    omega
  have hch0 := wf.no_adj
  rw [hsplit] at hch0
  obtain ⟨hchPre, hchSuf⟩ := used_borders hch0
  simp only [o1heapFree, hloc]
  rw [if_neg (by simp [hused])]
  by_cases hjl : neighborFree pre.getLast? = true
  · obtain ⟨gl, hgl, hglu⟩ := neighborFree_some hjl
    have hpreNe : pre ≠ [] := by
      intro hc
      rw [hc] at hgl
      simp at hgl
    have hglval : pre.getLast hpreNe = gl := by
      have h1 := List.getLast?_eq_getLast pre hpreNe
      rw [hgl] at h1
      exact (Option.some.inj h1).symm
    have hpre2 : pre.dropLast ++ [gl] = pre := by
      rw [← hglval]
      exact List.dropLast_append_getLast hpreNe
    have hglmem : gl ∈ h.frags := by
      rw [hsplit, ← hpre2]
      simp
    have hglmin : FRAGMENT_SIZE_MIN ≤ gl.size := wf.frag_min gl hglmem
    have hglmod : gl.size % FRAGMENT_SIZE_MIN = 0 := wf.frag_mod gl hglmem
    have hXP : sumSizes pre = sumSizes pre.dropLast + gl.size := by
      conv_lhs => rw [← hpre2]
      simp
    have haddrP : p - O1HEAP_ALIGNMENT - gl.size = sumSizes pre.dropLast := by omega
    have hsplitL : h.frags = pre.dropLast ++ (⟨gl.size, false⟩ : Frag) ::
        (⟨f.size, true⟩ : Frag) :: suf := by
      conv_lhs => rw [hsplit, ← hpre2]
      rw [← Frag.eta_free hglu, ← Frag.eta_used hused]
      simp
    have hchL0 := wf.no_adj
    rw [hsplitL] at hchL0
    obtain ⟨hLlast, _, hchL, _⟩ := free_borders hchL0
    by_cases hjr : neighborFree suf.head? = true
    · -- join both neighbors
      obtain ⟨sh, hsh, hshu⟩ := neighborFree_some hjr
      have hsuf2 : sh :: suf.tail = suf := List.cons_head?_tail hsh
      have hshmem : sh ∈ h.frags := by
        rw [hsplit, ← hsuf2]
        simp
      have hshmin : FRAGMENT_SIZE_MIN ≤ sh.size := wf.frag_min sh hshmem
      have hshmod : sh.size % FRAGMENT_SIZE_MIN = 0 := wf.frag_mod sh hshmem
      have hsplitB : h.frags = pre.dropLast ++ (⟨gl.size, false⟩ : Frag) ::
          (⟨f.size, true⟩ : Frag) :: (⟨sh.size, false⟩ : Frag) :: suf.tail := by
        conv_lhs => rw [hsplitL, ← hsuf2]
        rw [← Frag.eta_free hshu]
      have hchB := wf.no_adj
      rw [hsplitB, List.chain'_append] at hchB
      have hchMid := hchB.2.1
      rw [List.chain'_cons] at hchMid
      have hchMid2 := hchMid.2
      rw [List.chain'_cons] at hchMid2
      have hchMid3 := hchMid2.2
      rw [List.chain'_cons'] at hchMid3
      have hRhead : ∀ g ∈ suf.tail.head?, g.used = true := by
        intro g hg
        rcases hchMid3.1 g hg with h1 | h1
        · simp at h1
        · exact h1
      have hchR : List.Chain' (fun a b => a.used = true ∨ b.used = true) suf.tail :=
        hchMid3.2
      simp only [hgl, hsh, neighborFree, neighborSize, hglu, hshu, Bool.not_false,
        Bool.and_self]
      rw [if_pos trivial]
      rw [haddrP]
      have haddrF : p - O1HEAP_ALIGNMENT + f.size =
          sumSizes pre.dropLast + gl.size + f.size := by omega
      rw [haddrF]
      have hfl : freePairs 0 h.frags =
          freePairs 0 pre.dropLast ++ (sumSizes pre.dropLast, gl.size) ::
            (sumSizes pre.dropLast + gl.size + f.size, sh.size) ::
            freePairs (sumSizes pre.dropLast + gl.size + f.size + sh.size) suf.tail := by
        rw [hsplitB, freePairs_append]
        simp only [Nat.zero_add]
        rfl
      have hmemP : (sumSizes pre.dropLast, gl.size) ∈ freePairs 0 h.frags := by
        rw [hfl]
        simp
      have hkeyP : ∀ s2, (sumSizes pre.dropLast, s2) ∈ freePairs 0 h.frags → s2 = gl.size :=
        fun s2 hs2 => freePairs_key_unique hpos hmemP hs2
      have hbr0 : BinsRep ({ h with allocated := h.allocated - f.size } : Heap).bins
          ({ h with allocated := h.allocated - f.size } : Heap).nonempty_bin_mask
          (freePairs 0 h.frags) := wf.bins
      have hbr1 := hbr0.unbin hmemP hkeyP
      have hmemN : (sumSizes pre.dropLast + gl.size + f.size, sh.size) ∈
          (freePairs 0 h.frags).filter (fun q => q.1 ≠ sumSizes pre.dropLast) := by
        refine mem_filter_ne.mpr ⟨?_, ?_⟩
        · rw [hfl]
          simp
        · show sumSizes pre.dropLast + gl.size + f.size ≠ sumSizes pre.dropLast
          omega
      have hkeyN : ∀ s2, (sumSizes pre.dropLast + gl.size + f.size, s2) ∈
          (freePairs 0 h.frags).filter (fun q => q.1 ≠ sumSizes pre.dropLast) →
          s2 = sh.size := by
        intro s2 hs2
        have h1 := (mem_filter_ne.mp hs2).1
        have h2 : (sumSizes pre.dropLast + gl.size + f.size, sh.size) ∈
            freePairs 0 h.frags := by
          rw [hfl]
          simp
        exact freePairs_key_unique hpos h2 h1
      have hbr2 := hbr1.unbin hmemN hkeyN
      constructor
      · refine WFbase_free_result wf f.size rfl (by simp) (by simp; omega) (by simp)
          ?_ ?_ (by omega) ?_ hLlast hRhead hchL hchR ?_ ?_
        · intro g hg
          rw [hsplitB]
          rcases hg with hg | hg <;> simp [hg]
        · have h1 := wf.total
          rw [hsplitB] at h1
          simp at h1
          omega
        · show (gl.size + f.size + sh.size) % FRAGMENT_SIZE_MIN = 0
          rw [h32] at hglmod hfmod hshmod ⊢
          omega
        · have h1 := wf.alloc_eq
          rw [hsplitB] at h1
          simp at h1
          omega
        · have hbase : sumSizes pre.dropLast + (gl.size + f.size + sh.size) =
              sumSizes pre.dropLast + gl.size + f.size + sh.size := by omega
          rw [hbase]
          exact hbr2.congr (by
            intro q
            rw [mem_filter_ne, mem_filter_ne, hfl]
            constructor
            · rintro ⟨⟨hq, hq1⟩, hq2⟩
              rcases List.mem_append.mp hq with hq3 | hq3
              · exact List.mem_append_left _ hq3
              · rcases List.mem_cons.mp hq3 with hq4 | hq4
                · exact absurd (congrArg Prod.fst hq4) hq1
                · rcases List.mem_cons.mp hq4 with hq5 | hq5
                  · exact absurd (congrArg Prod.fst hq5) hq2
                  · exact List.mem_append_right _ hq5
            · intro hq
              rcases List.mem_append.mp hq with hq1 | hq1
              · have hb := freePairs_bounds hq1
                have hqfl : (q.1, q.2) ∈ freePairs 0 h.frags := by
                  rw [hfl]
                  exact List.mem_append_left _ (by simpa using hq1)
                have hqmin := wf.freePair_min hqfl
                simp only at hb
                refine ⟨⟨?_, by omega⟩, by omega⟩
                exact List.mem_append_left _ hq1
              · have hb := freePairs_bounds hq1
                simp only at hb
                refine ⟨⟨?_, by omega⟩, by omega⟩
                exact List.mem_append_right _
                  (List.mem_cons_of_mem _ (List.mem_cons_of_mem _ hq1)))
      · have hu1 : usedAddrsFrom 0 h.frags =
            usedAddrsFrom 0 pre.dropLast ++ (sumSizes pre.dropLast + gl.size) ::
              usedAddrsFrom (sumSizes pre.dropLast + gl.size + f.size + sh.size) suf.tail := by
          rw [hsplitB, usedAddrsFrom_append]
          simp only [Nat.zero_add]
          rfl
        have hu2 : usedAddrsFrom 0 (pre.dropLast ++
            (⟨gl.size + f.size + sh.size, false⟩ : Frag) :: suf.tail) =
            usedAddrsFrom 0 pre.dropLast ++
              usedAddrsFrom (sumSizes pre.dropLast + (gl.size + f.size + sh.size))
                suf.tail := by
          rw [usedAddrsFrom_append]
          simp only [Nat.zero_add]
          rfl
        show (usedAddrsFrom 0 h.frags).Perm ((p - O1HEAP_ALIGNMENT) ::
          usedAddrsFrom 0 (pre.dropLast ++
            (⟨gl.size + f.size + sh.size, false⟩ : Frag) :: suf.tail))
        rw [hu1, hu2]
        have hp16 : p - O1HEAP_ALIGNMENT = sumSizes pre.dropLast + gl.size := by omega
        have hb2 : sumSizes pre.dropLast + (gl.size + f.size + sh.size) =
            sumSizes pre.dropLast + gl.size + f.size + sh.size := by omega
        rw [hp16, hb2]
        exact List.perm_middle
    · -- join left only
      have hjr2 : neighborFree suf.head? = false := by simpa using hjr
      have hRhead : ∀ g ∈ suf.head?, g.used = true := neighborFree_false_used hjr2
      simp only [hjr2]
      simp only [hgl, neighborFree, neighborSize, hglu, Bool.not_false, Bool.and_false]
      rw [if_neg (by simp)]
      rw [if_pos trivial]
      rw [haddrP]
      have hfl : freePairs 0 h.frags =
          freePairs 0 pre.dropLast ++ (sumSizes pre.dropLast, gl.size) ::
            freePairs (sumSizes pre.dropLast + gl.size + f.size) suf := by
        rw [hsplitL, freePairs_append]
        simp only [Nat.zero_add]
        rfl
      have hmemP : (sumSizes pre.dropLast, gl.size) ∈ freePairs 0 h.frags := by
        rw [hfl]
        simp
      have hkeyP : ∀ s2, (sumSizes pre.dropLast, s2) ∈ freePairs 0 h.frags → s2 = gl.size :=
        fun s2 hs2 => freePairs_key_unique hpos hmemP hs2
      have hbr0 : BinsRep ({ h with allocated := h.allocated - f.size } : Heap).bins
          ({ h with allocated := h.allocated - f.size } : Heap).nonempty_bin_mask
          (freePairs 0 h.frags) := wf.bins
      have hbr1 := hbr0.unbin hmemP hkeyP
      constructor
      · refine WFbase_free_result wf f.size rfl (by simp) (by simp; omega) (by simp)
          ?_ ?_ (by omega) ?_ hLlast hRhead hchL hchSuf ?_ ?_
        · intro g hg
          rw [hsplitL]
          rcases hg with hg | hg <;> simp [hg]
        · have h1 := wf.total
          rw [hsplitL] at h1
          simp at h1
          omega
        · show (gl.size + f.size) % FRAGMENT_SIZE_MIN = 0
          rw [h32] at hglmod hfmod ⊢
          omega
        · have h1 := wf.alloc_eq
          rw [hsplitL] at h1
          simp at h1
          omega
        · have hbase : sumSizes pre.dropLast + (gl.size + f.size) =
              sumSizes pre.dropLast + gl.size + f.size := by omega
          rw [hbase]
          exact hbr1.congr (by
            intro q
            rw [mem_filter_ne, hfl]
            constructor
            · rintro ⟨hq, hq1⟩
              rcases List.mem_append.mp hq with hq3 | hq3
              · exact List.mem_append_left _ hq3
              · rcases List.mem_cons.mp hq3 with hq4 | hq4
                · exact absurd (congrArg Prod.fst hq4) hq1
                · exact List.mem_append_right _ hq4
            · intro hq
              rcases List.mem_append.mp hq with hq1 | hq1
              · have hb := freePairs_bounds hq1
                have hqfl : (q.1, q.2) ∈ freePairs 0 h.frags := by
                  rw [hfl]
                  exact List.mem_append_left _ (by simpa using hq1)
                have hqmin := wf.freePair_min hqfl
                simp only at hb
                exact ⟨List.mem_append_left _ hq1, by omega⟩
              · have hb := freePairs_bounds hq1
                simp only at hb
                exact ⟨List.mem_append_right _ (List.mem_cons_of_mem _ hq1), by omega⟩)
      · have hu1 : usedAddrsFrom 0 h.frags =
            usedAddrsFrom 0 pre.dropLast ++ (sumSizes pre.dropLast + gl.size) ::
              usedAddrsFrom (sumSizes pre.dropLast + gl.size + f.size) suf := by
          rw [hsplitL, usedAddrsFrom_append]
          simp only [Nat.zero_add]
          rfl
        have hu2 : usedAddrsFrom 0 (pre.dropLast ++
            (⟨gl.size + f.size, false⟩ : Frag) :: suf) =
            usedAddrsFrom 0 pre.dropLast ++
              usedAddrsFrom (sumSizes pre.dropLast + (gl.size + f.size)) suf := by
          rw [usedAddrsFrom_append]
          simp only [Nat.zero_add]
          rfl
        show (usedAddrsFrom 0 h.frags).Perm ((p - O1HEAP_ALIGNMENT) ::
          usedAddrsFrom 0 (pre.dropLast ++ (⟨gl.size + f.size, false⟩ : Frag) :: suf))
        rw [hu1, hu2]
        have hp16 : p - O1HEAP_ALIGNMENT = sumSizes pre.dropLast + gl.size := by omega
        have hb2 : sumSizes pre.dropLast + (gl.size + f.size) =
            sumSizes pre.dropLast + gl.size + f.size := by omega
        rw [hp16, hb2]
        exact List.perm_middle
  · have hjl2 : neighborFree pre.getLast? = false := by simpa using hjl
    have hLlastU : ∀ g ∈ pre.getLast?, g.used = true := neighborFree_false_used hjl2
    by_cases hjr : neighborFree suf.head? = true
    · -- join right only
      obtain ⟨sh, hsh, hshu⟩ := neighborFree_some hjr
      have hsuf2 : sh :: suf.tail = suf := List.cons_head?_tail hsh
      have hshmem : sh ∈ h.frags := by
        rw [hsplit, ← hsuf2]
        simp
      have hshmin : FRAGMENT_SIZE_MIN ≤ sh.size := wf.frag_min sh hshmem
      have hshmod : sh.size % FRAGMENT_SIZE_MIN = 0 := wf.frag_mod sh hshmem
      have hsplitR : h.frags = pre ++ (⟨f.size, true⟩ : Frag) ::
          (⟨sh.size, false⟩ : Frag) :: suf.tail := by
        conv_lhs => rw [hsplit, ← hsuf2]
        rw [← Frag.eta_used hused, ← Frag.eta_free hshu]
      have hchB := wf.no_adj
      rw [hsplitR, List.chain'_append] at hchB
      have hchMid := hchB.2.1
      rw [List.chain'_cons] at hchMid
      have hchMid2 := hchMid.2
      rw [List.chain'_cons'] at hchMid2
      have hRhead : ∀ g ∈ suf.tail.head?, g.used = true := by
        intro g hg
        rcases hchMid2.1 g hg with h1 | h1
        · simp at h1
        · exact h1
      have hchR : List.Chain' (fun a b => a.used = true ∨ b.used = true) suf.tail :=
        hchMid2.2
      simp only [hjl2]
      simp only [hsh, neighborFree, neighborSize, hshu, Bool.not_false, Bool.false_and]
      rw [if_neg (by simp)]
      rw [if_neg (by simp)]
      rw [if_pos trivial]
      rw [haddr]
      have hfl : freePairs 0 h.frags =
          freePairs 0 pre ++ (sumSizes pre + f.size, sh.size) ::
            freePairs (sumSizes pre + f.size + sh.size) suf.tail := by
        rw [hsplitR, freePairs_append]
        simp only [Nat.zero_add]
        rfl
      have hmemN : (sumSizes pre + f.size, sh.size) ∈ freePairs 0 h.frags := by
        rw [hfl]
        simp
      have hkeyN : ∀ s2, (sumSizes pre + f.size, s2) ∈ freePairs 0 h.frags →
          s2 = sh.size :=
        fun s2 hs2 => freePairs_key_unique hpos hmemN hs2
      have hbr0 : BinsRep ({ h with allocated := h.allocated - f.size } : Heap).bins
          ({ h with allocated := h.allocated - f.size } : Heap).nonempty_bin_mask
          (freePairs 0 h.frags) := wf.bins
      have hbr1 := hbr0.unbin hmemN hkeyN
      constructor
      · refine WFbase_free_result wf f.size rfl (by simp) (by simp; omega) (by simp)
          ?_ ?_ (by omega) ?_ hLlastU hRhead hchPre hchR ?_ ?_
        · intro g hg
          rw [hsplitR]
          rcases hg with hg | hg <;> simp [hg]
        · have h1 := wf.total
          rw [hsplitR] at h1
          simp at h1
          omega
        · show (f.size + sh.size) % FRAGMENT_SIZE_MIN = 0
          rw [h32] at hshmod hfmod ⊢
          omega
        · have h1 := wf.alloc_eq
          rw [hsplitR] at h1
          simp at h1
          omega
        · have hbase : sumSizes pre + (f.size + sh.size) =
              sumSizes pre + f.size + sh.size := by omega
          rw [hbase]
          exact hbr1.congr (by
            intro q
            rw [mem_filter_ne, hfl]
            constructor
            · rintro ⟨hq, hq1⟩
              rcases List.mem_append.mp hq with hq3 | hq3
              · exact List.mem_append_left _ hq3
              · rcases List.mem_cons.mp hq3 with hq4 | hq4
                · exact absurd (congrArg Prod.fst hq4) hq1
                · exact List.mem_append_right _ hq4
            · intro hq
              rcases List.mem_append.mp hq with hq1 | hq1
              · have hb := freePairs_bounds hq1
                have hqfl : (q.1, q.2) ∈ freePairs 0 h.frags := by
                  rw [hfl]
                  exact List.mem_append_left _ (by simpa using hq1)
                have hqmin := wf.freePair_min hqfl
                simp only at hb
                exact ⟨List.mem_append_left _ hq1, by omega⟩
              · have hb := freePairs_bounds hq1
                simp only at hb
                exact ⟨List.mem_append_right _ (List.mem_cons_of_mem _ hq1), by omega⟩)
      · have hu1 : usedAddrsFrom 0 h.frags =
            usedAddrsFrom 0 pre ++ sumSizes pre ::
              usedAddrsFrom (sumSizes pre + f.size + sh.size) suf.tail := by
          rw [hsplitR, usedAddrsFrom_append]
          simp only [Nat.zero_add]
          rfl
        have hu2 : usedAddrsFrom 0 (pre ++
            (⟨f.size + sh.size, false⟩ : Frag) :: suf.tail) =
            usedAddrsFrom 0 pre ++
              usedAddrsFrom (sumSizes pre + (f.size + sh.size)) suf.tail := by
          rw [usedAddrsFrom_append]
          simp only [Nat.zero_add]
          rfl
        show (usedAddrsFrom 0 h.frags).Perm (sumSizes pre ::
          usedAddrsFrom 0 (pre ++ (⟨f.size + sh.size, false⟩ : Frag) :: suf.tail))
        rw [hu1, hu2]
        have hb2 : sumSizes pre + (f.size + sh.size) =
            sumSizes pre + f.size + sh.size := by omega
        rw [hb2]
        exact List.perm_middle
    · -- no join
      have hjr2 : neighborFree suf.head? = false := by simpa using hjr
      have hRheadU : ∀ g ∈ suf.head?, g.used = true := neighborFree_false_used hjr2
      have hsplitN : h.frags = pre ++ (⟨f.size, true⟩ : Frag) :: suf := by
        conv_lhs => rw [hsplit]
        rw [← Frag.eta_used hused]
      simp only [hjl2, hjr2, Bool.and_false]
      rw [if_neg (by simp)]
      rw [if_neg (by simp)]
      rw [if_neg (by simp)]
      rw [haddr]
      have hfl : freePairs 0 h.frags =
          freePairs 0 pre ++ freePairs (sumSizes pre + f.size) suf := by
        rw [hsplitN, freePairs_append]
        simp only [Nat.zero_add]
        rfl
      have hbr0 : BinsRep ({ h with allocated := h.allocated - f.size } : Heap).bins
          ({ h with allocated := h.allocated - f.size } : Heap).nonempty_bin_mask
          (freePairs 0 pre ++ freePairs (sumSizes pre + f.size) suf) := by
        rw [← hfl]
        exact wf.bins
      constructor
      · exact WFbase_free_result wf f.size rfl (by simp) (by simp; omega) (by simp)
          (by intro g hg; rw [hsplitN]; rcases hg with hg | hg <;> simp [hg])
          htot0 hfmin hfmod hLlastU hRheadU hchPre hchSuf husum0 hbr0
      · have hu1 : usedAddrsFrom 0 h.frags =
            usedAddrsFrom 0 pre ++ sumSizes pre ::
              usedAddrsFrom (sumSizes pre + f.size) suf := by
          rw [hsplitN, usedAddrsFrom_append]
          simp only [Nat.zero_add]
          rfl
        have hu2 : usedAddrsFrom 0 (pre ++ (⟨f.size, false⟩ : Frag) :: suf) =
            usedAddrsFrom 0 pre ++ usedAddrsFrom (sumSizes pre + f.size) suf := by
          rw [usedAddrsFrom_append]
          simp only [Nat.zero_add]
          rfl
        show (usedAddrsFrom 0 h.frags).Perm (sumSizes pre ::
          usedAddrsFrom 0 (pre ++ (⟨f.size, false⟩ : Frag) :: suf))
        rw [hu1, hu2]
        exact List.perm_middle

/-! ## WF-level specifications of the public calls -/

/-- A failed o1heapAllocate preserves WF and changes no structural state. -/
theorem o1heapAllocate_failure {h : Heap} (wf : WF h) {n : Nat} {h2 : Heap}
    (hrun : o1heapAllocate h n = (h2, none)) :
    WF h2 ∧ h2.capacity = h.capacity ∧ h2.frags = h.frags ∧
    h2.allocated = h.allocated ∧ h2.peak_allocated = h.peak_allocated := by
  have hsnd : (allocateCore h n).2 = none := by
    rw [← o1heapAllocate_snd, hrun]
  have hcore := allocateCore_none h n hsnd
  by_cases hn : 0 < n
  · have hres : o1heapAllocate h n =
        ({ h with
            peak_request_size := larger h.peak_request_size n,
            oom_count := h.oom_count + 1 }, none) := by
      simp only [o1heapAllocate, hcore]
      rw [if_pos ⟨trivial, hn⟩]
    rw [hres] at hrun
    have hh2 : h2 =
        { h with
            peak_request_size := larger h.peak_request_size n,
            oom_count := h.oom_count + 1 } := (congrArg Prod.fst hrun).symm
    subst hh2
    refine ⟨⟨wf.base.transport rfl rfl rfl rfl rfl rfl, Or.inr (by simp), ?_, fun _ => Or.inr (by simp)⟩,
      rfl, rfl, rfl, rfl⟩
    intro h0
    simp only [larger_eq_max] at h0
    omega
  · have hn0 : n = 0 := by omega
    subst hn0
    rw [allocate_zero] at hrun
    have hh2 : h2 = h := (congrArg Prod.fst hrun).symm
    subst hh2
    exact ⟨wf, rfl, rfl, rfl, rfl⟩

/-- A successful o1heapAllocate preserves WF; the diagnostics move exactly
as the C code writes them and the used-address multiset gains the
returned fragment. -/
theorem o1heapAllocate_success2 {h : Heap} (wf : WF h) {n : Nat} {h2 : Heap} {p : Nat}
    (hrun : o1heapAllocate h n = (h2, some p)) :
    WF h2 ∧ h2.capacity = h.capacity ∧ O1HEAP_ALIGNMENT ≤ p ∧
    h2.allocated = h.allocated + roundUpToPowerOf2 (n + O1HEAP_ALIGNMENT) ∧
    h2.peak_allocated = larger h.peak_allocated h2.allocated ∧
    h2.oom_count = h.oom_count ∧
    h2.peak_request_size = larger h.peak_request_size n ∧
    h2.usedAddrs.Perm ((p - O1HEAP_ALIGNMENT) :: h.usedAddrs) := by
  have hsnd : (allocateCore h n).2 = some p := by
    rw [← o1heapAllocate_snd, hrun]
  have hcore : allocateCore h n = ((allocateCore h n).1, some p) := by
    rw [← hsnd]
  obtain ⟨hbase, hcap, hprs, hoom, halloc, hpeak, hge, hn, hcapn, hp, hperm⟩ :=
    allocateCore_success wf.base hcore
  have hres : o1heapAllocate h n =
      ({ (allocateCore h n).1 with
          peak_request_size := larger (allocateCore h n).1.peak_request_size n }, some p) := by
    simp only [o1heapAllocate]
    rw [if_neg (by rw [hsnd]; simp)]
    rw [← hsnd]
  rw [hres] at hrun
  have hh2 : h2 =
      { (allocateCore h n).1 with
          peak_request_size := larger (allocateCore h n).1.peak_request_size n } :=
    (congrArg Prod.fst hrun).symm
  subst hh2
  have hA16 : O1HEAP_ALIGNMENT = 16 := rfl
  have h32 : FRAGMENT_SIZE_MIN = 32 := rfl
  refine ⟨⟨hbase.transport rfl rfl rfl rfl rfl rfl, ?_, ?_, ?_⟩,
    by simpa using hcap, by simpa using hp, by simpa using halloc,
    by simp only; rw [hpeak], by simpa using hoom, by simp only; rw [hprs],
    by simpa using hperm⟩
  · show larger (allocateCore h n).1.peak_request_size n < (allocateCore h n).1.capacity ∨
      0 < (allocateCore h n).1.oom_count
    rw [hprs, hcap, hoom]
    rcases wf.prs_cap with h1 | h1
    · left
      rw [larger_eq_max]
      have h2 := wf.base.cap_min
      omega
    · exact Or.inr h1
  · intro h0
    simp only [hprs, larger_eq_max] at h0
    omega
  · intro h0
    show larger (allocateCore h n).1.peak_request_size n + O1HEAP_ALIGNMENT ≤
      (allocateCore h n).1.peak_allocated ∨ 0 < (allocateCore h n).1.oom_count
    rw [hprs, hoom, hpeak]
    have hp1 : h.peak_allocated ≤ larger h.peak_allocated (allocateCore h n).1.allocated :=
      le_larger_left _ _
    have hp2 : n + O1HEAP_ALIGNMENT ≤ larger h.peak_allocated (allocateCore h n).1.allocated := by
      have h1 := le_larger_right h.peak_allocated (allocateCore h n).1.allocated
      omega
    rcases Nat.eq_zero_or_pos h.peak_request_size with hz | hpos
    · left
      rw [hz, larger_eq_max]
      omega
    · rcases wf.prs_pos hpos with h1 | h1
      · left
        rw [larger_eq_max]
        omega
      · exact Or.inr h1

/-- o1heapAllocate preserves WF. -/
theorem o1heapAllocate_WF {h : Heap} (wf : WF h) (n : Nat) :
    WF (o1heapAllocate h n).1 := by
  rcases hsnd : (o1heapAllocate h n).2 with _ | p
  · exact (o1heapAllocate_failure wf (by rw [← hsnd])).1
  · exact (o1heapAllocate_success2 wf (by rw [← hsnd])).1

/-- WF transports across o1heapFree given the structural part, because
o1heapFree never touches the request-size and peak diagnostics. -/
theorem WF_of_free {h : Heap} (wf : WF h) {po : Option Nat}
    (hbase : WFbase (o1heapFree h po)) : WF (o1heapFree h po) := by
  obtain ⟨hcap, hpeak, hprs⟩ := free_frame h po
  have hoom := free_oom_count h po
  refine ⟨hbase, ?_, ?_, ?_⟩
  · rw [hcap, hprs, hoom]
    exact wf.prs_cap
  · intro h0
    rw [hprs] at h0
    rw [hpeak, hoom]
    exact wf.prs_zero h0
  · intro h0
    rw [hprs] at h0
    rw [hprs, hpeak, hoom]
    exact wf.prs_pos h0

/-- o1heapFree preserves WF on the documented precondition. -/
theorem o1heapFree_WF {h : Heap} (wf : WF h) {po : Option Nat}
    (hval : validOp h (.free po) = true) : WF (o1heapFree h po) := by
  cases po with
  | none => simpa [o1heapFree] using wf
  | some p =>
    have hmem : (p - O1HEAP_ALIGNMENT) ∈ h.usedAddrs := by
      simp [validOp] at hval
      exact hval.2
    exact WF_of_free wf (o1heapFree_success wf.base hmem).1

/-! ## Drain-to-empty: successful allocation from a rebuilt heap -/

/-- allocateCore succeeds whenever its guard holds and some free fragment
lives in a bin at or above the optimal bin index. -/
theorem allocateCore_some {h : Heap} (wf : WFbase h) {n : Nat}
    (hn : 0 < n) (hcap : n ≤ h.capacity - O1HEAP_ALIGNMENT)
    {a s : Nat} (hfl : (a, s) ∈ freePairs 0 h.frags)
    (hbin : binIndexOf (roundUpToPowerOf2 (n + O1HEAP_ALIGNMENT)) ≤ binIndexOf s) :
    (allocateCore h n).2 ≠ none := by
  have hpos : ∀ g ∈ h.frags, 0 < g.size := wf.frag_pos
  have hsidx : binIndexOf s < NUM_BINS_MAX := by
    have h1 := wf.freePair_le hfl
    have h2 := wf.cap_max
    exact binIndexOf_lt (by omega)
  have hina : a ∈ h.bins.getD (binIndexOf s) [] := wf.bins.bin_mem a s hfl
  have hbinne : h.bins.getD (binIndexOf s) [] ≠ [] := by
    intro hc
    rw [hc] at hina
    simp at hina
  have hmaskbit : h.nonempty_bin_mask.testBit (binIndexOf s) = true :=
    (wf.bins.maskBit _).mpr hbinne
  simp only [allocateCore]
  rw [if_pos ⟨hn, hcap⟩]
  set asize := roundUpToPowerOf2 (n + O1HEAP_ALIGNMENT) with hasize
  set suitable := h.nonempty_bin_mask &&&
    bitNot64 (pow2 (log2Floor (asize / FRAGMENT_SIZE_MIN)) - 1) with hsuit
  have hoptimal : log2Floor (asize / FRAGMENT_SIZE_MIN) = binIndexOf asize := rfl
  have h64 : binIndexOf s < 64 := by
    have he : NUM_BINS_MAX = 64 := rfl
    omega
  have hcandbit : (bitNot64 (pow2 (log2Floor (asize / FRAGMENT_SIZE_MIN)) - 1)).testBit
      (binIndexOf s) = true := by
    rw [testBit_bitNot64]
    unfold pow2
    rw [Nat.testBit_two_pow_sub_one, hoptimal]
    simp [h64, Nat.not_lt.mpr hbin]
  have hsuitbit : suitable.testBit (binIndexOf s) = true := by
    rw [hsuit, Nat.testBit_land, hmaskbit, hcandbit]
    rfl
  have hsuitne : suitable ≠ 0 := by
    intro hc
    rw [hc] at hsuitbit
    simp at hsuitbit
  have hsuitlt : suitable < 2 ^ 64 := by
    rw [hsuit]
    exact Nat.lt_of_le_of_lt Nat.and_le_left wf.mask_lt
  have hsm : suitable &&& bitNot64 (suitable - 1) ≠ 0 :=
    smallest_bin_mask_ne_zero hsuitne hsuitlt
  rw [if_pos hsm]
  set bidx := log2Floor (suitable &&& bitNot64 (suitable - 1)) with hbidx
  have hsmbit : (suitable &&& bitNot64 (suitable - 1)).testBit bidx = true := by
    rw [hbidx, log2Floor_eq]
    exact testBit_log2 hsm
  have hsuitbit2 : suitable.testBit bidx = true := testBit_of_smallest hsmbit
  have hmaskbit2 : h.nonempty_bin_mask.testBit bidx = true := by
    rw [hsuit, Nat.testBit_land] at hsuitbit2
    exact (Bool.and_eq_true_iff.mp hsuitbit2).1
  have hbinne2 : h.bins.getD bidx [] ≠ [] := (wf.bins.maskBit _).mp hmaskbit2
  obtain ⟨addr, rest, hhead⟩ : ∃ addr rest, h.bins.getD bidx [] = addr :: rest := by
    cases hx : h.bins.getD bidx [] with
    | nil => exact absurd hx hbinne2
    | cons y ys => exact ⟨y, ys, rfl⟩
  obtain ⟨s2, hs2fl, hs2idx⟩ := wf.bins.mem_bin bidx addr (by rw [hhead]; simp)
  obtain ⟨pre2, suf2, hsplit2, haddr2⟩ := mem_freePairs.mp hs2fl
  have hloc : locate 0 h.frags addr = some (pre2, (⟨s2, false⟩ : Frag), suf2) := by
    rw [hsplit2, haddr2]
    exact locate_of_split (fun g hg => hpos g (by rw [hsplit2]; simp [hg]))
  have hhead2 : (h.bin bidx).head? = some addr := by
    show (h.bins.getD bidx []).head? = some addr
    rw [hhead]
    rfl
  simp only [hhead2, hloc]
  simp

/-- A heap with no used addresses has a zero used sum. -/
theorem usedSum_zero_of_empty {base : Nat} {l : List Frag}
    (h : usedAddrsFrom base l = []) : usedSum l = 0 := by
  induction l generalizing base with
  | nil => rfl
  | cons f rest ih =>
    rw [usedAddrsFrom_cons] at h
    by_cases hu : f.used = true
    · rw [if_pos hu] at h
      simp at h
    · rw [if_neg hu] at h
      have h2 := ih h
      simp only [usedSum_cons, h2]
      simp [hu]

/-- A structurally well-formed heap with no used addresses consists of a
single free fragment spanning the whole capacity. -/
theorem single_free_of_empty {h : Heap} (wf : WFbase h)
    (hempty : usedAddrsFrom 0 h.frags = []) :
    h.frags = [(⟨h.capacity, false⟩ : Frag)] := by
  have hall : ∀ f ∈ h.frags, f.used = false := by
    intro f hf
    by_contra hc
    have hu : f.used = true := by simpa using hc
    obtain ⟨pre, suf, hsplit⟩ := List.append_of_mem hf
    have hx : (0 + sumSizes pre) ∈ usedAddrsFrom 0 h.frags :=
      mem_usedAddrsFrom.mpr ⟨pre, f, suf, hsplit, hu, rfl⟩
    rw [hempty] at hx
    simp at hx
  rcases hfr : h.frags with _ | ⟨f, _ | ⟨g, rest2⟩⟩
  · exact absurd hfr wf.frags_ne
  · have hf : f ∈ h.frags := by rw [hfr]; simp
    have hu := hall f hf
    have hsz : f.size = h.capacity := by
      have h1 := wf.total
      rw [hfr] at h1
      simpa using h1
    rw [Frag.eta_free hu, hsz]
  · have hch := wf.no_adj
    rw [hfr, List.chain'_cons] at hch
    have h1 := hch.1
    have hfu := hall f (by rw [hfr]; simp)
    have hgu := hall g (by rw [hfr]; simp)
    rcases h1 with h1 | h1 <;> simp_all

/-- The heap built by o1heapInit has no used addresses. -/
theorem o1heapInit_usedAddrs {size : Nat} {h : Heap}
    (hinit : o1heapInit size = some h) : h.usedAddrs = [] := by
  simp only [o1heapInit] at hinit
  split at hinit
  case isTrue hsize =>
    have hh := Option.some.inj hinit
    rw [← hh]
    rfl
  case isFalse => exact absurd hinit (by simp)

/-- From a structurally well-formed heap with no used addresses, an
allocation of the reported maximum allocation size succeeds. -/
theorem allocate_max_of_empty {h : Heap} (wf : WFbase h)
    (hempty : usedAddrsFrom 0 h.frags = []) :
    (o1heapAllocate h (o1heapGetMaxAllocationSize h)).2 ≠ none := by
  have hsingle := single_free_of_empty wf hempty
  have h32 := FRAGMENT_SIZE_MIN_eq
  have hA : O1HEAP_ALIGNMENT = 16 := rfl
  set k := log2Floor h.capacity with hk
  have hklog : k = Nat.log2 h.capacity := by rw [hk, log2Floor_eq]
  have hcap0 : h.capacity ≠ 0 := by
    have := wf.cap_min
    omega
  have hpowle : 2 ^ k ≤ h.capacity := by
    rw [hklog]
    exact Nat.log2_self_le hcap0
  have hltpow : h.capacity < 2 ^ (k + 1) := by
    rw [hklog]
    exact Nat.lt_log2_self
  have hk5 : 5 ≤ k := by
    by_contra hc
    push_neg at hc
    have h1 : (2:Nat) ^ (k + 1) ≤ 2 ^ 5 := Nat.pow_le_pow_right (by norm_num) (by omega)
    have h2 := wf.cap_min
    have h3 : (2:Nat) ^ 5 = 32 := by norm_num
    omega
  have h2k32 : (32:Nat) ≤ 2 ^ k := by
    have h1 : (2:Nat) ^ 5 ≤ 2 ^ k := Nat.pow_le_pow_right (by norm_num) hk5
    have h3 : (2:Nat) ^ 5 = 32 := by norm_num
    omega
  have hamt : o1heapGetMaxAllocationSize h = 2 ^ k - O1HEAP_ALIGNMENT := rfl
  have hn : 0 < o1heapGetMaxAllocationSize h := by
    rw [hamt, hA]
    omega
  have hcapn : o1heapGetMaxAllocationSize h ≤ h.capacity - O1HEAP_ALIGNMENT := by
    rw [hamt, hA]
    omega
  have hasize : roundUpToPowerOf2 (o1heapGetMaxAllocationSize h + O1HEAP_ALIGNMENT)
      = 2 ^ k := by
    rw [hamt]
    have he : 2 ^ k - O1HEAP_ALIGNMENT + O1HEAP_ALIGNMENT = 2 ^ k := by
      rw [hA]
      omega
    rw [he]
    exact Nat.le_antisymm (roundUpToPowerOf2_le_pow (by omega) (Nat.le_refl _))
      (roundUpToPowerOf2_ge _)
  have hflmem : (0, h.capacity) ∈ freePairs 0 h.frags := by
    rw [hsingle]
    exact List.mem_cons_self _ _
  have hbinle : binIndexOf (roundUpToPowerOf2
      (o1heapGetMaxAllocationSize h + O1HEAP_ALIGNMENT)) ≤ binIndexOf h.capacity := by
    rw [hasize, (binIndexOf_pow hk5).1]
    show k - 5 ≤ log2Floor (h.capacity / FRAGMENT_SIZE_MIN)
    rw [log2Floor_eq]
    have hdiv0 : h.capacity / FRAGMENT_SIZE_MIN ≠ 0 := by
      have := wf.cap_min
      rw [h32] at this ⊢
      have h1 : 32 / 32 ≤ h.capacity / 32 := Nat.div_le_div_right this
      omega
    rw [Nat.le_log2 hdiv0]
    rw [h32]
    rw [Nat.le_div_iff_mul_le (by norm_num)]
    have he : 2 ^ (k - 5) * 32 = 2 ^ k := by
      have h1 : (32:Nat) = 2 ^ 5 := by norm_num
      rw [h1, ← Nat.pow_add]
      congr 1
      omega
    omega
  rw [o1heapAllocate_snd]
  exact allocateCore_some wf hn hcapn hflmem hbinle

/-- allocMany preserves WF and accumulates exactly the returned payload
addresses into the used-address multiset. -/
theorem allocMany_spec {h : Heap} (wf : WF h) (amounts : List Nat) :
    WF (allocMany h amounts).1 ∧
    (allocMany h amounts).1.usedAddrs.Perm
      (((allocMany h amounts).2.map (fun q => q - O1HEAP_ALIGNMENT)) ++ h.usedAddrs) ∧
    (allocMany h amounts).1.capacity = h.capacity := by
  induction amounts generalizing h with
  | nil => exact ⟨wf, by simp [allocMany], rfl⟩
  | cons n rest ih =>
    rcases hsnd : (o1heapAllocate h n).2 with _ | p
    · have hfail := o1heapAllocate_failure wf (by rw [← hsnd])
      have heq : allocMany h (n :: rest) = allocMany (o1heapAllocate h n).1 rest := by
        simp only [allocMany, hsnd]
      rw [heq]
      obtain ⟨ihwf, ihperm, ihcap⟩ := ih hfail.1
      refine ⟨ihwf, ?_, by rw [ihcap, hfail.2.1]⟩
      have hu : (o1heapAllocate h n).1.usedAddrs = h.usedAddrs := by
        show usedAddrsFrom 0 (o1heapAllocate h n).1.frags = usedAddrsFrom 0 h.frags
        rw [hfail.2.2.1]
      rw [hu] at ihperm
      exact ihperm
    · have hsucc := o1heapAllocate_success2 wf (by rw [← hsnd])
      have heq1 : (allocMany h (n :: rest)).1 = (allocMany (o1heapAllocate h n).1 rest).1 := by
        simp only [allocMany, hsnd]
      have heq2 : (allocMany h (n :: rest)).2 =
          p :: (allocMany (o1heapAllocate h n).1 rest).2 := by
        simp only [allocMany, hsnd]
      obtain ⟨ihwf, ihperm, ihcap⟩ := ih hsucc.1
      rw [heq1, heq2]
      refine ⟨ihwf, ?_, by rw [ihcap, hsucc.2.1]⟩
      have hp := hsucc.2.2.2.2.2.2.2
      have h1 : (allocMany (o1heapAllocate h n).1 rest).1.usedAddrs.Perm
          ((List.map (fun q => q - O1HEAP_ALIGNMENT)
              (allocMany (o1heapAllocate h n).1 rest).2) ++
            ((p - O1HEAP_ALIGNMENT) :: h.usedAddrs)) :=
        ihperm.trans (List.Perm.append_left _ hp)
      have h2 := h1.trans List.perm_middle
      simpa using h2

/-- freeAll drains the heap when the pointers match the used addresses. -/
theorem freeAll_spec {h : Heap} (wf : WF h) {qs : List Nat}
    (hq : h.usedAddrs.Perm (qs.map (fun q => q - O1HEAP_ALIGNMENT))) :
    WF (freeAll h qs) ∧ (freeAll h qs).usedAddrs = [] ∧
    (freeAll h qs).capacity = h.capacity := by
  induction qs generalizing h with
  | nil =>
    refine ⟨wf, ?_, rfl⟩
    simpa using hq.eq_nil
  | cons q rest ih =>
    have hmem : (q - O1HEAP_ALIGNMENT) ∈ h.usedAddrs := by
      rw [hq.mem_iff]
      simp
    obtain ⟨hbase, hperm⟩ := o1heapFree_success wf.base hmem
    have hwf2 := WF_of_free wf hbase
    have hq2 : (o1heapFree h (some q)).usedAddrs.Perm
        (rest.map (fun x => x - O1HEAP_ALIGNMENT)) :=
      (hperm.symm.trans hq).cons_inv
    have heq : freeAll h (q :: rest) = freeAll (o1heapFree h (some q)) rest := rfl
    rw [heq]
    obtain ⟨w1, w2, w3⟩ := ih hwf2 hq2
    exact ⟨w1, w2, by rw [w3, (free_frame h (some q)).1]⟩

/-- C3: from a freshly initialized heap, after any sequence of allocate
calls whose successfully returned pointers are then all freed in any
order, the allocated counter returns to zero and an allocation of the
reported maximum allocation size succeeds. -/
theorem c3_drain_to_empty {size : Nat} {h0 : Heap} (hinit : o1heapInit size = some h0)
    (amounts : List Nat) {qs : List Nat}
    (hperm : ((allocMany h0 amounts).2).Perm qs) :
    (freeAll (allocMany h0 amounts).1 qs).allocated = 0 ∧
    (o1heapAllocate (freeAll (allocMany h0 amounts).1 qs)
        (o1heapGetMaxAllocationSize (freeAll (allocMany h0 amounts).1 qs))).2 ≠ none := by
  have hwf0 := o1heapInit_WF hinit
  have hu0 := o1heapInit_usedAddrs hinit
  obtain ⟨hwf1, hperm1, hcap1⟩ := allocMany_spec hwf0 amounts
  rw [hu0] at hperm1
  simp only [List.append_nil] at hperm1
  have hq : (allocMany h0 amounts).1.usedAddrs.Perm
      (qs.map (fun q => q - O1HEAP_ALIGNMENT)) :=
    hperm1.trans (hperm.map _)
  obtain ⟨hwf2, hu2, hcap2⟩ := freeAll_spec hwf1 hq
  have hu3 : usedAddrsFrom 0 (freeAll (allocMany h0 amounts).1 qs).frags = [] := hu2
  constructor
  · rw [hwf2.base.alloc_eq]
    exact usedSum_zero_of_empty hu3
  · exact allocate_max_of_empty hwf2.base hu3

/-- C3 witness: two allocations on the 1024-capacity example heap, freed
in reverse order. -/
theorem c3_drain_to_empty_witness :
    (o1heapInit 1600 = some exampleHeap) ∧
    (((allocMany exampleHeap [16, 32]).2).Perm [48, 16]) ∧
    ((freeAll (allocMany exampleHeap [16, 32]).1 [48, 16]).allocated = 0 ∧
      (o1heapAllocate (freeAll (allocMany exampleHeap [16, 32]).1 [48, 16])
          (o1heapGetMaxAllocationSize
            (freeAll (allocMany exampleHeap [16, 32]).1 [48, 16]))).2 ≠ none) :=
  ⟨by decide, by decide, @c3_drain_to_empty 1600 exampleHeap (by decide) [16, 32] [48, 16] (by decide)⟩

/-! ## The reallocation path preserves the invariant -/

/-- Reassembly of the splitting branches of reallocate: the coalescing
group is replaced by a used fragment of the new size followed by a free
leftover that is rebinned. -/
theorem WFbase_realloc_split {h h3 : Heap} (wf : WFbase h) {L R : List Frag} {NF LO : Nat}
    (hfr3 : h3.frags = L ++ (⟨NF, true⟩ : Frag) :: (⟨LO, false⟩ : Frag) :: R)
    (hcap3 : h3.capacity = h.capacity)
    (hsub : ∀ g, g ∈ L ∨ g ∈ R → g ∈ h.frags)
    (htot : sumSizes L + (NF + (LO + sumSizes R)) = h.capacity)
    (hNF_min : FRAGMENT_SIZE_MIN ≤ NF) (hNF_mod : NF % FRAGMENT_SIZE_MIN = 0)
    (hLO_min : FRAGMENT_SIZE_MIN ≤ LO) (hLO_mod : LO % FRAGMENT_SIZE_MIN = 0)
    (hRhead : ∀ g ∈ R.head?, g.used = true)
    (hchL : List.Chain' (fun a b => a.used = true ∨ b.used = true) L)
    (hchR : List.Chain' (fun a b => a.used = true ∨ b.used = true) R)
    (halloc : h3.allocated = usedSum L + (NF + usedSum R))
    (hpeak : (h3.peak_allocated = h.peak_allocated ∧ h3.allocated ≤ h.allocated) ∨
      h3.peak_allocated = larger h.peak_allocated h3.allocated)
    (hbr : BinsRep h3.bins h3.nonempty_bin_mask
      (freePairs 0 L ++ freePairs (sumSizes L + NF + LO) R)) :
    WFbase (rebin h3 (sumSizes L + NF) LO) := by
  have h32 := FRAGMENT_SIZE_MIN_eq
  have hidx : binIndexOf LO < NUM_BINS_MAX := binIndexOf_lt (by
    have := wf.cap_max
    omega)
  have hfresh : ∀ s2, (sumSizes L + NF, s2) ∉
      (freePairs 0 L ++ freePairs (sumSizes L + NF + LO) R) := by
    intro s2 hq
    rcases List.mem_append.mp hq with hq | hq
    · have hb := freePairs_bounds hq
      obtain ⟨pre1, suf1, hs1, ha1⟩ := mem_freePairs.mp hq
      have hposf : (0 : Nat) < s2 := by
        have hm : (⟨s2, false⟩ : Frag) ∈ L := by
          rw [hs1]
          simp
        have := wf.frag_min _ (hsub _ (Or.inl hm))
        simp at this
        omega
      simp only at hb
      omega
    · have hb := freePairs_bounds hq
      simp only at hb
      omega
  have hbr2 := BinsRep.rebin hbr hidx (BinsRep.fresh hbr hfresh)
  have hfp : freePairs 0 (L ++ (⟨NF, true⟩ : Frag) :: (⟨LO, false⟩ : Frag) :: R)
      = freePairs 0 L ++ (sumSizes L + NF, LO) :: freePairs (sumSizes L + NF + LO) R := by
    rw [freePairs_append]
    simp only [Nat.zero_add]
    rfl
  have husedS : usedSum (L ++ (⟨NF, true⟩ : Frag) :: (⟨LO, false⟩ : Frag) :: R)
      = usedSum L + NF + usedSum R := by
    simp
    omega
  have hallocap : h3.allocated ≤ h.capacity := by
    have h1 := usedSum_le_sumSizes L
    have h2 := usedSum_le_sumSizes R
    omega
  have hallocmod : h3.allocated % FRAGMENT_SIZE_MIN = 0 := by
    have h1 := usedSum_mod L (fun g hg => wf.frag_mod g (hsub g (Or.inl hg)))
    have h2 := usedSum_mod R (fun g hg => wf.frag_mod g (hsub g (Or.inr hg)))
    rw [halloc]
    rw [h32] at h1 h2 hNF_mod ⊢
    omega
  refine ⟨?_, ?_, ?_, ?_, ?_, ?_, ?_, ?_, ?_, ?_, ?_, ?_, ?_⟩
  · show FRAGMENT_SIZE_MIN ≤ h3.capacity
    rw [hcap3]
    exact wf.cap_min
  · show h3.capacity ≤ FRAGMENT_SIZE_MAX
    rw [hcap3]
    exact wf.cap_max
  · show h3.capacity % FRAGMENT_SIZE_MIN = 0
    rw [hcap3]
    exact wf.cap_mod
  · show h3.frags ≠ []
    rw [hfr3]
    simp
  · show sumSizes h3.frags = h3.capacity
    rw [hfr3, hcap3]
    simp only [sumSizes_append, sumSizes_cons]
    omega
  · show ∀ f ∈ h3.frags, FRAGMENT_SIZE_MIN ≤ f.size
    rw [hfr3]
    intro g hg
    simp only [List.mem_append, List.mem_cons] at hg
    rcases hg with hg | hg | hg | hg
    · exact wf.frag_min g (hsub g (Or.inl hg))
    · rw [hg]
      exact hNF_min
    · rw [hg]
      exact hLO_min
    · exact wf.frag_min g (hsub g (Or.inr hg))
  · show ∀ f ∈ h3.frags, f.size % FRAGMENT_SIZE_MIN = 0
    rw [hfr3]
    intro g hg
    simp only [List.mem_append, List.mem_cons] at hg
    rcases hg with hg | hg | hg | hg
    · exact wf.frag_mod g (hsub g (Or.inl hg))
    · rw [hg]
      exact hNF_mod
    · rw [hg]
      exact hLO_mod
    · exact wf.frag_mod g (hsub g (Or.inr hg))
  · show List.Chain' (fun a b => a.used = true ∨ b.used = true) h3.frags
    rw [hfr3, List.chain'_append]
    refine ⟨hchL, ?_, ?_⟩
    · rw [List.chain'_cons]
      refine ⟨Or.inl rfl, ?_⟩
      rw [List.chain'_cons']
      exact ⟨fun y hy => Or.inr (hRhead y hy), hchR⟩
    · intro x hx y hy
      simp only [List.head?_cons, Option.mem_def, Option.some.injEq] at hy
      right
      rw [← hy]
  · show BinsRep (rebin h3 (sumSizes L + NF) LO).bins
      (rebin h3 (sumSizes L + NF) LO).nonempty_bin_mask
      (freePairs 0 (rebin h3 (sumSizes L + NF) LO).frags)
    rw [rebin_frags, hfr3, hfp]
    exact hbr2.congr (by
      intro q
      constructor
      · intro hq
        rcases List.mem_cons.mp hq with hq | hq
        · rw [hq]
          exact List.mem_append_right _ (List.mem_cons_self _ _)
        · rcases List.mem_append.mp hq with hq | hq
          · exact List.mem_append_left _ hq
          · exact List.mem_append_right _ (List.mem_cons_of_mem _ hq)
      · intro hq
        rcases List.mem_append.mp hq with hq | hq
        · exact List.mem_cons_of_mem _ (List.mem_append_left _ hq)
        · rcases List.mem_cons.mp hq with hq | hq
          · rw [hq]
            exact List.mem_cons_self _ _
          · exact List.mem_cons_of_mem _ (List.mem_append_right _ hq))
  · show (rebin h3 (sumSizes L + NF) LO).allocated
      = usedSum (rebin h3 (sumSizes L + NF) LO).frags
    rw [rebin_allocated, rebin_frags, hfr3, husedS, halloc]
    omega
  · show (rebin h3 (sumSizes L + NF) LO).allocated ≤
      (rebin h3 (sumSizes L + NF) LO).peak_allocated
    rw [rebin_allocated, rebin_peak]
    rcases hpeak with ⟨h1, h2⟩ | h1
    · have h3 := wf.peak_ge
      have h4 := wf.alloc_eq
      omega
    · rw [h1]
      exact le_larger_right _ _
  · show (rebin h3 (sumSizes L + NF) LO).peak_allocated ≤
      (rebin h3 (sumSizes L + NF) LO).capacity
    rw [rebin_peak, rebin_capacity, hcap3]
    rcases hpeak with ⟨h1, _⟩ | h1
    · rw [h1]
      exact wf.peak_cap
    · rw [h1]
      exact larger_le _ _ _ wf.peak_cap hallocap
  · show (rebin h3 (sumSizes L + NF) LO).peak_allocated % FRAGMENT_SIZE_MIN = 0
    rw [rebin_peak]
    rcases hpeak with ⟨h1, _⟩ | h1
    · rw [h1]
      exact wf.peak_mod
    · rw [h1]
      exact larger_mod _ _ _ wf.peak_mod hallocmod

/-- Reassembly of the absorbing branches of reallocate: the coalescing
group is replaced entirely by a used fragment of the summed size. -/
theorem WFbase_realloc_absorb {h h3 : Heap} (wf : WFbase h) {L R : List Frag} {T : Nat}
    (hfr3 : h3.frags = L ++ (⟨T, true⟩ : Frag) :: R)
    (hcap3 : h3.capacity = h.capacity)
    (hsub : ∀ g, g ∈ L ∨ g ∈ R → g ∈ h.frags)
    (htot : sumSizes L + (T + sumSizes R) = h.capacity)
    (hT_min : FRAGMENT_SIZE_MIN ≤ T) (hT_mod : T % FRAGMENT_SIZE_MIN = 0)
    (hchL : List.Chain' (fun a b => a.used = true ∨ b.used = true) L)
    (hchR : List.Chain' (fun a b => a.used = true ∨ b.used = true) R)
    (halloc : h3.allocated = usedSum L + (T + usedSum R))
    (hpeak : h3.peak_allocated = larger h.peak_allocated h3.allocated)
    (hbr : BinsRep h3.bins h3.nonempty_bin_mask
      (freePairs 0 L ++ freePairs (sumSizes L + T) R)) :
    WFbase h3 := by
  have h32 := FRAGMENT_SIZE_MIN_eq
  have hfp : freePairs 0 (L ++ (⟨T, true⟩ : Frag) :: R)
      = freePairs 0 L ++ freePairs (sumSizes L + T) R := by
    rw [freePairs_append]
    simp only [Nat.zero_add]
    rfl
  have husedS : usedSum (L ++ (⟨T, true⟩ : Frag) :: R) = usedSum L + (T + usedSum R) := by
    simp
  have hallocap : h3.allocated ≤ h.capacity := by
    have h1 := usedSum_le_sumSizes L
    have h2 := usedSum_le_sumSizes R
    omega
  have hallocmod : h3.allocated % FRAGMENT_SIZE_MIN = 0 := by
    have h1 := usedSum_mod L (fun g hg => wf.frag_mod g (hsub g (Or.inl hg)))
    have h2 := usedSum_mod R (fun g hg => wf.frag_mod g (hsub g (Or.inr hg)))
    rw [halloc]
    rw [h32] at h1 h2 hT_mod ⊢
    omega
  refine ⟨?_, ?_, ?_, ?_, ?_, ?_, ?_, ?_, ?_, ?_, ?_, ?_, ?_⟩
  · rw [hcap3]
    exact wf.cap_min
  · rw [hcap3]
    exact wf.cap_max
  · rw [hcap3]
    exact wf.cap_mod
  · rw [hfr3]
    simp
  · rw [hfr3, hcap3]
    simp only [sumSizes_append, sumSizes_cons]
    omega
  · rw [hfr3]
    intro g hg
    simp only [List.mem_append, List.mem_cons] at hg
    rcases hg with hg | hg | hg
    · exact wf.frag_min g (hsub g (Or.inl hg))
    · rw [hg]
      exact hT_min
    · exact wf.frag_min g (hsub g (Or.inr hg))
  · rw [hfr3]
    intro g hg
    simp only [List.mem_append, List.mem_cons] at hg
    rcases hg with hg | hg | hg
    · exact wf.frag_mod g (hsub g (Or.inl hg))
    · rw [hg]
      exact hT_mod
    · exact wf.frag_mod g (hsub g (Or.inr hg))
  · rw [hfr3, List.chain'_append]
    refine ⟨hchL, ?_, ?_⟩
    · rw [List.chain'_cons']
      exact ⟨fun y _ => Or.inl rfl, hchR⟩
    · intro x hx y hy
      simp only [List.head?_cons, Option.mem_def, Option.some.injEq] at hy
      right
      rw [← hy]
  · rw [hfr3, hfp]
    exact hbr
  · rw [hfr3, husedS, halloc]
  · rw [hpeak]
    exact le_larger_right _ _
  · rw [hpeak, hcap3]
    exact larger_le _ _ _ wf.peak_cap hallocap
  · rw [hpeak]
    exact larger_mod _ _ _ wf.peak_mod hallocmod

/-- The request-size accounting of an in-place successful reallocation. -/
theorem WF_of_realloc_inplace {h h2 : Heap} (wf : WF h) {n : Nat} (hn : 0 < n)
    (hbase : WFbase h2)
    (hcap : h2.capacity = h.capacity)
    (hprs : h2.peak_request_size = larger h.peak_request_size n)
    (hoom : h2.oom_count = h.oom_count)
    (hpeakm : h.peak_allocated ≤ h2.peak_allocated)
    (hn16 : n + O1HEAP_ALIGNMENT ≤ h2.peak_allocated)
    (hncap : n ≤ h.capacity - O1HEAP_ALIGNMENT) : WF h2 := by
  have hcapmin := wf.base.cap_min
  have h32 := FRAGMENT_SIZE_MIN_eq
  have hA : O1HEAP_ALIGNMENT = 16 := rfl
  refine ⟨hbase, ?_, ?_, ?_⟩
  · rw [hprs, hcap, hoom]
    rcases wf.prs_cap with h1 | h1
    · left
      rw [larger_eq_max]
      omega
    · exact Or.inr h1
  · intro h0
    rw [hprs, larger_eq_max] at h0
    omega
  · intro h0
    rw [hprs, hoom]
    rcases Nat.eq_zero_or_pos h.peak_request_size with hz | hpos
    · left
      rw [larger_eq_max]
      rw [larger_eq_max] at hprs
      omega
    · rcases wf.prs_pos hpos with h1 | h1
      · left
        rw [larger_eq_max]
        rw [larger_eq_max] at hprs
        omega
      · exact Or.inr h1

/-- o1heapReallocate preserves WF on the documented precondition. -/
theorem o1heapReallocate_WF {h : Heap} (wf : WF h) {po : Option Nat} {n : Nat}
    (hval : validOp h (.realloc po n) = true) :
    WF (o1heapReallocate h po n).1 := by
  cases po with
  | none => exact o1heapAllocate_WF wf n
  | some p =>
    have h32 := FRAGMENT_SIZE_MIN_eq
    have hA : O1HEAP_ALIGNMENT = 16 := rfl
    have hmem : (p - O1HEAP_ALIGNMENT) ∈ h.usedAddrs := by
      simp [validOp] at hval
      exact hval.2
    obtain ⟨pre, f, suf, hsplit, hused, haddr⟩ := mem_usedAddrsFrom.mp hmem
    simp only [Nat.zero_add] at haddr
    have hpos : ∀ g ∈ h.frags, 0 < g.size := wf.base.frag_pos
    have hloc : locate 0 h.frags (p - O1HEAP_ALIGNMENT) = some (pre, f, suf) := by
      rw [hsplit, haddr]
      have h9 : locate 0 (pre ++ f :: suf) (0 + sumSizes pre) = some (pre, f, suf) :=
        locate_of_split (fun g hg => hpos g (by rw [hsplit]; simp [hg]))
      simpa using h9
    have hfmin : FRAGMENT_SIZE_MIN ≤ f.size := wf.base.frag_min f (by rw [hsplit]; simp)
    have hfmod : f.size % FRAGMENT_SIZE_MIN = 0 := wf.base.frag_mod f (by rw [hsplit]; simp)
    have husum0 : usedSum pre + (f.size + usedSum suf) = h.allocated := by
      have h1 := wf.base.alloc_eq
      rw [hsplit] at h1
      simp [hused] at h1
      omega
    have htot0 : sumSizes pre + (f.size + sumSizes suf) = h.capacity := by
      have h1 := wf.base.total
      rw [hsplit] at h1
      simp at h1
      omega
    have hch0 := wf.base.no_adj
    rw [hsplit] at hch0
    obtain ⟨hchPre, hchSuf⟩ := used_borders hch0
    simp only [o1heapReallocate]
    by_cases hn0 : n = 0
    · rw [if_pos hn0]
      exact WF_of_free wf (o1heapFree_success wf.base hmem).1
    rw [if_neg hn0]
    have hn : 0 < n := by omega
    by_cases hR3 : n > h.capacity - O1HEAP_ALIGNMENT
    · rw [if_pos hR3]
      refine ⟨wf.base.transport rfl rfl rfl rfl rfl rfl, Or.inr (by simp), ?_,
        fun _ => Or.inr (by simp)⟩
      intro h0
      simp only [larger_eq_max] at h0
      omega
    rw [if_neg hR3]
    have hncap : n ≤ h.capacity - O1HEAP_ALIGNMENT := by omega
    have hlocmid : locate 0
        ({ h with peak_request_size := larger h.peak_request_size n } : Heap).frags
        (p - O1HEAP_ALIGNMENT) = some (pre, f, suf) := hloc
    simp only [hlocmid]
    rw [if_neg (by simp [hused])]
    have wfmid : WFbase ({ h with peak_request_size := larger h.peak_request_size n } : Heap) :=
      wf.base.transport rfl rfl rfl rfl rfl rfl
    set NF := roundUpToPowerOf2 (n + O1HEAP_ALIGNMENT) with hNF
    have hNF_ge : n + O1HEAP_ALIGNMENT ≤ NF := roundUpToPowerOf2_ge _
    have hNF_min : FRAGMENT_SIZE_MIN ≤ NF := roundUpToPowerOf2_min _ (by rw [hA]; omega)
    have hNF_mod : NF % FRAGMENT_SIZE_MIN = 0 := roundUpToPowerOf2_mod _ (by rw [hA]; omega)
    have halloc_ge_f : f.size ≤ h.allocated := by omega
    have hpeak_ge_f : f.size ≤ h.peak_allocated := by
      have := wf.base.peak_ge
      omega
    by_cases hR4 : NF ≤ f.size
    · rw [if_pos hR4]
      by_cases hR4s : FRAGMENT_SIZE_MIN ≤ f.size - NF
      · rw [if_pos hR4s]
        by_cases hNext : neighborFree suf.head? = true
        · rw [if_pos hNext]
          obtain ⟨sh, hsh, hshu⟩ := neighborFree_some hNext
          have hsuf2 : sh :: suf.tail = suf := List.cons_head?_tail hsh
          have hshmem : sh ∈ h.frags := by
            rw [hsplit, ← hsuf2]
            simp
          have hshmin : FRAGMENT_SIZE_MIN ≤ sh.size := wf.base.frag_min sh hshmem
          have hshmod : sh.size % FRAGMENT_SIZE_MIN = 0 := wf.base.frag_mod sh hshmem
          have hsplitR : h.frags = pre ++ (⟨f.size, true⟩ : Frag) ::
              (⟨sh.size, false⟩ : Frag) :: suf.tail := by
            conv_lhs => rw [hsplit, ← hsuf2]
            rw [← Frag.eta_used hused, ← Frag.eta_free hshu]
          have hchB := wf.base.no_adj
          rw [hsplitR, List.chain'_append] at hchB
          have hchMid := hchB.2.1
          rw [List.chain'_cons] at hchMid
          have hchMid2 := hchMid.2
          rw [List.chain'_cons'] at hchMid2
          have hRhead : ∀ g ∈ suf.tail.head?, g.used = true := by
            intro g hg
            rcases hchMid2.1 g hg with h1 | h1
            · simp at h1
            · exact h1
          have hchR : List.Chain' (fun a b => a.used = true ∨ b.used = true) suf.tail :=
            hchMid2.2
          have hns : (if neighborFree suf.head? = true
              then neighborSize suf.head? else 0) = sh.size := by
            rw [if_pos hNext, hsh]
            rfl
          rw [hns, haddr]
          have hfl : freePairs 0 h.frags =
              freePairs 0 pre ++ (sumSizes pre + f.size, sh.size) ::
                freePairs (sumSizes pre + f.size + sh.size) suf.tail := by
            rw [hsplitR, freePairs_append]
            simp only [Nat.zero_add]
            rfl
          have husumR : usedSum pre + (f.size + usedSum suf.tail) = h.allocated := by
            have h1 := wf.base.alloc_eq
            rw [hsplitR] at h1
            simp [hshu] at h1
            omega
          have hmemN : (sumSizes pre + f.size, sh.size) ∈ freePairs 0 h.frags := by
            rw [hfl]
            simp
          have hkeyN : ∀ s2, (sumSizes pre + f.size, s2) ∈ freePairs 0 h.frags →
              s2 = sh.size :=
            fun s2 hs2 => freePairs_key_unique hpos hmemN hs2
          have hbrR : BinsRep ({ h with
                peak_request_size := larger h.peak_request_size n,
                allocated := h.allocated - (f.size - NF) } : Heap).bins
              ({ h with
                peak_request_size := larger h.peak_request_size n,
                allocated := h.allocated - (f.size - NF) } : Heap).nonempty_bin_mask
              (freePairs 0 h.frags) := wf.base.bins
          have hbr1 := hbrR.unbin hmemN hkeyN
          have hiff : ∀ q, q ∈ ((freePairs 0 h.frags).filter
              fun x => x.1 ≠ sumSizes pre + f.size) ↔
              q ∈ (freePairs 0 pre ++
                freePairs (sumSizes pre + f.size + sh.size) suf.tail) := by
            intro q
            rw [mem_filter_ne, hfl]
            constructor
            · rintro ⟨hq, hq1⟩
              rcases List.mem_append.mp hq with hq3 | hq3
              · exact List.mem_append_left _ hq3
              · rcases List.mem_cons.mp hq3 with hq4 | hq4
                · exact absurd (congrArg Prod.fst hq4) hq1
                · exact List.mem_append_right _ hq4
            · intro hq
              rcases List.mem_append.mp hq with hq1 | hq1
              · have hb := freePairs_bounds hq1
                have hqfl : (q.1, q.2) ∈ freePairs 0 h.frags := by
                  rw [hfl]
                  exact List.mem_append_left _ (by simpa using hq1)
                have hqmin := wf.base.freePair_min hqfl
                simp only at hb
                exact ⟨List.mem_append_left _ hq1, by omega⟩
              · have hb := freePairs_bounds hq1
                simp only at hb
                exact ⟨List.mem_append_right _ (List.mem_cons_of_mem _ hq1), by omega⟩
          have hbr2 := hbr1.congr hiff
          refine WF_of_realloc_inplace wf hn ?_ (by simp) (by simp) (by simp) (by simp)
            (by simp; omega) hncap
          refine WFbase_realloc_split wf.base rfl (by simp) ?_ ?_ hNF_min hNF_mod
            (by omega) ?_ hRhead hchPre hchR ?_ ?_ ?_
          · intro g hg
            rw [hsplitR]
            rcases hg with hg | hg <;> simp [hg]
          · have h1 := wf.base.total
            rw [hsplitR] at h1
            simp at h1
            omega
          · show (f.size - NF + sh.size) % FRAGMENT_SIZE_MIN = 0
            rw [h32] at hfmod hNF_mod hshmod ⊢
            omega
          · simp
            omega
          · left
            constructor
            · simp
            · simp
          · have hbase9 : sumSizes pre + NF + (f.size - NF + sh.size) =
                sumSizes pre + f.size + sh.size := by omega
            rw [hbase9]
            exact hbr2
        · rw [if_neg hNext]
          have hRheadU : ∀ g ∈ suf.head?, g.used = true :=
            neighborFree_false_used (by simpa using hNext)
          have hsplitN : h.frags = pre ++ (⟨f.size, true⟩ : Frag) :: suf := by
            conv_lhs => rw [hsplit]
            rw [← Frag.eta_used hused]
          rw [haddr]
          have hfl : freePairs 0 h.frags =
              freePairs 0 pre ++ freePairs (sumSizes pre + f.size) suf := by
            rw [hsplitN, freePairs_append]
            simp only [Nat.zero_add]
            rfl
          refine WF_of_realloc_inplace wf hn ?_ (by simp) (by simp) (by simp) (by simp)
            (by simp; omega) hncap
          refine WFbase_realloc_split wf.base rfl (by simp) ?_ ?_ hNF_min hNF_mod
            hR4s ?_ hRheadU hchPre hchSuf ?_ ?_ ?_
          · intro g hg
            rw [hsplitN]
            rcases hg with hg | hg <;> simp [hg]
          · have h1 := wf.base.total
            rw [hsplitN] at h1
            simp at h1
            omega
          · show (f.size - NF) % FRAGMENT_SIZE_MIN = 0
            rw [h32] at hfmod hNF_mod ⊢
            omega
          · simp
            omega
          · left
            constructor
            · simp
            · simp
          · have hbase9 : sumSizes pre + NF + (f.size - NF) = sumSizes pre + f.size := by
              omega
            rw [hbase9, ← hfl]
            exact wf.base.bins
      · rw [if_neg hR4s]
        exact WF_of_realloc_inplace wf hn wfmid rfl rfl rfl (Nat.le_refl _)
          (by show n + O1HEAP_ALIGNMENT ≤ h.peak_allocated; omega) hncap
    rw [if_neg hR4]
    by_cases hR5 : (neighborFree suf.head? &&
        decide (NF ≤ f.size + (if neighborFree suf.head? = true
          then neighborSize suf.head? else 0))) = true
    · rw [if_pos hR5]
      obtain ⟨hNext, hsz⟩ := Bool.and_eq_true_iff.mp hR5
      have hsz2 := of_decide_eq_true hsz
      obtain ⟨sh, hsh, hshu⟩ := neighborFree_some hNext
      have hsuf2 : sh :: suf.tail = suf := List.cons_head?_tail hsh
      have hshmem : sh ∈ h.frags := by
        rw [hsplit, ← hsuf2]
        simp
      have hshmin : FRAGMENT_SIZE_MIN ≤ sh.size := wf.base.frag_min sh hshmem
      have hshmod : sh.size % FRAGMENT_SIZE_MIN = 0 := wf.base.frag_mod sh hshmem
      have hsplitR : h.frags = pre ++ (⟨f.size, true⟩ : Frag) ::
          (⟨sh.size, false⟩ : Frag) :: suf.tail := by
        conv_lhs => rw [hsplit, ← hsuf2]
        rw [← Frag.eta_used hused, ← Frag.eta_free hshu]
      have hchB := wf.base.no_adj
      rw [hsplitR, List.chain'_append] at hchB
      have hchMid := hchB.2.1
      rw [List.chain'_cons] at hchMid
      have hchMid2 := hchMid.2
      rw [List.chain'_cons'] at hchMid2
      have hRhead : ∀ g ∈ suf.tail.head?, g.used = true := by
        intro g hg
        rcases hchMid2.1 g hg with h1 | h1
        · simp at h1
        · exact h1
      have hchR : List.Chain' (fun a b => a.used = true ∨ b.used = true) suf.tail :=
        hchMid2.2
      have hns : (if neighborFree suf.head? = true
          then neighborSize suf.head? else 0) = sh.size := by
        rw [if_pos hNext, hsh]
        rfl
      rw [hns] at hsz2
      rw [hns, haddr]
      have hfl : freePairs 0 h.frags =
          freePairs 0 pre ++ (sumSizes pre + f.size, sh.size) ::
            freePairs (sumSizes pre + f.size + sh.size) suf.tail := by
        rw [hsplitR, freePairs_append]
        simp only [Nat.zero_add]
        rfl
      have husumR : usedSum pre + (f.size + usedSum suf.tail) = h.allocated := by
        have h1 := wf.base.alloc_eq
        rw [hsplitR] at h1
        simp [hshu] at h1
        omega
      have hmemN : (sumSizes pre + f.size, sh.size) ∈ freePairs 0 h.frags := by
        rw [hfl]
        simp
      have hkeyN : ∀ s2, (sumSizes pre + f.size, s2) ∈ freePairs 0 h.frags →
          s2 = sh.size :=
        fun s2 hs2 => freePairs_key_unique hpos hmemN hs2
      have hbrR : BinsRep
          ({ h with peak_request_size := larger h.peak_request_size n } : Heap).bins
          ({ h with peak_request_size := larger h.peak_request_size n } : Heap).nonempty_bin_mask
          (freePairs 0 h.frags) := wf.base.bins
      have hbr1 := hbrR.unbin hmemN hkeyN
      have hiff : ∀ q, q ∈ ((freePairs 0 h.frags).filter
          fun x => x.1 ≠ sumSizes pre + f.size) ↔
          q ∈ (freePairs 0 pre ++
            freePairs (sumSizes pre + f.size + sh.size) suf.tail) := by
        intro q
        rw [mem_filter_ne, hfl]
        constructor
        · rintro ⟨hq, hq1⟩
          rcases List.mem_append.mp hq with hq3 | hq3
          · exact List.mem_append_left _ hq3
          · rcases List.mem_cons.mp hq3 with hq4 | hq4
            · exact absurd (congrArg Prod.fst hq4) hq1
            · exact List.mem_append_right _ hq4
        · intro hq
          rcases List.mem_append.mp hq with hq1 | hq1
          · have hb := freePairs_bounds hq1
            have hqfl : (q.1, q.2) ∈ freePairs 0 h.frags := by
              rw [hfl]
              exact List.mem_append_left _ (by simpa using hq1)
            have hqmin := wf.base.freePair_min hqfl
            simp only at hb
            exact ⟨List.mem_append_left _ hq1, by omega⟩
          · have hb := freePairs_bounds hq1
            simp only at hb
            exact ⟨List.mem_append_right _ (List.mem_cons_of_mem _ hq1), by omega⟩
      have hbr2 := hbr1.congr hiff
      by_cases hR5s : FRAGMENT_SIZE_MIN ≤ f.size + sh.size - NF
      · rw [if_pos hR5s]
        have hwfb : WFbase (rebin
            { unbin ({ h with peak_request_size := larger h.peak_request_size n } : Heap)
                (sumSizes pre + f.size) sh.size with
              frags := pre ++ (⟨NF, true⟩ : Frag) ::
                (⟨f.size + sh.size - NF, false⟩ : Frag) :: suf.tail,
              allocated := h.allocated + (NF - f.size),
              peak_allocated := larger h.peak_allocated (h.allocated + (NF - f.size)) }
            (sumSizes pre + NF) (f.size + sh.size - NF)) := by
          refine WFbase_realloc_split wf.base rfl (by simp) ?_ ?_ hNF_min hNF_mod
            hR5s ?_ hRhead hchPre hchR ?_ ?_ ?_
          · intro g hg
            rw [hsplitR]
            rcases hg with hg | hg <;> simp [hg]
          · have h1 := wf.base.total
            rw [hsplitR] at h1
            simp at h1
            omega
          · show (f.size + sh.size - NF) % FRAGMENT_SIZE_MIN = 0
            rw [h32] at hfmod hNF_mod hshmod ⊢
            omega
          · simp
            omega
          · right
            simp
          · have hbase9 : sumSizes pre + NF + (f.size + sh.size - NF) =
                sumSizes pre + f.size + sh.size := by omega
            rw [hbase9]
            exact hbr2
        refine WF_of_realloc_inplace wf hn ?_ (by simp) (by simp) (by simp) ?_ ?_ hncap
        · exact hwfb.transport (by simp) (by simp) (by simp [rebin_bins, Heap.bin])
            (by simp [rebin_mask]) (by simp) (by simp)
        · simpa using le_larger_left h.peak_allocated (h.allocated + (NF - f.size))
        · have h1 := le_larger_right h.peak_allocated (h.allocated + (NF - f.size))
          simp
          omega
      · rw [if_neg hR5s]
        refine WF_of_realloc_inplace wf hn ?_ (by simp) (by simp) (by simp) ?_ ?_ hncap
        · refine WFbase_realloc_absorb wf.base (by rfl) (by simp) ?_ ?_ (by omega) ?_
            hchPre hchR ?_ ?_ ?_
          · intro g hg
            rw [hsplitR]
            rcases hg with hg | hg <;> simp [hg]
          · have h1 := wf.base.total
            rw [hsplitR] at h1
            simp at h1
            omega
          · show (f.size + sh.size) % FRAGMENT_SIZE_MIN = 0
            rw [h32] at hfmod hshmod ⊢
            omega
          · simp
            omega
          · simp
          · have hbase9 : sumSizes pre + (f.size + sh.size) =
                sumSizes pre + f.size + sh.size := by omega
            rw [hbase9]
            exact hbr2
        · simpa using le_larger_left h.peak_allocated (h.allocated + sh.size)
        · have h1 := le_larger_right h.peak_allocated (h.allocated + sh.size)
          simp
          omega
    rw [if_neg hR5]
    by_cases hR6 : (neighborFree pre.getLast? &&
        decide (NF ≤ (if neighborFree pre.getLast? = true
            then neighborSize pre.getLast? else 0) + f.size +
          (if neighborFree suf.head? = true then neighborSize suf.head? else 0))) = true
    · rw [if_pos hR6]
      obtain ⟨hPrev, hsz⟩ := Bool.and_eq_true_iff.mp hR6
      have hsz2 := of_decide_eq_true hsz
      obtain ⟨gl, hgl, hglu⟩ := neighborFree_some hPrev
      have hpreNe : pre ≠ [] := by
        intro hc
        rw [hc] at hgl
        simp at hgl
      have hglval : pre.getLast hpreNe = gl := by
        have h1 := List.getLast?_eq_getLast pre hpreNe
        rw [hgl] at h1
        exact (Option.some.inj h1).symm
      have hpre2 : pre.dropLast ++ [gl] = pre := by
        rw [← hglval]
        exact List.dropLast_append_getLast hpreNe
      have hglmem : gl ∈ h.frags := by
        rw [hsplit, ← hpre2]
        simp
      have hglmin : FRAGMENT_SIZE_MIN ≤ gl.size := wf.base.frag_min gl hglmem
      have hglmod : gl.size % FRAGMENT_SIZE_MIN = 0 := wf.base.frag_mod gl hglmem
      have hXP : sumSizes pre = sumSizes pre.dropLast + gl.size := by
        conv_lhs => rw [← hpre2]
        simp
      have hsplitL : h.frags = pre.dropLast ++ (⟨gl.size, false⟩ : Frag) ::
          (⟨f.size, true⟩ : Frag) :: suf := by
        conv_lhs => rw [hsplit, ← hpre2]
        rw [← Frag.eta_free hglu, ← Frag.eta_used hused]
        simp
      have hchL0 := wf.base.no_adj
      rw [hsplitL] at hchL0
      obtain ⟨hLlast, _, hchL, _⟩ := free_borders hchL0
      have hps : (if neighborFree pre.getLast? = true
          then neighborSize pre.getLast? else 0) = gl.size := by
        rw [if_pos hPrev, hgl]
        rfl
      rw [hps] at hsz2
      rw [hps, haddr]
      have haddrP6 : sumSizes pre - gl.size = sumSizes pre.dropLast := by omega
      rw [haddrP6]
      by_cases hNext6 : neighborFree suf.head? = true
      · obtain ⟨sh, hsh, hshu⟩ := neighborFree_some hNext6
        have hsuf2 : sh :: suf.tail = suf := List.cons_head?_tail hsh
        have hshmem : sh ∈ h.frags := by
          rw [hsplit, ← hsuf2]
          simp
        have hshmin : FRAGMENT_SIZE_MIN ≤ sh.size := wf.base.frag_min sh hshmem
        have hshmod : sh.size % FRAGMENT_SIZE_MIN = 0 := wf.base.frag_mod sh hshmem
        have hns : (if neighborFree suf.head? = true
            then neighborSize suf.head? else 0) = sh.size := by
          rw [if_pos hNext6, hsh]
          rfl
        rw [hns] at hsz2
        rw [hns]
        rw [if_pos hNext6]
        rw [if_pos hNext6]
        rw [hXP]
        have hsplitB : h.frags = pre.dropLast ++ (⟨gl.size, false⟩ : Frag) ::
            (⟨f.size, true⟩ : Frag) :: (⟨sh.size, false⟩ : Frag) :: suf.tail := by
          conv_lhs => rw [hsplitL, ← hsuf2]
          rw [← Frag.eta_free hshu]
        have hchB := wf.base.no_adj
        rw [hsplitB, List.chain'_append] at hchB
        have hchMid := hchB.2.1
        rw [List.chain'_cons] at hchMid
        have hchMid2 := hchMid.2
        rw [List.chain'_cons] at hchMid2
        have hchMid3 := hchMid2.2
        rw [List.chain'_cons'] at hchMid3
        have hRhead : ∀ g ∈ suf.tail.head?, g.used = true := by
          intro g hg
          rcases hchMid3.1 g hg with h1 | h1
          · simp at h1
          · exact h1
        have hchR : List.Chain' (fun a b => a.used = true ∨ b.used = true) suf.tail :=
          hchMid3.2
        have hfl : freePairs 0 h.frags =
            freePairs 0 pre.dropLast ++ (sumSizes pre.dropLast, gl.size) ::
              (sumSizes pre.dropLast + gl.size + f.size, sh.size) ::
              freePairs (sumSizes pre.dropLast + gl.size + f.size + sh.size) suf.tail := by
          rw [hsplitB, freePairs_append]
          simp only [Nat.zero_add]
          rfl
        have husumB : usedSum pre.dropLast + (f.size + usedSum suf.tail) = h.allocated := by
          have h1 := wf.base.alloc_eq
          rw [hsplitB] at h1
          simp at h1
          omega
        have htotB : sumSizes pre.dropLast +
            (gl.size + (f.size + (sh.size + sumSizes suf.tail))) = h.capacity := by
          have h1 := wf.base.total
          rw [hsplitB] at h1
          simp at h1
          omega
        have hmemP : (sumSizes pre.dropLast, gl.size) ∈ freePairs 0 h.frags := by
          rw [hfl]
          simp
        have hkeyP : ∀ s2, (sumSizes pre.dropLast, s2) ∈ freePairs 0 h.frags →
            s2 = gl.size :=
          fun s2 hs2 => freePairs_key_unique hpos hmemP hs2
        have hbrR : BinsRep
            ({ h with peak_request_size := larger h.peak_request_size n } : Heap).bins
            ({ h with
              peak_request_size := larger h.peak_request_size n } : Heap).nonempty_bin_mask
            (freePairs 0 h.frags) := wf.base.bins
        have hbr1 := hbrR.unbin hmemP hkeyP
        have hmemN : (sumSizes pre.dropLast + gl.size + f.size, sh.size) ∈
            (freePairs 0 h.frags).filter (fun q => q.1 ≠ sumSizes pre.dropLast) := by
          refine mem_filter_ne.mpr ⟨?_, ?_⟩
          · rw [hfl]
            simp
          · show sumSizes pre.dropLast + gl.size + f.size ≠ sumSizes pre.dropLast
            omega
        have hkeyN : ∀ s2, (sumSizes pre.dropLast + gl.size + f.size, s2) ∈
            (freePairs 0 h.frags).filter (fun q => q.1 ≠ sumSizes pre.dropLast) →
            s2 = sh.size := by
          intro s2 hs2
          have h1 := (mem_filter_ne.mp hs2).1
          have h2 : (sumSizes pre.dropLast + gl.size + f.size, sh.size) ∈
              freePairs 0 h.frags := by
            rw [hfl]
            simp
          exact freePairs_key_unique hpos h2 h1
        have hbr2 := hbr1.unbin hmemN hkeyN
        have hiff : ∀ q, q ∈ (((freePairs 0 h.frags).filter
            (fun x => x.1 ≠ sumSizes pre.dropLast)).filter
              (fun x => x.1 ≠ sumSizes pre.dropLast + gl.size + f.size)) ↔
            q ∈ (freePairs 0 pre.dropLast ++
              freePairs (sumSizes pre.dropLast + gl.size + f.size + sh.size) suf.tail) := by
          intro q
          rw [mem_filter_ne, mem_filter_ne, hfl]
          constructor
          · rintro ⟨⟨hq, hq1⟩, hq2⟩
            rcases List.mem_append.mp hq with hq3 | hq3
            · exact List.mem_append_left _ hq3
            · rcases List.mem_cons.mp hq3 with hq4 | hq4
              · exact absurd (congrArg Prod.fst hq4) hq1
              · rcases List.mem_cons.mp hq4 with hq5 | hq5
                · exact absurd (congrArg Prod.fst hq5) hq2
                · exact List.mem_append_right _ hq5
          · intro hq
            rcases List.mem_append.mp hq with hq1 | hq1
            · have hb := freePairs_bounds hq1
              have hqfl : (q.1, q.2) ∈ freePairs 0 h.frags := by
                rw [hfl]
                exact List.mem_append_left _ (by simpa using hq1)
              have hqmin := wf.base.freePair_min hqfl
              simp only at hb
              refine ⟨⟨?_, by omega⟩, by omega⟩
              exact List.mem_append_left _ hq1
            · have hb := freePairs_bounds hq1
              simp only at hb
              refine ⟨⟨?_, by omega⟩, by omega⟩
              exact List.mem_append_right _
                (List.mem_cons_of_mem _ (List.mem_cons_of_mem _ hq1))
        have hbr3 := hbr2.congr hiff
        by_cases hR6s : FRAGMENT_SIZE_MIN ≤ gl.size + f.size + sh.size - NF
        · rw [if_pos hR6s]
          have hwfb : WFbase (rebin
              { unbin (unbin
                    ({ h with peak_request_size := larger h.peak_request_size n } : Heap)
                    (sumSizes pre.dropLast) gl.size)
                  (sumSizes pre.dropLast + gl.size + f.size) sh.size with
                frags := pre.dropLast ++ (⟨NF, true⟩ : Frag) ::
                  (⟨gl.size + f.size + sh.size - NF, false⟩ : Frag) :: suf.tail,
                allocated := h.allocated + (NF - f.size),
                peak_allocated := larger h.peak_allocated (h.allocated + (NF - f.size)) }
              (sumSizes pre.dropLast + NF) (gl.size + f.size + sh.size - NF)) := by
            refine WFbase_realloc_split wf.base rfl (by simp) ?_ ?_ hNF_min hNF_mod
              hR6s ?_ hRhead hchL hchR ?_ ?_ ?_
            · intro g hg
              rw [hsplitB]
              rcases hg with hg | hg <;> simp [hg]
            · omega
            · show (gl.size + f.size + sh.size - NF) % FRAGMENT_SIZE_MIN = 0
              rw [h32] at hglmod hfmod hNF_mod hshmod ⊢
              omega
            · simp
              omega
            · right
              simp
            · have hbase9 : sumSizes pre.dropLast + NF +
                  (gl.size + f.size + sh.size - NF) =
                  sumSizes pre.dropLast + gl.size + f.size + sh.size := by omega
              rw [hbase9]
              exact hbr3
          refine WF_of_realloc_inplace wf hn ?_ (by simp) (by simp) (by simp) ?_ ?_ hncap
          · exact hwfb.transport (by simp) (by simp) (by simp [rebin_bins, Heap.bin])
              (by simp [rebin_mask]) (by simp) (by simp)
          · simpa using le_larger_left h.peak_allocated (h.allocated + (NF - f.size))
          · have h1 := le_larger_right h.peak_allocated (h.allocated + (NF - f.size))
            simp
            omega
        · rw [if_neg hR6s]
          refine WF_of_realloc_inplace wf hn ?_ (by simp) (by simp) (by simp) ?_ ?_ hncap
          · refine WFbase_realloc_absorb wf.base (by rfl) (by simp) ?_ ?_ (by omega) ?_
              hchL hchR ?_ ?_ ?_
            · intro g hg
              rw [hsplitB]
              rcases hg with hg | hg <;> simp [hg]
            · omega
            · show (gl.size + f.size + sh.size) % FRAGMENT_SIZE_MIN = 0
              rw [h32] at hglmod hfmod hshmod ⊢
              omega
            · simp
              omega
            · simp
            · have hbase9 : sumSizes pre.dropLast + (gl.size + f.size + sh.size) =
                  sumSizes pre.dropLast + gl.size + f.size + sh.size := by omega
              rw [hbase9]
              exact hbr3
          · simpa using le_larger_left h.peak_allocated
              (h.allocated + (gl.size + sh.size))
          · have h1 := le_larger_right h.peak_allocated
              (h.allocated + (gl.size + sh.size))
            simp
            omega
      · have hns0 : (if neighborFree suf.head? = true
            then neighborSize suf.head? else 0) = 0 := if_neg hNext6
        rw [hns0] at hsz2
        rw [hns0]
        rw [if_neg hNext6]
        rw [if_neg hNext6]
        simp only [Nat.add_zero] at hsz2 ⊢
        have hRheadU : ∀ g ∈ suf.head?, g.used = true :=
          neighborFree_false_used (by simpa using hNext6)
        have hfl : freePairs 0 h.frags =
            freePairs 0 pre.dropLast ++ (sumSizes pre.dropLast, gl.size) ::
              freePairs (sumSizes pre.dropLast + gl.size + f.size) suf := by
          rw [hsplitL, freePairs_append]
          simp only [Nat.zero_add]
          rfl
        have husumL : usedSum pre.dropLast + (f.size + usedSum suf) = h.allocated := by
          have h1 := wf.base.alloc_eq
          rw [hsplitL] at h1
          simp at h1
          omega
        have htotL : sumSizes pre.dropLast + (gl.size + (f.size + sumSizes suf))
            = h.capacity := by
          have h1 := wf.base.total
          rw [hsplitL] at h1
          simp at h1
          omega
        have hmemP : (sumSizes pre.dropLast, gl.size) ∈ freePairs 0 h.frags := by
          rw [hfl]
          simp
        have hkeyP : ∀ s2, (sumSizes pre.dropLast, s2) ∈ freePairs 0 h.frags →
            s2 = gl.size :=
          fun s2 hs2 => freePairs_key_unique hpos hmemP hs2
        have hbrR : BinsRep
            ({ h with peak_request_size := larger h.peak_request_size n } : Heap).bins
            ({ h with
              peak_request_size := larger h.peak_request_size n } : Heap).nonempty_bin_mask
            (freePairs 0 h.frags) := wf.base.bins
        have hbr1 := hbrR.unbin hmemP hkeyP
        have hiff : ∀ q, q ∈ ((freePairs 0 h.frags).filter
            (fun x => x.1 ≠ sumSizes pre.dropLast)) ↔
            q ∈ (freePairs 0 pre.dropLast ++
              freePairs (sumSizes pre.dropLast + gl.size + f.size) suf) := by
          intro q
          rw [mem_filter_ne, hfl]
          constructor
          · rintro ⟨hq, hq1⟩
            rcases List.mem_append.mp hq with hq3 | hq3
            · exact List.mem_append_left _ hq3
            · rcases List.mem_cons.mp hq3 with hq4 | hq4
              · exact absurd (congrArg Prod.fst hq4) hq1
              · exact List.mem_append_right _ hq4
          · intro hq
            rcases List.mem_append.mp hq with hq1 | hq1
            · have hb := freePairs_bounds hq1
              have hqfl : (q.1, q.2) ∈ freePairs 0 h.frags := by
                rw [hfl]
                exact List.mem_append_left _ (by simpa using hq1)
              have hqmin := wf.base.freePair_min hqfl
              simp only at hb
              exact ⟨List.mem_append_left _ hq1, by omega⟩
            · have hb := freePairs_bounds hq1
              simp only at hb
              exact ⟨List.mem_append_right _ (List.mem_cons_of_mem _ hq1), by omega⟩
        have hbr2 := hbr1.congr hiff
        by_cases hR6s : FRAGMENT_SIZE_MIN ≤ gl.size + f.size - NF
        · rw [if_pos hR6s]
          have hwfb : WFbase (rebin
              { unbin ({ h with peak_request_size := larger h.peak_request_size n } : Heap)
                  (sumSizes pre.dropLast) gl.size with
                frags := pre.dropLast ++ (⟨NF, true⟩ : Frag) ::
                  (⟨gl.size + f.size - NF, false⟩ : Frag) :: suf,
                allocated := h.allocated + (NF - f.size),
                peak_allocated := larger h.peak_allocated (h.allocated + (NF - f.size)) }
              (sumSizes pre.dropLast + NF) (gl.size + f.size - NF)) := by
            refine WFbase_realloc_split wf.base rfl (by simp) ?_ ?_ hNF_min hNF_mod
              hR6s ?_ hRheadU hchL hchSuf ?_ ?_ ?_
            · intro g hg
              rw [hsplitL]
              rcases hg with hg | hg <;> simp [hg]
            · omega
            · show (gl.size + f.size - NF) % FRAGMENT_SIZE_MIN = 0
              rw [h32] at hglmod hfmod hNF_mod ⊢
              omega
            · simp
              omega
            · right
              simp
            · have hbase9 : sumSizes pre.dropLast + NF + (gl.size + f.size - NF) =
                  sumSizes pre.dropLast + gl.size + f.size := by omega
              rw [hbase9]
              exact hbr2
          refine WF_of_realloc_inplace wf hn ?_ (by simp) (by simp) (by simp) ?_ ?_ hncap
          · exact hwfb.transport (by simp) (by simp) (by simp [rebin_bins, Heap.bin])
              (by simp [rebin_mask]) (by simp) (by simp)
          · simpa using le_larger_left h.peak_allocated (h.allocated + (NF - f.size))
          · have h1 := le_larger_right h.peak_allocated (h.allocated + (NF - f.size))
            simp
            omega
        · rw [if_neg hR6s]
          refine WF_of_realloc_inplace wf hn ?_ (by simp) (by simp) (by simp) ?_ ?_ hncap
          · refine WFbase_realloc_absorb wf.base (by rfl) (by simp) ?_ ?_ (by omega) ?_
              hchL hchSuf ?_ ?_ ?_
            · intro g hg
              rw [hsplitL]
              rcases hg with hg | hg <;> simp [hg]
            · omega
            · show (gl.size + f.size) % FRAGMENT_SIZE_MIN = 0
              rw [h32] at hglmod hfmod ⊢
              omega
            · simp
              omega
            · simp
            · have hbase9 : sumSizes pre.dropLast + (gl.size + f.size) =
                  sumSizes pre.dropLast + gl.size + f.size := by omega
              rw [hbase9]
              exact hbr2
          · simpa using le_larger_left h.peak_allocated (h.allocated + gl.size)
          · have h1 := le_larger_right h.peak_allocated (h.allocated + gl.size)
            simp
            omega
    rw [if_neg hR6]
    -- R7: allocate a new block, copy, free the old block
    rcases hr : (o1heapAllocate
        ({ h with peak_request_size := larger h.peak_request_size n } : Heap) n).2
      with _ | q
    · have hcsnd : (allocateCore
          ({ h with peak_request_size := larger h.peak_request_size n } : Heap) n).2 = none := by
        rw [← o1heapAllocate_snd]
        exact hr
      have hcore := allocateCore_none _ n hcsnd
      have hres : o1heapAllocate
          ({ h with peak_request_size := larger h.peak_request_size n } : Heap) n =
          ({ h with
              peak_request_size := larger (larger h.peak_request_size n) n,
              oom_count := h.oom_count + 1 }, none) := by
        simp only [o1heapAllocate, hcore]
        rw [if_pos ⟨trivial, hn⟩]
      show WF (o1heapAllocate
        ({ h with peak_request_size := larger h.peak_request_size n } : Heap) n).1
      rw [hres]
      refine ⟨wf.base.transport rfl rfl rfl rfl rfl rfl, Or.inr (by simp), ?_,
        fun _ => Or.inr (by simp)⟩
      intro h0
      simp only [larger_eq_max] at h0
      omega
    · show WF (o1heapFree (o1heapAllocate
        ({ h with peak_request_size := larger h.peak_request_size n } : Heap) n).1 (some p))
      have hrun : o1heapAllocate
          ({ h with peak_request_size := larger h.peak_request_size n } : Heap) n =
          ((o1heapAllocate
            ({ h with peak_request_size := larger h.peak_request_size n } : Heap) n).1,
           some q) := by
        rw [← hr]
      have hcsnd : (allocateCore
          ({ h with peak_request_size := larger h.peak_request_size n } : Heap) n).2 =
          some q := by
        rw [← o1heapAllocate_snd]
        exact hr
      have hcore : allocateCore
          ({ h with peak_request_size := larger h.peak_request_size n } : Heap) n =
          ((allocateCore
            ({ h with peak_request_size := larger h.peak_request_size n } : Heap) n).1,
           some q) := by
        rw [← hcsnd]
      obtain ⟨hbase1, hcap1, hprs1, hoom1, halloc1, hpeak1, hge1, hn1, hcapn1, hq1, hperm1⟩ :=
        allocateCore_success wfmid hcore
      have hres : (o1heapAllocate
          ({ h with peak_request_size := larger h.peak_request_size n } : Heap) n).1 =
          { (allocateCore
              ({ h with peak_request_size := larger h.peak_request_size n } : Heap) n).1 with
            peak_request_size := larger (larger h.peak_request_size n) n } := by
        simp only [o1heapAllocate]
        rw [if_neg (by rw [hcsnd]; simp)]
        rw [hprs1]
      have hbase2 : WFbase (o1heapAllocate
          ({ h with peak_request_size := larger h.peak_request_size n } : Heap) n).1 := by
        rw [hres]
        exact hbase1.transport rfl rfl rfl rfl rfl rfl
      have hmem2 : (p - O1HEAP_ALIGNMENT) ∈ (o1heapAllocate
          ({ h with peak_request_size := larger h.peak_request_size n } : Heap) n).1.usedAddrs := by
        have hu : (o1heapAllocate
            ({ h with peak_request_size := larger h.peak_request_size n } : Heap) n).1.usedAddrs =
            usedAddrsFrom 0 (allocateCore
              ({ h with peak_request_size := larger h.peak_request_size n } : Heap) n).1.frags := by
          rw [hres]
          rfl
        rw [hu, hperm1.mem_iff]
        right
        exact hmem
      obtain ⟨hbase3, hperm3⟩ := o1heapFree_success hbase2 hmem2
      obtain ⟨hcapF, hpeakF, hprsF⟩ := free_frame (o1heapAllocate
        ({ h with peak_request_size := larger h.peak_request_size n } : Heap) n).1 (some p)
      have hoomF := free_oom_count (o1heapAllocate
        ({ h with peak_request_size := larger h.peak_request_size n } : Heap) n).1 (some p)
      refine WF_of_realloc_inplace wf hn hbase3 ?_ ?_ ?_ ?_ ?_ hncap
      · rw [hcapF, hres]
        simpa using hcap1
      · rw [hprsF, hres]
        show larger (larger h.peak_request_size n) n = larger h.peak_request_size n
        exact larger_idem _ _
      · rw [hoomF, hres]
        simpa using hoom1
      · rw [hpeakF, hres]
        show h.peak_allocated ≤ (allocateCore
          ({ h with peak_request_size := larger h.peak_request_size n } : Heap) n).1.peak_allocated
        rw [hpeak1]
        exact le_larger_left _ _
      · rw [hpeakF, hres]
        show n + O1HEAP_ALIGNMENT ≤ (allocateCore
          ({ h with peak_request_size := larger h.peak_request_size n } : Heap) n).1.peak_allocated
        have halloc2 : (allocateCore
            ({ h with peak_request_size := larger h.peak_request_size n } : Heap) n).1.allocated
            = h.allocated + NF := by
          simpa using halloc1
        have h1 := hbase1.peak_ge
        omega

/-! ## Trace-level preservation and peak monotonicity -/

/-- Any valid public call preserves WF. -/
theorem applyOp_WF {h : Heap} (wf : WF h) {op : Op} (hv : validOp h op = true) :
    WF (applyOp h op) := by
  cases op with
  | alloc n => exact o1heapAllocate_WF wf n
  | free po => exact o1heapFree_WF wf hv
  | realloc po n => exact o1heapReallocate_WF wf hv

theorem validTrace_cons {h : Heap} {op : Op} {ops : List Op}
    (hv : validTrace h (op :: ops) = true) :
    validOp h op = true ∧ validTrace (applyOp h op) ops = true := by
  simp only [validTrace] at hv
  exact Bool.and_eq_true_iff.mp hv

/-- WF holds at every state reachable by a valid trace. -/
theorem WF_runOps {h : Heap} (wf : WF h) {ops : List Op}
    (hv : validTrace h ops = true) : WF (runOps h ops) := by
  induction ops generalizing h with
  | nil => exact wf
  | cons op ops ih =>
    obtain ⟨h1, h2⟩ := validTrace_cons hv
    exact ih (applyOp_WF wf h1) h2

theorem runOps_append (h : Heap) (l1 l2 : List Op) :
    runOps h (l1 ++ l2) = runOps (runOps h l1) l2 := by
  induction l1 generalizing h with
  | nil => rfl
  | cons op ops ih => exact ih (applyOp h op)

theorem validTrace_append {h : Heap} {l1 l2 : List Op}
    (hv : validTrace h (l1 ++ l2) = true) :
    validTrace h l1 = true ∧ validTrace (runOps h l1) l2 = true := by
  induction l1 generalizing h with
  | nil => exact ⟨rfl, hv⟩
  | cons op ops ih =>
    have hv2 : validTrace (applyOp h op) (ops ++ l2) = true := (validTrace_cons hv).2
    obtain ⟨h3, h4⟩ := ih hv2
    refine ⟨?_, h4⟩
    simp only [validTrace]
    rw [(validTrace_cons hv).1, h3]
    rfl

/-- allocateCore never lowers the peak counter. -/
theorem allocateCore_peak_mono (h : Heap) (n : Nat) :
    h.peak_allocated ≤ (allocateCore h n).1.peak_allocated := by
  simp only [allocateCore]
  repeat' split
  all_goals simp [le_larger_left]

theorem o1heapAllocate_peak_frame (h : Heap) (n : Nat) :
    (o1heapAllocate h n).1.peak_allocated = (allocateCore h n).1.peak_allocated := by
  simp only [o1heapAllocate]
  split <;> rfl

theorem o1heapAllocate_peak_mono (h : Heap) (n : Nat) :
    h.peak_allocated ≤ (o1heapAllocate h n).1.peak_allocated := by
  rw [o1heapAllocate_peak_frame]
  exact allocateCore_peak_mono h n

/-- o1heapReallocate never lowers the peak counter. -/
theorem o1heapReallocate_peak_mono (h : Heap) (po : Option Nat) (n : Nat) :
    h.peak_allocated ≤ (o1heapReallocate h po n).1.peak_allocated := by
  cases po with
  | none => exact o1heapAllocate_peak_mono h n
  | some p =>
    simp only [o1heapReallocate]
    by_cases hn0 : n = 0
    · rw [if_pos hn0]
      exact Nat.le_of_eq ((free_frame h (some p)).2.1).symm
    rw [if_neg hn0]
    repeat' split
    all_goals try simp [le_larger_left]
    all_goals first
      | exact o1heapAllocate_peak_mono
          ({ h with peak_request_size := larger h.peak_request_size n } : Heap) n
      | (show h.peak_allocated ≤ (o1heapFree (o1heapAllocate
            ({ h with peak_request_size := larger h.peak_request_size n } : Heap) n).1
            (some p)).peak_allocated
         rw [(free_frame (o1heapAllocate
            ({ h with peak_request_size := larger h.peak_request_size n } : Heap) n).1
            (some p)).2.1]
         exact o1heapAllocate_peak_mono
            ({ h with peak_request_size := larger h.peak_request_size n } : Heap) n)

/-- No public call lowers the peak counter. -/
theorem applyOp_peak_mono (h : Heap) (op : Op) :
    h.peak_allocated ≤ (applyOp h op).peak_allocated := by
  cases op with
  | alloc n => exact o1heapAllocate_peak_mono h n
  | free po => exact Nat.le_of_eq ((free_frame h po).2.1).symm
  | realloc po n => exact o1heapReallocate_peak_mono h po n

/-- The peak counter is monotone along any sequence of public calls. -/
theorem runOps_peak_mono (h : Heap) (ops : List Op) :
    h.peak_allocated ≤ (runOps h ops).peak_allocated := by
  induction ops generalizing h with
  | nil => exact Nat.le_refl _
  | cons op ops ih => exact Nat.le_trans (applyOp_peak_mono h op) (ih (applyOp h op))

/-! ## C1, C2, C6: trace-level claims -/

/-- C1 (amended): along any valid trace from a well-formed heap,
peak_allocated never decreases and dominates the allocated counter of
every between-operations snapshot; the original claim that it *equals*
the maximum of those snapshots is refuted by the R7 counterexample
below, where the transient allocation inside the reallocate fallback
raises peak_allocated above every snapshot. -/
theorem c1_peak_monotone_dominates {h0 : Heap} (wf : WF h0) (ops1 ops2 : List Op)
    (hv : validTrace h0 (ops1 ++ ops2) = true) :
    h0.peak_allocated ≤ (runOps h0 (ops1 ++ ops2)).peak_allocated ∧
    (runOps h0 ops1).allocated ≤ (runOps h0 (ops1 ++ ops2)).peak_allocated := by
  obtain ⟨hv1, hv2⟩ := validTrace_append hv
  constructor
  · exact runOps_peak_mono h0 _
  · have hwf1 := WF_runOps wf hv1
    have h1 := hwf1.base.peak_ge
    have h2 : (runOps h0 ops1).peak_allocated ≤
        (runOps h0 (ops1 ++ ops2)).peak_allocated := by
      rw [runOps_append]
      exact runOps_peak_mono _ _
    omega

/-- C1 witness for the amended statement at a concrete trace. -/
theorem c1_peak_monotone_dominates_witness :
    exampleHeap.peak_allocated ≤
      (runOps exampleHeap ([Op.alloc 16] ++ [Op.free (some 16)])).peak_allocated ∧
    (runOps exampleHeap [Op.alloc 16]).allocated ≤
      (runOps exampleHeap ([Op.alloc 16] ++ [Op.free (some 16)])).peak_allocated :=
  c1_peak_monotone_dominates (@o1heapInit_WF 1600 exampleHeap (by decide))
    [Op.alloc 16] [Op.free (some 16)] (by decide)

/-- C1 counterexample: on the 1024-capacity example heap, the valid trace
alloc 16, alloc 16, realloc p=16 to 48 ends with peak_allocated = 128,
while the allocated counter between operations is 0, 32, 64 and 96: the
transient allocation step inside the reallocate fallback R7 (the old and
the new block momentarily both counted) raises peak_allocated above the
maximum of the between-operations snapshots, contradicting the claim that
peak_allocated equals that maximum. -/
theorem c1_counterexample :
    validTrace exampleHeap [Op.alloc 16, Op.alloc 16, Op.realloc (some 16) 48] = true ∧
    (runOps exampleHeap
      [Op.alloc 16, Op.alloc 16, Op.realloc (some 16) 48]).peak_allocated = 128 ∧
    exampleHeap.allocated = 0 ∧
    (runOps exampleHeap [Op.alloc 16]).allocated = 32 ∧
    (runOps exampleHeap [Op.alloc 16, Op.alloc 16]).allocated = 64 ∧
    (runOps exampleHeap
      [Op.alloc 16, Op.alloc 16, Op.realloc (some 16) 48]).allocated = 96 := by
  decide

/-- C2: from any successfully initialized heap, after every valid trace
the invariant check passes; moreover a nonzero peak_request_size forces
peak_request_size + A ≤ peak_allocated or a positive oom_count, and a
zero peak_request_size forces allocated, peak_allocated and oom_count to
all be zero. -/
theorem c2_invariants_hold {size : Nat} {h0 : Heap} (hinit : o1heapInit size = some h0)
    {ops : List Op} (hv : validTrace h0 ops = true) :
    o1heapDoInvariantsHold (runOps h0 ops) = true ∧
    (0 < (runOps h0 ops).peak_request_size →
      (runOps h0 ops).peak_request_size + O1HEAP_ALIGNMENT ≤
          (runOps h0 ops).peak_allocated ∨
        0 < (runOps h0 ops).oom_count) ∧
    ((runOps h0 ops).peak_request_size = 0 →
      (runOps h0 ops).allocated = 0 ∧ (runOps h0 ops).peak_allocated = 0 ∧
        (runOps h0 ops).oom_count = 0) := by
  have hwf := WF_runOps (o1heapInit_WF hinit) hv
  refine ⟨invariantsHold_of_WF hwf, hwf.prs_pos, ?_⟩
  intro h0p
  obtain ⟨hp, ho⟩ := hwf.prs_zero h0p
  have h1 := hwf.base.peak_ge
  exact ⟨by omega, hp, ho⟩

/-- C2 witness at a concrete init size and trace. -/
theorem c2_invariants_hold_witness :
    o1heapDoInvariantsHold (runOps exampleHeap [Op.alloc 16, Op.free (some 16)]) = true ∧
    (0 < (runOps exampleHeap [Op.alloc 16, Op.free (some 16)]).peak_request_size →
      (runOps exampleHeap [Op.alloc 16, Op.free (some 16)]).peak_request_size +
          O1HEAP_ALIGNMENT ≤
          (runOps exampleHeap [Op.alloc 16, Op.free (some 16)]).peak_allocated ∨
        0 < (runOps exampleHeap [Op.alloc 16, Op.free (some 16)]).oom_count) ∧
    ((runOps exampleHeap [Op.alloc 16, Op.free (some 16)]).peak_request_size = 0 →
      (runOps exampleHeap [Op.alloc 16, Op.free (some 16)]).allocated = 0 ∧
      (runOps exampleHeap [Op.alloc 16, Op.free (some 16)]).peak_allocated = 0 ∧
      (runOps exampleHeap [Op.alloc 16, Op.free (some 16)]).oom_count = 0) :=
  @c2_invariants_hold 1600 exampleHeap (by decide) [Op.alloc 16, Op.free (some 16)]
    (by decide)

/-- C6: after every valid trace from a successfully initialized heap, no
two address-adjacent fragments are both free: coalescing in o1heapFree is
eager and the split paths of allocate and reallocate never create a free
fragment adjacent to another free fragment. -/
theorem c6_no_adjacent_free {size : Nat} {h0 : Heap} (hinit : o1heapInit size = some h0)
    {ops : List Op} (hv : validTrace h0 ops = true) :
    List.Chain' (fun f g => f.used = true ∨ g.used = true) (runOps h0 ops).frags :=
  (WF_runOps (o1heapInit_WF hinit) hv).base.no_adj

/-- C6 witness at a concrete trace exercising allocation splits and a
coalescing free. -/
theorem c6_no_adjacent_free_witness :
    List.Chain' (fun f g => f.used = true ∨ g.used = true)
      (runOps exampleHeap [Op.alloc 16, Op.alloc 32, Op.free (some 16)]).frags :=
  @c6_no_adjacent_free 1600 exampleHeap (by decide)
    [Op.alloc 16, Op.alloc 32, Op.free (some 16)] (by decide)

end O1heap
